import Mathlib

/-!
# Vex-Library: motion planning and trajectory following

A shallow embedding of the headers under `include/lib` (Helpers.h, Vector.h, Pose.h,
VelocityProfile.h, PID.h, Trajectory.h, DifferentialDrive.h, HolonomicDrive.h) and of the
trajectory declared in `src/main.cpp`.

Modelling conventions

* The model has two layers.  In the exact layer (every definition that is not named
  `Rounded.…`) a C++ `float` is an element of a linearly ordered field `α` (the reals, or
  the rationals when a definition is evaluated on a concrete input) and arithmetic is exact:
  rounding, infinities and NaN are absent, and a quotient by zero is 0.
* The float layer (`Rounding`, `Ext`, the definitions named `Rounded.…` and
  `StaticProfile.getExt`) repeats the functions whose behaviour depends on float arithmetic:
  every operation is followed by the conversion to `float` or to `double` that C++ applies
  to it, and a division whose divisor may be zero is the IEEE division, which returns an
  infinity or NaN (`Ext`).  `Rounding.ieee` is round-to-nearest, ties to even, in binary32
  and binary64 with gradual underflow.  Overflow to an infinity and the sign of zero are not
  modelled.
* `fabs` is the absolute value, `fmax` is `max`, `fmod` is the truncated remainder and
  `copysign` gives the magnitude of its first argument the sign of its second (a zero second
  argument counts as positive).
* The remaining C math functions (`hypot`, `atan2f`, `cos`/`cosf`, `sin`/`sinf`, `pow`) are
  not part of the repository; they are taken as a parameter of type `Libm α`.
* `std::vector` is a `List`; `std::vector::at` on an index outside the vector throws
  `std::out_of_range`, which is modelled by `none`.
* Members that C++ leaves uninitialised (`Waypoint waypoint;`) are set to zero.
* Every read of a sensor or of the system clock is an explicit input of the operation that
  performs it; every motor command is part of its result.
-/

namespace Vex

/-! ## External math library -/

/-- The functions of the C math library used by the headers, as parameters of the model. -/
structure Libm (α : Type) where
  /-- `hypot(x, y)` -/
  hypot : α → α → α
  /-- `atan2f(y, x)` -/
  atan2f : α → α → α
  /-- `cos(x)` and `cosf(x)` -/
  cos : α → α
  /-- `sin(x)` and `sinf(x)` -/
  sin : α → α
  /-- `pow(b, e)` -/
  pow : α → α → α

section Model

variable {α : Type} [LinearOrderedField α]

/-! ## Include.h -/

/-- `const float PI = 3.14159265359` -/
def PI : α := 3.14159265359

/-- `const float E = 2.71828182846` -/
def E : α := 2.71828182846

/-- `const float RadToDeg = 180 / PI` -/
def RadToDeg : α := 180 / PI

/-- `const float autonomous_rotation_scaler = 0.4` -/
def autonomous_rotation_scaler : α := 0.4

/-! ## Helpers.h -/

/-- `float wrap(float current, float desired)` -/
def wrap (current desired : α) : α :=
  let error := current - desired
  let error := if error > 180 then error - 360 else if error < -180 then error + 360 else error
  (-error)

/-- C `fmod`: the remainder of `x / y` with the quotient truncated towards zero. -/
def fmod [FloorRing α] (x y : α) : α :=
  let q := x / y
  x - y * (if 0 ≤ q then (⌊q⌋ : α) else (⌈q⌉ : α))

/-- `float bound(float angle)` in exact arithmetic.  `Rounded.bound` is the function in float
arithmetic, where the remainder is computed in `double` and returned as a `float`. -/
def bound [FloorRing α] (angle : α) : α :=
  fmod (fmod angle 360 + 360) 360

/-- `float fitToRange(float value, float min, float max)` -/
def fitToRange (value min max : α) : α :=
  if value > max then max
  else if value < min then min
  else value

/-- C `copysign(x, y)`.  A zero `y` counts as positive: the sign that a float zero carries is
not modelled. -/
def copysign (x y : α) : α :=
  if y < 0 then -|x| else |x|

/-! ## Vector.h -/

/-- `class Vector` -/
structure Vector (α : Type) where
  x : α
  y : α
deriving DecidableEq, Repr

/-- `Vector(float angle)` -/
def Vector.ofAngle (m : Libm α) (angle : α) : Vector α :=
  { x := m.cos (angle / RadToDeg), y := m.sin (angle / RadToDeg) }

/-- `void Vector::rotate(float angle)` -/
def Vector.rotate (m : Libm α) (v : Vector α) (angle : α) : Vector α :=
  let angle := angle / RadToDeg
  let sine := m.sin angle
  let cosine := m.cos angle
  let t := v.x
  { x := cosine * v.x - sine * v.y, y := sine * t + cosine * v.y }

/-- `float Vector::getMagnitude()` -/
def Vector.getMagnitude (m : Libm α) (v : Vector α) : α :=
  m.hypot v.x v.y

/-- `float Vector::getAngle()` -/
def Vector.getAngle (m : Libm α) (v : Vector α) : α :=
  m.atan2f v.y v.x * RadToDeg

/-! ## Pose.h -/

/-- `class Pose` -/
structure Pose (α : Type) where
  x : α
  y : α
  w : α
deriving DecidableEq, Repr

/-- `Pose Pose::getError(Pose pose)` -/
def Pose.getError (self pose : Pose α) : Pose α :=
  { y := pose.y - self.y, x := pose.x - self.x, w := wrap self.w pose.w }

/-- `Vector Pose::getVector()` -/
def Pose.getVector (self : Pose α) : Vector α :=
  { x := self.x, y := self.y }

/-! ## VelocityProfile.h -/

/-- `class StaticProfile`; the constructor stores its six arguments (`distance = 100` by
default). -/
structure StaticProfile (α : Type) where
  s1 : α
  s2 : α
  k1 : α
  k2 : α
  m : α
  d : α
deriving DecidableEq, Repr

/-- `StaticProfile(s1, s2, k1, k2, m)` with the default `distance = 100`. -/
def StaticProfile.mk5 (s1 s2 k1 k2 m : α) : StaticProfile α :=
  { s1 := s1, s2 := s2, k1 := k1, k2 := k2, m := m, d := 100 }

/-- `float StaticProfile::get(float current)` in exact arithmetic, for non-zero speeds `s1`
and `s2`; `StaticProfile.getExt` is the function with the IEEE division, which covers a zero
speed. -/
def StaticProfile.get (lib : Libm α) (p : StaticProfile α) (current : α) : α :=
  let c1 := p.m / p.s1 - 1
  let c2 := p.m / p.s2 - 1
  let c1 := c1 * lib.pow E (-p.k1 * current) + 1
  let c2 := c2 * lib.pow E (p.k2 * current - p.k2 * p.d) + 1
  (p.m * p.m) / (c1 * c2)

/-! ## PID.h -/

/-- `class PID` -/
structure PID (α : Type) where
  p : α
  i : α
  d : α
  f : α
  lastTime : α
  lastError : α
  accum : α
  init : Bool
  range : Bool
  min : α
  max : α
deriving DecidableEq, Repr

/-- `PID(p, i, d, f, min, max)` -/
def PID.new (p i d f min max : α) : PID α :=
  if min ≠ 0 ∨ max ≠ 0 then
    { p := p, i := i, d := d, f := f, lastTime := 0, lastError := 0, accum := 0,
      init := true, range := true, min := min, max := max }
  else
    { p := p, i := i, d := d, f := f, lastTime := 0, lastError := 0, accum := 0,
      init := true, range := false, min := 0, max := 0 }

/-- `float PID::get(float position, float setpoint)` in exact arithmetic; `time` is the value
read from `vex::timer::system()`.  Returns the output and the updated controller.
`Rounded.PID.get` is the function in float arithmetic, where `time - 1` is rounded and the
quotient of the derivative term is the IEEE division. -/
def PID.get (self : PID α) (time position setpoint : α) : α × PID α :=
  let error := setpoint - position
  let self := if self.init then
      { self with lastTime := time - 1, lastError := error, accum := 0, init := false }
    else self
  let accum := error * (time - self.lastTime) + self.accum
  let kp := self.p * error
  let ki := self.i * accum
  let kd := self.d * ((error - self.lastError) / (time - self.lastTime))
  let kf := copysign self.f error
  let self' := { self with accum := accum, lastTime := time, lastError := error }
  if !self.range then (kp + ki + kd + kf, self')
  else (fitToRange (kp + ki + kd + kf) self.min self.max, self')

/-- `void PID::reset()` -/
def PID.reset (self : PID α) : PID α :=
  { self with init := true }

/-! ## Trajectory.h -/

section Trajectory

variable [FloorRing α]

/-- `enum PathType { linear, spline }` -/
inductive PathType where
  | linear
  | spline
deriving DecidableEq, Repr

/-- `struct Path` -/
structure Path (α : Type) where
  p0 : Vector α
  p1 : Vector α
  t0 : Vector α
  t1 : Vector α
deriving DecidableEq, Repr

/-- `struct PathPlus` -/
structure PathPlus (α : Type) where
  p0 : Vector α
  p1 : Vector α
  p2 : Vector α
  t0 : Vector α
  t1 : Vector α
  t2 : Vector α
deriving DecidableEq, Repr

/-- `struct Waypoint`; no constructor ever writes the member `type`, and the straight-line
constructors leave parts of `heading` unwritten: those members are zero (`linear`) here. -/
structure Waypoint (α : Type) where
  type : PathType
  dist : α
  heading : Pose α
deriving DecidableEq, Repr

/-- `struct HolonomicPose` -/
structure HolonomicPose (α : Type) where
  dist : α
  angle : α
deriving DecidableEq, Repr

/-- `std::vector::at` with an `int` index: a negative index converts to a huge unsigned one,
so it is out of range like every index past the end. -/
def vectorAt {β : Type} (v : List β) (i : Int) : Option β :=
  if i < 0 then none else v[i.toNat]?

/-- `Pose CubicHermiteInterpolation(Path path, Pose previous, float x)` -/
def CubicHermiteInterpolation (m : Libm α) (path : Path α) (previous : Pose α) (x : α) :
    Pose α :=
  let h1 := 2 * (x * x * x) - 3 * (x * x) + 1
  let h2 := -2 * (x * x * x) + 3 * (x * x)
  let h3 := (x * x * x) - 2 * (x * x) + x
  let h4 := (x * x * x) - (x * x)
  let cx := path.p0.x * h1 + path.p1.x * h2 + path.t0.x * h3 + path.t1.x * h4
  let cy := path.p0.y * h1 + path.p1.y * h2 + path.t0.y * h3 + path.t1.y * h4
  { x := cx, y := cy, w := Vector.getAngle m { x := cx - previous.x, y := cy - previous.y } }

/-- The `while` loop of `InterpolateHolonomicPose`, entered with the iterator at `s`:
`while (orientation.at(s).dist < x) { s++; if (s == orientation.size() - 1) break; }`.
The result is the value of `s` after the loop, or `none` when `at` throws. -/
def InterpolateHolonomicPose.loop (orientation : List (HolonomicPose α)) (x : α) (s : Nat) :
    Option Nat :=
  if h : s < orientation.length then
    if orientation[s].dist < x then
      if s + 1 = orientation.length - 1 then some (s + 1)
      else InterpolateHolonomicPose.loop orientation x (s + 1)
    else some s
  else none
termination_by orientation.length - s

/-- `float InterpolateHolonomicPose(std::vector<HolonomicPose> orientation, float x)` in
exact arithmetic; `none` when one of the `at` calls throws `std::out_of_range`.
`Rounded.InterpolateHolonomicPose` is the function in float arithmetic, where a bracket of
width zero divides by zero. -/
def InterpolateHolonomicPose (orientation : List (HolonomicPose α)) (x : α) : Option α :=
  if !orientation.isEmpty then do
    let s ← InterpolateHolonomicPose.loop orientation x 0
    let lo ← vectorAt orientation ((s : Int) - 1)
    let hi ← vectorAt orientation (s : Int)
    let angleError := wrap lo.angle hi.angle
    let distError := hi.dist - lo.dist
    let x := x - lo.dist
    pure (bound ((x / distError) * angleError + lo.angle))
  else
    pure (-1)

/-- The `while` loop of `get`, entered with the iterator at `i`:
`while (waypoints.at(i).dist < distanceTraveled) i++;`.  The result is the value of `i`
after the loop, or `none` when `at` throws. -/
def Waypoint.scan (waypoints : List (Waypoint α)) (distanceTraveled : α) (i : Nat) :
    Option Nat :=
  if h : i < waypoints.length then
    if waypoints[i].dist < distanceTraveled then Waypoint.scan waypoints distanceTraveled (i + 1)
    else some i
  else none
termination_by waypoints.length - i

/-- The body shared by `DifferentialTrajectory::get` and `HolonomicTrajectory::get`. -/
def Waypoint.lookup (waypoints : List (Waypoint α)) (distanceTraveled : α) :
    Option (Waypoint α) := do
  let i ← Waypoint.scan waypoints distanceTraveled 0
  waypoints[i]?

/-! ### DifferentialTrajectory -/

/-- `class DifferentialTrajectory` -/
structure DifferentialTrajectory (α : Type) where
  waypoints : List (Waypoint α)
  initialPose : Pose α
  finalPose : Pose α
  type : PathType
  length : α
  index : Nat
  reverse : Bool
deriving DecidableEq, Repr

/-- The object as the default member initialisers leave it, before a constructor body runs. -/
def DifferentialTrajectory.fresh : DifferentialTrajectory α :=
  { waypoints := [], initialPose := ⟨0, 0, 0⟩, finalPose := ⟨0, 0, 0⟩, type := .linear,
    length := 0, index := 0, reverse := false }

/-- The `for` loop of `DifferentialTrajectory(float, StaticProfile)` with `n` iterations left
and the iterator at `i`. -/
def DifferentialTrajectory.lineLoop (m : Libm α) (trajectory1D : α) (profile : StaticProfile α) :
    Nat → Nat → List (Waypoint α)
  | 0, _ => []
  | n + 1, i =>
    let x : α := 0.01 * (i : α)
    let waypoint : Waypoint α :=
      { type := .linear, dist := x * |trajectory1D|,
        heading := { x := 0, y := copysign (profile.get m (i : α)) trajectory1D, w := 0 } }
    waypoint :: DifferentialTrajectory.lineLoop m trajectory1D profile n (i + 1)

/-- `DifferentialTrajectory(float trajectory1D, StaticProfile profile)` -/
def DifferentialTrajectory.line (m : Libm α) (trajectory1D : α) (profile : StaticProfile α) :
    DifferentialTrajectory α :=
  { (DifferentialTrajectory.fresh : DifferentialTrajectory α) with
    waypoints := DifferentialTrajectory.lineLoop m trajectory1D profile 100 1
    type := .linear
    length := |trajectory1D| }

/-- The `for` loop of `DifferentialTrajectory::generate` with `n` iterations left, the
iterator at `i` and the locals `previous`, `dist`; `length` and `index` are the members read
inside the loop.  Returns the waypoints pushed and the final value of `dist`.  The sums are
exact; `Rounded.DifferentialTrajectory.generateLoop` rounds each of them to `float`. -/
def DifferentialTrajectory.generateLoop (m : Libm α) (path : Path α) ( reverse : Bool)
    (segment : α) (profile : StaticProfile α) (length : α) (index : Nat) :
    Nat → Nat → Pose α → α → List (Waypoint α) × α
  | 0, _, _, dist => ([], dist)
  | n + 1, i, previous, dist =>
    let x := segment * (i : α)
    let current := CubicHermiteInterpolation m path previous x
    let previous := previous.getError current
    let speed := (1 / (autonomous_rotation_scaler * |previous.w| + 1)) *
      profile.get m ((i + index : Nat) : α)
    let waypoint : Waypoint α :=
      { type := .linear, dist := length + dist + previous.getVector.getMagnitude m,
        heading := { x := 0, y := if reverse then -speed else speed,
                     w := bound (current.w - 90 + (if reverse then 180 else 0)) } }
    let dist := dist + previous.getVector.getMagnitude m
    let previous := current
    let rest := DifferentialTrajectory.generateLoop m path reverse segment profile length index
      n (i + 1) previous dist
    (waypoint :: rest.1, rest.2)

/-- `std::vector<Waypoint> DifferentialTrajectory::generate(path, reverse, clarity, profile)`:
the returned waypoints and the object with its members updated. -/
def DifferentialTrajectory.generate (m : Libm α) (self : DifferentialTrajectory α)
    (path : Path α) ( reverse : Bool) (clarity : Nat) (profile : StaticProfile α) :
    List (Waypoint α) × DifferentialTrajectory α :=
  let segment : α := 1 / (clarity : α)
  let previous : Pose α := { x := path.p0.x, y := path.p0.y, w := path.t0.getAngle m }
  let out := DifferentialTrajectory.generateLoop m path reverse segment profile
    self.length self.index clarity 1 previous 0
  (out.1,
   { self with
     initialPose := { x := path.p0.x, y := path.p0.y,
                      w := bound (path.t0.getAngle m - 90 + (if reverse then 180 else 0)) }
     finalPose := { x := path.p1.x, y := path.p1.y,
                    w := bound (path.t1.getAngle m - 90 + (if reverse then 180 else 0)) }
     length := out.2
     index := clarity })

/-- `DifferentialTrajectory(Path path, StaticProfile profile, bool reverse = false)` -/
def DifferentialTrajectory.ofPath (m : Libm α) (path : Path α) (profile : StaticProfile α)
    ( reverse : Bool) : DifferentialTrajectory α :=
  let g := DifferentialTrajectory.generate m DifferentialTrajectory.fresh path reverse 100 profile
  { g.2 with waypoints := g.1, reverse := reverse, type := .spline }

/-- `DifferentialTrajectory(PathPlus path, StaticProfile profile, bool reverse = false)` in
exact arithmetic; `Rounded.DifferentialTrajectory.ofPathPlus` is the constructor in float
arithmetic. -/
def DifferentialTrajectory.ofPathPlus (m : Libm α) (path : PathPlus α)
    (profile : StaticProfile α) ( reverse : Bool) : DifferentialTrajectory α :=
  let g1 := DifferentialTrajectory.generate m DifferentialTrajectory.fresh
    { p0 := path.p0, p1 := path.p1, t0 := path.t0, t1 := path.t1 } reverse 50 profile
  let self := { g1.2 with waypoints := g1.1 }
  let tempInitialPose := self.initialPose
  let tempLength := self.length
  let g2 := DifferentialTrajectory.generate m self
    { p0 := path.p1, p1 := path.p2, t0 := path.t1, t1 := path.t2 } reverse 50 profile
  let waypoints2 := g2.1
  let self := g2.2
  { self with
    initialPose := tempInitialPose
    length := tempLength + self.length
    waypoints := self.waypoints ++ waypoints2
    reverse := reverse
    type := .spline }

/-- `Waypoint DifferentialTrajectory::get(float distanceTraveled)` -/
def DifferentialTrajectory.get (self : DifferentialTrajectory α) (distanceTraveled : α) :
    Option (Waypoint α) :=
  Waypoint.lookup self.waypoints distanceTraveled

/-! ### HolonomicTrajectory -/

/-- `class HolonomicTrajectory` -/
structure HolonomicTrajectory (α : Type) where
  waypoints : List (Waypoint α)
  initialPose : Pose α
  finalPose : Pose α
  type : PathType
  orientation : Bool
  index : Nat
  aIndex : Nat
  length : α
deriving DecidableEq, Repr

/-- The object as the default member initialisers leave it, before a constructor body runs. -/
def HolonomicTrajectory.fresh : HolonomicTrajectory α :=
  { waypoints := [], initialPose := ⟨0, 0, 0⟩, finalPose := ⟨0, 0, 0⟩, type := .linear,
    orientation := false, index := 0, aIndex := 0, length := 0 }

/-- The `for` loop of `HolonomicTrajectory(Vector, StaticProfile, orientation)` with `n`
iterations left and the iterator at `i`; `none` when `InterpolateHolonomicPose` throws. -/
def HolonomicTrajectory.lineLoop (m : Libm α) (angle distance : α) (profile : StaticProfile α)
    (orientation : List (HolonomicPose α)) : Nat → Nat → Option (List (Waypoint α))
  | 0, _ => some []
  | n + 1, i => do
    let x : α := 0.01 * (i : α)
    let speed := profile.get m (i : α)
    let w ← InterpolateHolonomicPose orientation x
    let waypoint : Waypoint α :=
      { type := .linear, dist := distance * x,
        heading := { x := speed * m.cos angle, y := speed * m.sin angle, w := w } }
    let rest ← HolonomicTrajectory.lineLoop m angle distance profile orientation n (i + 1)
    pure (waypoint :: rest)

/-- `HolonomicTrajectory(Vector trajectory2D, StaticProfile profile, orientation = {})` -/
def HolonomicTrajectory.line (m : Libm α) (trajectory2D : Vector α) (profile : StaticProfile α)
    (orientation : List (HolonomicPose α)) : Option (HolonomicTrajectory α) := do
  let angle := trajectory2D.getAngle m / RadToDeg
  let distance := trajectory2D.getMagnitude m
  let waypoints ← HolonomicTrajectory.lineLoop m angle distance profile orientation 100 1
  pure { (HolonomicTrajectory.fresh : HolonomicTrajectory α) with
         waypoints := waypoints
         type := .linear
         orientation := !orientation.isEmpty
         length := distance }

/-- The `for` loop of `HolonomicTrajectory::generate` with `n` iterations left, the iterator
at `i` and the locals `previous`, `dist`; `length`, `index` and `aIndex` are the members read
inside the loop.  Returns the waypoints pushed and the final value of `dist`, or `none` when
`InterpolateHolonomicPose` throws.  The sums are exact; in float arithmetic they are rounded
as in `Rounded.DifferentialTrajectory.generateLoop`, which has the same two statements. -/
def HolonomicTrajectory.generateLoop (m : Libm α) (path : Path α)
    (orientation : List (HolonomicPose α)) (segment : α) (profile : StaticProfile α)
    (length : α) (index aIndex : Nat) :
    Nat → Nat → Pose α → α → Option (List (Waypoint α) × α)
  | 0, _, _, dist => some ([], dist)
  | n + 1, i, previous, dist => do
    let x := segment * (i : α)
    let current := CubicHermiteInterpolation m path previous x
    let previous := previous.getError current
    let speed := (1 / (autonomous_rotation_scaler * |previous.w| + 1)) *
      profile.get m ((i + index : Nat) : α)
    let w ← InterpolateHolonomicPose orientation ((aIndex : α) + x)
    let waypoint : Waypoint α :=
      { type := .linear, dist := length + dist + previous.getVector.getMagnitude m,
        heading := { x := m.cos (previous.getVector.getAngle m / RadToDeg) * speed,
                     y := m.sin (previous.getVector.getAngle m / RadToDeg) * speed,
                     w := w } }
    let dist := dist + previous.getVector.getMagnitude m
    let previous := current
    let rest ← HolonomicTrajectory.generateLoop m path orientation segment profile length index
      aIndex n (i + 1) previous dist
    pure (waypoint :: rest.1, rest.2)

/-- `std::vector<Waypoint> HolonomicTrajectory::generate(path, orientation, clarity, profile)`:
the returned waypoints and the object with its members updated, or `none` when the loop
throws. -/
def HolonomicTrajectory.generate (m : Libm α) (self : HolonomicTrajectory α)
    (path : Path α) (orientation : List (HolonomicPose α)) (clarity : Nat)
    (profile : StaticProfile α) : Option (List (Waypoint α) × HolonomicTrajectory α) := do
  let segment : α := 1 / (clarity : α)
  let previous : Pose α := { x := path.p0.x, y := path.p0.y, w := path.t0.getAngle m }
  let out ← HolonomicTrajectory.generateLoop m path orientation segment profile
    self.length self.index self.aIndex clarity 1 previous 0
  pure (out.1,
   { self with
     initialPose := { x := path.p0.x, y := path.p0.y,
                      w := match orientation.head? with
                           | none => 0
                           | some k => k.angle }
     finalPose := { x := path.p1.x, y := path.p1.y,
                    w := match orientation.getLast? with
                         | none => 0
                         | some k => k.angle }
     length := out.2
     aIndex := 1
     index := clarity })

/-- `HolonomicTrajectory(Path path, StaticProfile profile, orientation = {})` -/
def HolonomicTrajectory.ofPath (m : Libm α) (path : Path α) (profile : StaticProfile α)
    (orientation : List (HolonomicPose α)) : Option (HolonomicTrajectory α) := do
  let g ← HolonomicTrajectory.generate m HolonomicTrajectory.fresh path orientation 100 profile
  pure { g.2 with waypoints := g.1, orientation := !orientation.isEmpty, type := .spline }

/-- `HolonomicTrajectory(PathPlus path, StaticProfile profile, orientation = {})` in exact
arithmetic. -/
def HolonomicTrajectory.ofPathPlus (m : Libm α) (path : PathPlus α)
    (profile : StaticProfile α) (orientation : List (HolonomicPose α)) :
    Option (HolonomicTrajectory α) := do
  let g1 ← HolonomicTrajectory.generate m HolonomicTrajectory.fresh
    { p0 := path.p0, p1 := path.p1, t0 := path.t0, t1 := path.t1 } orientation 50 profile
  let self := { g1.2 with waypoints := g1.1 }
  let tempInitialPose := self.initialPose
  let tempLength := self.length
  let g2 ← HolonomicTrajectory.generate m self
    { p0 := path.p1, p1 := path.p2, t0 := path.t1, t1 := path.t2 } orientation 50 profile
  let waypoints2 := g2.1
  let self := g2.2
  pure { self with
         initialPose := tempInitialPose
         length := tempLength + self.length
         waypoints := self.waypoints ++ waypoints2
         orientation := !orientation.isEmpty
         type := .spline }

/-- `Waypoint HolonomicTrajectory::get(float distanceTraveled)` -/
def HolonomicTrajectory.get (self : HolonomicTrajectory α) (distanceTraveled : α) :
    Option (Waypoint α) :=
  Waypoint.lookup self.waypoints distanceTraveled

end Trajectory

/-! ## Motors, sensors and clock -/

/-- What one call leaves commanded on the four motors: `spin(forward, v, rpm)` on each of
`FR`, `FL`, `RL`, `RR`, or `stop()` on all four. -/
inductive MotorCommand (α : Type) where
  | spin (FR FL RL RR : α)
  | stop
deriving DecidableEq, Repr

/-- The values read during one tick, in the order the code reads them: `inertial.heading()`,
the two reads of `vex::timer::system()` in `localize`, the encoder velocities (dps), and the
read of `vex::timer::system()` inside `PID::get`. -/
structure Readings (α : Type) where
  gyro : α
  time1 : α
  time2 : α
  encoderLeft : α
  encoderRight : α
  encoderRear : α
  pidTime : α
deriving DecidableEq, Repr

section Drive

variable [FloorRing α]

/-! ## DifferentialDrive.h -/

/-- The mutable members of `class DifferentialDrive`. -/
structure DifferentialDrive (α : Type) where
  lastTime : α
  distanceTraveled : α
  omegaPID : PID α
  pose : Pose α
  velocity : Vector α
deriving DecidableEq, Repr

namespace DifferentialDrive

/-- `const float MAX_VELOCITY = 200` -/
def MAX_VELOCITY : α := 200

/-- `const float W_SCALER = 0.6` -/
def W_SCALER : α := 0.6

/-- `const float ODOMETRY_WHEEL_DIAMEMETER = 2.75` -/
def ODOMETRY_WHEEL_DIAMEMETER : α := 2.75

/-- `const float DpsToRps = ODOMETRY_WHEEL_DIAMEMETER * PI / 360` -/
def DpsToRps : α := ODOMETRY_WHEEL_DIAMEMETER * PI / 360

/-- The object as the member initialisers leave it. -/
def new : DifferentialDrive α :=
  { lastTime := 0, distanceTraveled := 0, omegaPID := PID.new 0.008 0 0 0.008 (-1) 1,
    pose := ⟨0, 0, 0⟩, velocity := ⟨0, 0⟩ }

/-- `void drive(float left, float right)` -/
def drive (left right : α) : MotorCommand α :=
  let right := right * MAX_VELOCITY
  let left := left * MAX_VELOCITY
  .spin right left left right

/-- The pair `(left, right)` that `arcadeDrive(y, w)` hands to `drive`. -/
def arcadeDriveArgs (y w : α) : α × α :=
  let w := w * W_SCALER
  let right := y - w
  let left := y + w
  let max := Max.max (Max.max |right| 1) left
  let right := right / max
  let left := left / max
  (left, right)

/-- `void arcadeDrive(float y, float w)` -/
def arcadeDrive (y w : α) : MotorCommand α :=
  drive (arcadeDriveArgs y w).1 (arcadeDriveArgs y w).2

/-- `void stop()` -/
def stop : MotorCommand α := .stop

/-- `void localize()` -/
def localize (m : Libm α) (self : DifferentialDrive α) (r : Readings α) : DifferentialDrive α :=
  let pose := { self.pose with w := r.gyro }
  let time := (r.time1 - self.lastTime) / 1000
  let lastTime := r.time2
  let left := r.encoderLeft * DpsToRps
  let right := r.encoderRight * DpsToRps
  let velocity : Vector α := { x := 0, y := (right + left) / 2 }
  let velocity := velocity.rotate m pose.w
  let dist : Vector α := { x := velocity.x * time, y := velocity.y * time }
  { self with
    lastTime := lastTime
    velocity := velocity
    distanceTraveled := self.distanceTraveled + dist.getMagnitude m
    pose := { pose with x := pose.x + dist.x, y := pose.y + dist.y } }

/-- `float follow(DifferentialTrajectory trajectory)`: the value returned, the object after
the call and the motor command issued; `none` when `trajectory.get` throws. -/
def follow (m : Libm α) (self : DifferentialDrive α) (trajectory : DifferentialTrajectory α)
    (r : Readings α) : Option (α × DifferentialDrive α × MotorCommand α) :=
  let self := localize m self r
  let progress := fitToRange (self.distanceTraveled / trajectory.length) 0 1
  if progress < 1 then do
    let waypoint ← trajectory.get self.distanceTraveled
    if trajectory.type = .spline then
      let out := self.omegaPID.get r.pidTime (wrap self.pose.w waypoint.heading.w) 0
      pure (progress, { self with omegaPID := out.2 }, arcadeDrive waypoint.heading.y out.1)
    else
      pure (progress, self, arcadeDrive waypoint.heading.y 0)
  else
    pure (1, self, stop)

end DifferentialDrive

/-! ## HolonomicDrive.h -/

/-- The mutable members of `class HolonomicDrive`. -/
structure HolonomicDrive (α : Type) where
  pose : Pose α
  velocity : Vector α
  progress : Int
  fieldCentric : Bool
  omegaPID : PID α
  lastTime : α
  distanceTraveled : α
deriving DecidableEq, Repr

namespace HolonomicDrive

/-- `const float ODOMETRY_WHEEL_DIAMETER = 2.75` -/
def ODOMETRY_WHEEL_DIAMETER : α := 2.75

/-- `const float WHEEL_MAX_RPM = 180` -/
def WHEEL_MAX_RPM : α := 180

/-- `const float DpsToRps = ODOMETRY_WHEEL_DIAMETER * PI / 360` -/
def DpsToRps : α := ODOMETRY_WHEEL_DIAMETER * PI / 360

/-- `Vector FR_component {135}` -/
def FR_component (m : Libm α) : Vector α := Vector.ofAngle m 135

/-- `Vector FL_component {45}` -/
def FL_component (m : Libm α) : Vector α := Vector.ofAngle m 45

/-- `Vector RL_component {135}` -/
def RL_component (m : Libm α) : Vector α := Vector.ofAngle m 135

/-- `Vector RR_component {45}` -/
def RR_component (m : Libm α) : Vector α := Vector.ofAngle m 45

/-- The object as the member initialisers leave it. -/
def new : HolonomicDrive α :=
  { pose := ⟨0, 0, 0⟩, velocity := ⟨0, 0⟩, progress := 0, fieldCentric := true,
    omegaPID := PID.new 0.015 0 0 0.008 (-1) 1, lastTime := 0, distanceTraveled := 0 }

/-- `void localize()` -/
def localize (m : Libm α) (self : HolonomicDrive α) (r : Readings α) : HolonomicDrive α :=
  let pose := { self.pose with w := r.gyro }
  let time := (r.time1 - self.lastTime) / 1000
  let lastTime := r.time2
  let left := r.encoderLeft * DpsToRps
  let right := r.encoderRight * DpsToRps
  let rear := r.encoderRear * DpsToRps
  let rot := (left - right) / 2
  let velocity : Vector α := { x := rear - rot, y := ((right - rot) + (left + rot)) / 2 }
  let velocity := velocity.rotate m pose.w
  let dist : Vector α := { x := velocity.x * time, y := velocity.y * time }
  { self with
    lastTime := lastTime
    velocity := velocity
    distanceTraveled := self.distanceTraveled + dist.getMagnitude m
    pose := { pose with x := pose.x + dist.x, y := pose.y + dist.y } }

/-- The values `(fr, fl, rl, rr)` of `arcadeDrive` before the projections are scaled: the raw
wheel projections of the translation and rotation inputs. -/
def arcadeDriveRaw (m : Libm α) (self : HolonomicDrive α) (translation : Vector α) (w : α) :
    α × α × α × α :=
  let translation := if self.fieldCentric then translation.rotate m (-self.pose.w) else translation
  let fr := (translation.y * (FR_component m).y) + (translation.x * (FR_component m).x) - w
  let fl := (translation.y * (FL_component m).y) + (translation.x * (FL_component m).x) + w
  let rl := (translation.y * (RL_component m).y) + (translation.x * (RL_component m).x) + w
  let rr := (translation.y * (RR_component m).y) + (translation.x * (RR_component m).x) - w
  (fr, fl, rl, rr)

/-- The values `(fr, fl, rl, rr)` of `arcadeDrive` just before the multiplication by
`WHEEL_MAX_RPM`. -/
def arcadeDriveFractions (m : Libm α) (self : HolonomicDrive α) (translation : Vector α)
    (w : α) : α × α × α × α :=
  let raw := arcadeDriveRaw m self translation w
  let fr := raw.1
  let fl := raw.2.1
  let rl := raw.2.2.1
  let rr := raw.2.2.2
  let max := Max.max (Max.max |fr| |fl|) (Max.max |rl| |rr|)
  if max > 1 then (fr / max, fl / max, rl / max, rr / max)
  else (fr, fl, rl, rr)

/-- `void arcadeDrive(Vector translation, float w)` -/
def arcadeDrive (m : Libm α) (self : HolonomicDrive α) (translation : Vector α) (w : α) :
    MotorCommand α :=
  let q := arcadeDriveFractions m self translation w
  .spin (q.1 * WHEEL_MAX_RPM) (q.2.1 * WHEEL_MAX_RPM) (q.2.2.1 * WHEEL_MAX_RPM)
    (q.2.2.2 * WHEEL_MAX_RPM)

/-- `void stop()` -/
def stop : MotorCommand α := .stop

/-- `float follow(HolonomicTrajectory trajectory)`: the value returned, the object after the
call and the motor command issued; `none` when `trajectory.get` throws. -/
def follow (m : Libm α) (self : HolonomicDrive α) (trajectory : HolonomicTrajectory α)
    (r : Readings α) : Option (α × HolonomicDrive α × MotorCommand α) :=
  let self := localize m self r
  let progress := fitToRange (self.distanceTraveled / trajectory.length) 0 1
  if progress < 1 then do
    let waypoint ← trajectory.get self.distanceTraveled
    if trajectory.orientation then
      let out := self.omegaPID.get r.pidTime (wrap self.pose.w waypoint.heading.w) 0
      pure (progress, { self with omegaPID := out.2 },
        arcadeDrive m self { x := waypoint.heading.x, y := waypoint.heading.y } out.1)
    else
      pure (progress, self,
        arcadeDrive m self { x := waypoint.heading.x, y := waypoint.heading.y } 0)
  else
    pure (1, self, stop)

end HolonomicDrive

end Drive

/-! ## Polyline length of a Hermite segment (spec §4.5, §4.6) -/

/-- Spec §4.5: the position at `x`, `p(x) = p0·h1 + p1·h2 + t0·h3 + t1·h4` on each axis. -/
def Path.position (path : Path α) (x : α) : Vector α :=
  let h1 := 2 * (x * x * x) - 3 * (x * x) + 1
  let h2 := -2 * (x * x * x) + 3 * (x * x)
  let h3 := (x * x * x) - 2 * (x * x) + x
  let h4 := (x * x * x) - (x * x)
  { x := path.p0.x * h1 + path.p1.x * h2 + path.t0.x * h3 + path.t1.x * h4,
    y := path.p0.y * h1 + path.p1.y * h2 + path.t0.y * h3 + path.t1.y * h4 }

/-- Spec §4.6: the sum of the displacement magnitudes of `n` consecutive samples, the first
taken at `segment * i` and measured from the point `prev`. -/
def Path.polylineFrom (m : Libm α) (path : Path α) (segment : α) : Nat → Nat → Vector α → α
  | 0, _, _ => 0
  | n + 1, i, prev =>
    let cur := path.position (segment * (i : α))
    m.hypot (cur.x - prev.x) (cur.y - prev.y) + Path.polylineFrom m path segment n (i + 1) cur

/-- Spec §4.6: the polyline approximation of the arc length from `p0` to the `k`-th of
`clarity` evenly spaced samples; `k = clarity` gives the polyline length of the segment. -/
def Path.polyline (m : Libm α) (path : Path α) (clarity k : Nat) : α :=
  Path.polylineFrom m path (1 / (clarity : α)) k 1 path.p0

/-! ## Samples and speeds of a spline, for the statements -/

/-- The cornering multiplier `1 / (autonomous_rotation_scaler * |dh| + 1)` that `generate`
applies to the profile output, for a heading change `dh`. -/
def cornerMultiplier (dh : α) : α :=
  1 / (autonomous_rotation_scaler * |dh| + 1)

/-- The poses sampled by `generate` from the pose `previous` on: after `j` more samples, the
first taken at `segment * i`.  Each pose is the Hermite position with the heading of the
displacement from the pose before it (spec §4.5). -/
def Path.sampleFrom (m : Libm α) (path : Path α) (segment : α) (previous : Pose α) (i : Nat) :
    Nat → Pose α
  | 0 => previous
  | j + 1 =>
    CubicHermiteInterpolation m path (Path.sampleFrom m path segment previous i j)
      (segment * ((i + j : Nat) : α))

/-- The pose of sample `k` of a path cut into `clarity` samples: sample 0 is `p0` with the
heading of `t0`, sample `k ≥ 1` is the Hermite position at `k / clarity` with the
finite-difference heading. -/
def Path.sample (m : Libm α) (path : Path α) (clarity k : Nat) : Pose α :=
  Path.sampleFrom m path (1 / (clarity : α))
    { x := path.p0.x, y := path.p0.y, w := path.t0.getAngle m } 1 k

/-- The heading change `dh` at sample `k ≥ 1`: the shortest-angle difference from the
heading of sample `k - 1` to that of sample `k`. -/
def Path.turn (m : Libm α) (path : Path α) (clarity k : Nat) : α :=
  wrap (Path.sample m path clarity (k - 1)).w (Path.sample m path clarity k).w

/-- The first `Path` that the `PathPlus` constructors hand to `generate`: A to B. -/
def PathPlus.first (path : PathPlus α) : Path α :=
  { p0 := path.p0, p1 := path.p1, t0 := path.t0, t1 := path.t1 }

/-- The second `Path` that the `PathPlus` constructors hand to `generate`: B to C. -/
def PathPlus.second (path : PathPlus α) : Path α :=
  { p0 := path.p1, p1 := path.p2, t0 := path.t1, t1 := path.t2 }

/-- The speed the specification gives sample `k ≥ 1` of `path` (cut into `clarity` samples)
when the profile is read at `position`: the profile output times the cornering multiplier of
the heading change at the sample. -/
def Path.specSpeed (m : Libm α) (path : Path α) (clarity k : Nat) (profile : StaticProfile α)
    (position : Nat) : α :=
  profile.get m (position : α) * cornerMultiplier (Path.turn m path clarity k)

/-! ## main.cpp -/

/-- `HolonomicTrajectory traj { PathPlus {...}, StaticProfile{...}, {...} }` of main.cpp;
`none` when the constructor throws. -/
def traj [FloorRing α] (m : Libm α) : Option (HolonomicTrajectory α) :=
  HolonomicTrajectory.ofPathPlus m
    { p0 := { x := 0, y := -57 },
      p1 := { x := 32.3, y := 22.2 },
      p2 := { x := -30, y := 52 },
      t0 := { x := -95, y := 2 },
      t1 := { x := 172.7, y := 101.8 },
      t2 := { x := -65, y := -1 } }
    (StaticProfile.mk5 0.15 0.05 0.45 0.35 0.8)
    [{ dist := 0, angle := 0 },
     { dist := 0.3, angle := 180 },
     { dist := 1, angle := 300 },
     { dist := 0.5, angle := 90 },
     { dist := 2, angle := 5 }]

/-- The keyframe list handed to the constructor of `traj` in main.cpp. -/
def trajKeyframes : List (HolonomicPose α) :=
  [{ dist := 0, angle := 0 },
   { dist := 0.3, angle := 180 },
   { dist := 1, angle := 300 },
   { dist := 0.5, angle := 90 },
   { dist := 2, angle := 5 }]

/-! ## Sequences of calls on a drive object -/

/-- One call made by the control loop on a drive object, with the values its reads return:
`follow(trajectory)` or a bare `localize()` (the loop of `autonomous` in main.cpp issues
both). -/
inductive DriveCall (α : Type) where
  | follow (r : Readings α)
  | localize (r : Readings α)
deriving DecidableEq, Repr

section Runs

variable [FloorRing α]

/-- Successive calls on a `DifferentialDrive` following one trajectory: the values returned
by the `follow` calls, in order, and the final object; `none` when a `follow` call throws. -/
def DifferentialDrive.run (m : Libm α) (trajectory : DifferentialTrajectory α) :
    DifferentialDrive α → List (DriveCall α) → Option (List α × DifferentialDrive α)
  | self, [] => some ([], self)
  | self, .follow r :: rest => do
    let out ← DifferentialDrive.follow m self trajectory r
    let tail ← DifferentialDrive.run m trajectory out.2.1 rest
    pure (out.1 :: tail.1, tail.2)
  | self, .localize r :: rest =>
    DifferentialDrive.run m trajectory (DifferentialDrive.localize m self r) rest

/-- Successive calls on a `HolonomicDrive` following one trajectory: the values returned by
the `follow` calls, in order, and the final object; `none` when a `follow` call throws. -/
def HolonomicDrive.run (m : Libm α) (trajectory : HolonomicTrajectory α) :
    HolonomicDrive α → List (DriveCall α) → Option (List α × HolonomicDrive α)
  | self, [] => some ([], self)
  | self, .follow r :: rest => do
    let out ← HolonomicDrive.follow m self trajectory r
    let tail ← HolonomicDrive.run m trajectory out.2.1 rest
    pure (out.1 :: tail.1, tail.2)
  | self, .localize r :: rest =>
    HolonomicDrive.run m trajectory (HolonomicDrive.localize m self r) rest

end Runs

/-- The returned values of successive `follow` calls as claim C6 describes them: each lies
in `[0, 1]`, a later value is never smaller than an earlier one, and after a value 1 every
later value is 1. -/
def ProgressSequence (vals : List α) : Prop :=
  (∀ v ∈ vals, 0 ≤ v ∧ v ≤ 1) ∧
  (∀ (i j : Nat) (a b : α), i ≤ j → vals[i]? = some a → vals[j]? = some b → a ≤ b) ∧
  (∀ (i j : Nat) (b : α), i ≤ j → vals[i]? = some 1 → vals[j]? = some b → b = 1)

/-! ## Vocabulary of the PID statements -/

/-- The four terms `(kp, ki, kd, kf)` that `PID::get` computes before it sums them, first-call
initialisation included. -/
def PID.terms (self : PID α) (time position setpoint : α) : α × α × α × α :=
  let error := setpoint - position
  let self := if self.init then
      { self with lastTime := time - 1, lastError := error, accum := 0, init := false }
    else self
  let accum := error * (time - self.lastTime) + self.accum
  let kp := self.p * error
  let ki := self.i * accum
  let kd := self.d * ((error - self.lastError) / (time - self.lastTime))
  let kf := copysign self.f error
  (kp, ki, kd, kf)

/-- The controllers that a history of `get` and `reset` calls can lead to from `start`. -/
inductive PID.Reachable (start : PID α) : PID α → Prop where
  | start : PID.Reachable start start
  | get (s : PID α) (time position setpoint : α) :
      PID.Reachable start s → PID.Reachable start (s.get time position setpoint).2
  | reset (s : PID α) : PID.Reachable start s → PID.Reachable start s.reset

/-! ## Vocabulary of the statements -/

/-- Consecutive waypoints have non-decreasing distances. -/
def Waypoint.NonDecreasing (ws : List (Waypoint α)) : Prop :=
  ∀ (i : Nat) (a b : Waypoint α), ws[i]? = some a → ws[i + 1]? = some b → a.dist ≤ b.dist

/-- The distance of every earlier waypoint is at most that of every later one. -/
def Waypoint.Ordered (ws : List (Waypoint α)) : Prop :=
  List.Pairwise (fun a b : Waypoint α => a.dist ≤ b.dist) ws

/-- The distance of the last waypoint, or `d` for an empty list. -/
def Waypoint.lastDist : List (Waypoint α) → α → α
  | [], d => d
  | a :: ws, _ => Waypoint.lastDist ws a.dist

/-- Claim C3 for a lookup function `get` over the waypoint list `ws`: for every `d` not
exceeding the last distance `get d` is the waypoint of least index whose distance is at
least `d`; `get 0` is the first waypoint (distances start non-negative); and a `d` in the
half-open interval `(ws[i].dist, ws[i+1].dist]` yields `ws[i+1]`. -/
def Waypoint.LeastIndexLookup (get : α → Option (Waypoint α)) (ws : List (Waypoint α)) : Prop :=
  (∀ (d : α) (last : Waypoint α), ws.getLast? = some last → d ≤ last.dist →
    ∃ (i : Nat) (w : Waypoint α), get d = some w ∧ ws[i]? = some w ∧ d ≤ w.dist ∧
      ∀ (j : Nat) (v : Waypoint α), j < i → ws[j]? = some v → v.dist < d) ∧
  (∀ first : Waypoint α, ws[0]? = some first → 0 ≤ first.dist → get 0 = some first) ∧
  (∀ (i : Nat) (a b : Waypoint α) (d : α), ws[i]? = some a → ws[i + 1]? = some b →
    a.dist < d → d ≤ b.dist → get d = some b)

/-- Claim C5 for a lookup function `get` over the waypoint list `ws`: `get d` throws exactly
when no waypoint has distance at least `d`; it throws for every `d` beyond the last distance
of a non-decreasing list and for every `d` on the empty list; a waypoint it returns is a
member of `ws`. -/
def Waypoint.FailsClosed (get : α → Option (Waypoint α)) (ws : List (Waypoint α)) : Prop :=
  (∀ d : α, get d = none ↔ ¬ ∃ w ∈ ws, d ≤ w.dist) ∧
  (∀ (d : α) (last : Waypoint α), Waypoint.NonDecreasing ws → ws.getLast? = some last →
    last.dist < d → get d = none) ∧
  (ws = [] → ∀ d : α, get d = none) ∧
  (∀ (d : α) (w : Waypoint α), get d = some w → w ∈ ws)

end Model

/-- A differential drive object that has travelled 2 inches, at rest at the origin with
heading 0. -/
def Example.differentialDrive : DifferentialDrive ℚ :=
  { (DifferentialDrive.new : DifferentialDrive ℚ) with distanceTraveled := 2 }

/-- A holonomic drive object that has travelled 2 inches, at rest at the origin with
heading 0. -/
def Example.holonomicDrive : HolonomicDrive ℚ :=
  { (HolonomicDrive.new : HolonomicDrive ℚ) with distanceTraveled := 2 }

/-- One tick's readings: heading 90, clock at 10 ms, all encoders at rest. -/
def Example.readings : Readings ℚ :=
  { gyro := 90, time1 := 10, time2 := 10, encoderLeft := 0, encoderRight := 0,
    encoderRear := 0, pidTime := 10 }

/-- A keyframe list with strictly increasing positions: heading 0 at position 0, 180 at 0.3
and 300 at 1. -/
def Example.keyframes : List (HolonomicPose ℚ) :=
  [{ dist := 0, angle := 0 }, { dist := 3 / 10, angle := 180 }, { dist := 1, angle := 300 }]

/-- A hand-written waypoint list with distances 1, 2, 2. -/
def Example.waypoints : List (Waypoint ℚ) :=
  [{ type := .linear, dist := 1, heading := ⟨0, 1, 0⟩ },
   { type := .linear, dist := 2, heading := ⟨0, 2, 0⟩ },
   { type := .linear, dist := 2, heading := ⟨0, 3, 0⟩ }]

/-- A differential trajectory object holding `Example.waypoints`. -/
def Example.differential : DifferentialTrajectory ℚ :=
  { waypoints := Example.waypoints, initialPose := ⟨0, 0, 0⟩, finalPose := ⟨0, 0, 0⟩,
    type := .linear, length := 2, index := 0, reverse := false }

/-- A holonomic trajectory object holding `Example.waypoints`. -/
def Example.holonomic : HolonomicTrajectory ℚ :=
  { waypoints := Example.waypoints, initialPose := ⟨0, 0, 0⟩, finalPose := ⟨0, 0, 0⟩,
    type := .linear, orientation := false, index := 0, aIndex := 0, length := 2 }

/-- The keyframe list of main.cpp with its fourth entry at 1.5, where the comment beside it
places it: half-way along the segment from B to C. -/
def Example.intendedKeyframes {α : Type} [LinearOrderedField α] : List (HolonomicPose α) :=
  [{ dist := 0, angle := 0 },
   { dist := 0.3, angle := 180 },
   { dist := 1, angle := 300 },
   { dist := 1.5, angle := 90 },
   { dist := 2, angle := 5 }]

/-- A rational-valued instance of the math library, used to evaluate the model on concrete
inputs.  It agrees with the C functions on the inputs of those evaluations: vectors along
the x axis (`hypot(x, 0) = |x|`), the positive x direction (`atan2f(0, x) = 0`), the angle
zero (`cos(0) = 1`, `sin(0) = 0`) and the exponent zero (`pow(b, 0) = 1`). -/
def Libm.onAxis : Libm ℚ :=
  { hypot := fun x y => max |x| |y|
    atan2f := fun _ _ => 0
    cos := fun _ => 1
    sin := fun _ => 0
    pow := fun _ _ => 1 }

/-! ## Float arithmetic -/

section FloatModel

variable {α : Type} [LinearOrderedField α]

/-- The two conversions that C++ float arithmetic performs: `single` replaces a real number
by the `float` that stores it, `double` by the `double`.  An operation on `float` operands
is the exact operation followed by `single`; one on `double` operands is followed by
`double`. -/
structure Rounding (α : Type) where
  /-- conversion to `float` -/
  single : α → α
  /-- conversion to `double` -/
  double : α → α

/-- Arithmetic without rounding: every number is stored as it is. -/
def Rounding.exact : Rounding α :=
  { single := fun x => x, double := fun x => x }

/-- A `float` value that need not be a number: finite, plus or minus infinity, or NaN.
Zero carries no sign: a finite zero divisor counts as `+0`. -/
inductive Ext (α : Type) where
  | fin (v : α)
  | posInf
  | negInf
  | nan
deriving DecidableEq

/-- IEEE addition; a finite result is stored through `fl`. -/
def Ext.add (fl : α → α) : Ext α → Ext α → Ext α
  | .fin a, .fin b => .fin (fl (a + b))
  | .fin _, .posInf => .posInf
  | .fin _, .negInf => .negInf
  | .fin _, .nan => .nan
  | .posInf, .fin _ => .posInf
  | .posInf, .posInf => .posInf
  | .posInf, .negInf => .nan
  | .posInf, .nan => .nan
  | .negInf, .fin _ => .negInf
  | .negInf, .posInf => .nan
  | .negInf, .negInf => .negInf
  | .negInf, .nan => .nan
  | .nan, _ => .nan

/-- The product of an infinity and the number `a`: NaN for `a = 0`, else the infinity whose
sign is the product of the signs. -/
def Ext.mulInf (positive : Bool) (a : α) : Ext α :=
  if a = 0 then .nan
  else if 0 < a then (if positive then .posInf else .negInf)
  else (if positive then .negInf else .posInf)

/-- IEEE multiplication; a finite result is stored through `fl`. -/
def Ext.mul (fl : α → α) : Ext α → Ext α → Ext α
  | .fin a, .fin b => .fin (fl (a * b))
  | .fin a, .posInf => Ext.mulInf true a
  | .fin a, .negInf => Ext.mulInf false a
  | .fin _, .nan => .nan
  | .posInf, .fin b => Ext.mulInf true b
  | .posInf, .posInf => .posInf
  | .posInf, .negInf => .negInf
  | .posInf, .nan => .nan
  | .negInf, .fin b => Ext.mulInf false b
  | .negInf, .posInf => .negInf
  | .negInf, .negInf => .posInf
  | .negInf, .nan => .nan
  | .nan, _ => .nan

/-- IEEE division; a finite result is stored through `fl`.  A non-zero number divided by
zero is an infinity, `0 / 0` is NaN, and a number divided by an infinity is 0. -/
def Ext.div (fl : α → α) : Ext α → Ext α → Ext α
  | .fin a, .fin b =>
    if b = 0 then (if a = 0 then .nan else if 0 < a then .posInf else .negInf)
    else .fin (fl (a / b))
  | .fin _, .posInf => .fin 0
  | .fin _, .negInf => .fin 0
  | .fin _, .nan => .nan
  | .posInf, .fin b => if 0 ≤ b then .posInf else .negInf
  | .posInf, .posInf => .nan
  | .posInf, .negInf => .nan
  | .posInf, .nan => .nan
  | .negInf, .fin b => if 0 ≤ b then .negInf else .posInf
  | .negInf, .posInf => .nan
  | .negInf, .negInf => .nan
  | .negInf, .nan => .nan
  | .nan, _ => .nan

/-- `fitToRange` on a value that need not be a number: the comparisons with NaN are false,
so NaN is returned as it is. -/
def Ext.fitToRange (value : Ext α) (min max : α) : Ext α :=
  match value with
  | .fin v => .fin (Vex.fitToRange v min max)
  | .posInf => .fin max
  | .negInf => .fin min
  | .nan => .nan

end FloatModel

section RoundedModel

variable {α : Type} [LinearOrderedField α]

/-! ### Helpers.h in float arithmetic -/

/-- `float wrap(float current, float desired)`, each operation rounded to `float`. -/
def Rounded.wrap (r : Rounding α) (current desired : α) : α :=
  let error := r.single (current - desired)
  let error :=
    if error > 180 then r.single (error - 360)
    else if error < -180 then r.single (error + 360)
    else error
  (-error)

/-- `float bound(float angle)`: both `fmod` calls and the sum are evaluated in `double`
(`fmod` itself is exact), and the `return` converts the result to `float`. -/
def Rounded.bound [FloorRing α] (r : Rounding α) (angle : α) : α :=
  r.single (fmod (r.double (fmod angle 360 + 360)) 360)

/-- `bound` of a value that need not be a number: `fmod` of an infinity or of NaN is NaN. -/
def Ext.bound [FloorRing α] (r : Rounding α) : Ext α → Ext α
  | .fin a => .fin (Rounded.bound r a)
  | _ => .nan

/-! ### VelocityProfile.h with infinities -/

/-- The elapsed time `time - lastTime` that `PID::get` divides by, as a `float`; on the
first call after construction or `reset` the member `lastTime` is `time - 1`, itself
rounded. -/
def Rounded.PID.elapsed (r : Rounding α) (self : PID α) (time : α) : α :=
  r.single (time - (if self.init then r.single (time - 1) else self.lastTime))

/-- `float PID::get(float position, float setpoint)` in float arithmetic; `time` is the
clock value as the `float` it is stored in.  The quotient of the derivative term is an IEEE
division, so the output may be an infinity or NaN. -/
def Rounded.PID.get (r : Rounding α) (self : PID α) (time position setpoint : α) :
    Ext α × PID α :=
  let error := r.single (setpoint - position)
  let self := if self.init then
      { self with lastTime := r.single (time - 1), lastError := error, accum := 0,
                  init := false }
    else self
  let accum := r.single (r.single (error * r.single (time - self.lastTime)) + self.accum)
  let kp := r.single (self.p * error)
  let ki := r.single (self.i * accum)
  let kd := Ext.mul r.single (.fin self.d)
    (Ext.div r.single (.fin (r.single (error - self.lastError)))
      (.fin (r.single (time - self.lastTime))))
  let kf := copysign self.f error
  let sum := Ext.add r.single (Ext.add r.single (.fin (r.single (kp + ki))) kd) (.fin kf)
  let self' := { self with accum := accum, lastTime := time, lastError := error }
  if !self.range then (sum, self')
  else (Ext.fitToRange sum self.min self.max, self')

/-- The controller states that calls of `get` (in float arithmetic) and `reset` lead to. -/
inductive Rounded.PID.Reachable (r : Rounding α) (start : PID α) : PID α → Prop where
  | start : Rounded.PID.Reachable r start start
  | get (s : PID α) (time position setpoint : α) :
      Rounded.PID.Reachable r start s →
      Rounded.PID.Reachable r start (Rounded.PID.get r s time position setpoint).2
  | reset (s : PID α) :
      Rounded.PID.Reachable r start s → Rounded.PID.Reachable r start s.reset

/-! ### Trajectory.h in float arithmetic -/

section RoundedTrajectory

variable [FloorRing α]

/-- `float Vector::getMagnitude()`: the value of `hypot`, returned as a `float`. -/
def Rounded.Vector.getMagnitude (r : Rounding α) (m : Libm α) (v : Vector α) : α :=
  r.single (m.hypot v.x v.y)

/-- `float Vector::getAngle()`: `atan2f(y, x) * RadToDeg` as a `float`. -/
def Rounded.Vector.getAngle (r : Rounding α) (m : Libm α) (v : Vector α) : α :=
  r.single (m.atan2f v.y v.x * RadToDeg)

/-- `Pose CubicHermiteInterpolation(Path path, Pose previous, float x)` with every product,
sum and difference rounded to `float` in the order the expressions are written. -/
def Rounded.CubicHermiteInterpolation (r : Rounding α) (m : Libm α) (path : Path α)
    (previous : Pose α) (x : α) : Pose α :=
  let x2 := r.single (x * x)
  let x3 := r.single (x2 * x)
  let h1 := r.single (r.single (r.single (2 * x3) - r.single (3 * x2)) + 1)
  let h2 := r.single (r.single (-2 * x3) + r.single (3 * x2))
  let h3 := r.single (r.single (x3 - r.single (2 * x2)) + x)
  let h4 := r.single (x3 - x2)
  let cx := r.single (r.single (r.single (r.single (path.p0.x * h1) +
    r.single (path.p1.x * h2)) + r.single (path.t0.x * h3)) + r.single (path.t1.x * h4))
  let cy := r.single (r.single (r.single (r.single (path.p0.y * h1) +
    r.single (path.p1.y * h2)) + r.single (path.t0.y * h3)) + r.single (path.t1.y * h4))
  { x := cx, y := cy,
    w := Rounded.Vector.getAngle r m
      { x := r.single (cx - previous.x), y := r.single (cy - previous.y) } }

/-- `Pose Pose::getError(Pose pose)` in float arithmetic. -/
def Rounded.Pose.getError (r : Rounding α) (self pose : Pose α) : Pose α :=
  { y := r.single (pose.y - self.y), x := r.single (pose.x - self.x),
    w := Rounded.wrap r self.w pose.w }

/-- `float InterpolateHolonomicPose(std::vector<HolonomicPose> orientation, float x)` in
float arithmetic: `none` when an `at` call throws; the quotient `x / distError` is an IEEE
division, so a bracket of width zero gives an infinity or NaN, which `bound` turns into
NaN. -/
def Rounded.InterpolateHolonomicPose (r : Rounding α) (orientation : List (HolonomicPose α))
    (x : α) : Option (Ext α) :=
  if !orientation.isEmpty then do
    let s ← InterpolateHolonomicPose.loop orientation x 0
    let lo ← vectorAt orientation ((s : Int) - 1)
    let hi ← vectorAt orientation (s : Int)
    let angleError := Rounded.wrap r lo.angle hi.angle
    let distError := r.single (hi.dist - lo.dist)
    let x := r.single (x - lo.dist)
    pure (Ext.bound r
      (Ext.add r.single
        (Ext.mul r.single (Ext.div r.single (.fin x) (.fin distError)) (.fin angleError))
        (.fin lo.angle)))
  else
    pure (.fin (-1))

/-- The `for` loop of `DifferentialTrajectory(float, StaticProfile)` in float arithmetic:
`0.01 * i` is a `double` product stored in a `float`. -/
def Rounded.DifferentialTrajectory.lineLoop (r : Rounding α) (m : Libm α) (trajectory1D : α)
    (profile : StaticProfile α) : Nat → Nat → List (Waypoint α)
  | 0, _ => []
  | n + 1, i =>
    let x : α := r.single (r.double (r.double 0.01 * (i : α)))
    let waypoint : Waypoint α :=
      { type := .linear, dist := r.single (x * |trajectory1D|),
        heading := { x := 0, y := copysign (r.single (profile.get m (i : α))) trajectory1D,
                     w := 0 } }
    waypoint :: Rounded.DifferentialTrajectory.lineLoop r m trajectory1D profile n (i + 1)

/-- `DifferentialTrajectory(float trajectory1D, StaticProfile profile)` in float
arithmetic. -/
def Rounded.DifferentialTrajectory.line (r : Rounding α) (m : Libm α) (trajectory1D : α)
    (profile : StaticProfile α) : DifferentialTrajectory α :=
  { (DifferentialTrajectory.fresh : DifferentialTrajectory α) with
    waypoints := Rounded.DifferentialTrajectory.lineLoop r m trajectory1D profile 100 1
    type := .linear
    length := |trajectory1D| }

/-- The `for` loop of `DifferentialTrajectory::generate` in float arithmetic, with `n`
iterations left, the iterator at `i` and the locals `previous`, `dist`.  The stored distance
is `(length + dist) + magnitude`, each sum rounded; the running distance is
`dist + magnitude`, rounded.  The value of `profile.get` is taken from `StaticProfile.get`
and stored in a `float`. -/
def Rounded.DifferentialTrajectory.generateLoop (r : Rounding α) (m : Libm α) (path : Path α)
    ( reverse : Bool) (segment : α) (profile : StaticProfile α) (length : α) (index : Nat) :
    Nat → Nat → Pose α → α → List (Waypoint α) × α
  | 0, _, _, dist => ([], dist)
  | n + 1, i, previous, dist =>
    let x := r.single (segment * (i : α))
    let current := Rounded.CubicHermiteInterpolation r m path previous x
    let previous := Rounded.Pose.getError r previous current
    let speed := r.single
      (r.single (1 / r.single (r.single (r.single (r.double 0.4) * |previous.w|) + 1)) *
        r.single (profile.get m ((i + index : Nat) : α)))
    let magnitude := Rounded.Vector.getMagnitude r m previous.getVector
    let waypoint : Waypoint α :=
      { type := .linear, dist := r.single (r.single (length + dist) + magnitude),
        heading := { x := 0, y := if reverse then -speed else speed,
                     w := Rounded.bound r
                       (r.single (r.single (current.w - 90) + (if reverse then 180 else 0))) } }
    let dist := r.single (dist + magnitude)
    let previous := current
    let rest := Rounded.DifferentialTrajectory.generateLoop r m path reverse segment profile
      length index n (i + 1) previous dist
    (waypoint :: rest.1, rest.2)

/-- `DifferentialTrajectory::generate` in float arithmetic: `segment` is the `double`
quotient `1.0 / clarity` stored in a `float`. -/
def Rounded.DifferentialTrajectory.generate (r : Rounding α) (m : Libm α)
    (self : DifferentialTrajectory α) (path : Path α) ( reverse : Bool) (clarity : Nat)
    (profile : StaticProfile α) : List (Waypoint α) × DifferentialTrajectory α :=
  let segment : α := r.single (r.double (1 / (clarity : α)))
  let previous : Pose α :=
    { x := path.p0.x, y := path.p0.y, w := Rounded.Vector.getAngle r m path.t0 }
  let out := Rounded.DifferentialTrajectory.generateLoop r m path reverse segment profile
    self.length self.index clarity 1 previous 0
  (out.1,
   { self with
     initialPose := { x := path.p0.x, y := path.p0.y,
                      w := Rounded.bound r (r.single (r.single
                        (Rounded.Vector.getAngle r m path.t0 - 90) +
                        (if reverse then 180 else 0))) }
     finalPose := { x := path.p1.x, y := path.p1.y,
                    w := Rounded.bound r (r.single (r.single
                      (Rounded.Vector.getAngle r m path.t1 - 90) +
                      (if reverse then 180 else 0))) }
     length := out.2
     index := clarity })

/-- `DifferentialTrajectory(Path path, StaticProfile profile, bool reverse)` in float
arithmetic. -/
def Rounded.DifferentialTrajectory.ofPath (r : Rounding α) (m : Libm α) (path : Path α)
    (profile : StaticProfile α) ( reverse : Bool) : DifferentialTrajectory α :=
  let g := Rounded.DifferentialTrajectory.generate r m DifferentialTrajectory.fresh path
    reverse 100 profile
  { g.2 with waypoints := g.1, reverse := reverse, type := .spline }

/-- `DifferentialTrajectory(PathPlus path, StaticProfile profile, bool reverse)` in float
arithmetic: the member `length` is the rounded sum `tempLength + length`. -/
def Rounded.DifferentialTrajectory.ofPathPlus (r : Rounding α) (m : Libm α)
    (path : PathPlus α) (profile : StaticProfile α) ( reverse : Bool) :
    DifferentialTrajectory α :=
  let g1 := Rounded.DifferentialTrajectory.generate r m DifferentialTrajectory.fresh
    { p0 := path.p0, p1 := path.p1, t0 := path.t0, t1 := path.t1 } reverse 50 profile
  let self := { g1.2 with waypoints := g1.1 }
  let tempInitialPose := self.initialPose
  let tempLength := self.length
  let g2 := Rounded.DifferentialTrajectory.generate r m self
    { p0 := path.p1, p1 := path.p2, t0 := path.t1, t1 := path.t2 } reverse 50 profile
  let waypoints2 := g2.1
  let self := g2.2
  { self with
    initialPose := tempInitialPose
    length := r.single (tempLength + self.length)
    waypoints := self.waypoints ++ waypoints2
    reverse := reverse
    type := .spline }

end RoundedTrajectory

end RoundedModel

/-! ### The terms of `PID::get` in float arithmetic -/

/-- The four terms `(kp, ki, kd, kf)` that `PID::get` computes in float arithmetic before it
sums them, first-call initialisation included. -/
def Rounded.PID.terms {α : Type} [LinearOrderedField α] (r : Rounding α) (self : PID α)
    (time position setpoint : α) : α × α × Ext α × α :=
  let error := r.single (setpoint - position)
  let lastTime := if self.init then r.single (time - 1) else self.lastTime
  let lastError := if self.init then error else self.lastError
  let accum0 := if self.init then 0 else self.accum
  let accum := r.single (r.single (error * r.single (time - lastTime)) + accum0)
  (r.single (self.p * error), r.single (self.i * accum),
   Ext.mul r.single (.fin self.d)
     (Ext.div r.single (.fin (r.single (error - lastError)))
       (.fin (r.single (time - lastTime)))),
   copysign self.f error)

/-- The sum `kp + ki + kd + kf` in float arithmetic, added from left to right. -/
def Rounded.PID.sum {α : Type} [LinearOrderedField α] (r : Rounding α) (kp ki : α)
    (kd : Ext α) (kf : α) : Ext α :=
  Ext.add r.single (Ext.add r.single (.fin (r.single (kp + ki))) kd) (.fin kf)

/-! ### The binary formats on the rationals -/

/-- The integer nearest to `x`, the even one of the two when `x` lies half-way. -/
def roundHalfEven (x : ℚ) : ℤ :=
  if x - ⌊x⌋ < 1 / 2 then ⌊x⌋
  else if 1 / 2 < x - ⌊x⌋ then ⌊x⌋ + 1
  else if ⌊x⌋ % 2 = 0 then ⌊x⌋ else ⌊x⌋ + 1

/-- The number of halvings that bring `n` below 2, at most `fuel` of them: the binary
logarithm of `n ≥ 1`, rounded down, when `fuel` is at least `n`. -/
def binaryLog : Nat → Nat → Nat
  | 0, _ => 0
  | fuel + 1, n => if n < 2 then 0 else binaryLog fuel (n / 2) + 1

/-- The binary exponent of `x ≠ 0`: the integer `e` with `2 ^ e ≤ |x| < 2 ^ (e + 1)`. -/
def binaryExponent (x : ℚ) : ℤ :=
  let e : ℤ := (binaryLog x.num.natAbs x.num.natAbs : ℤ) - (binaryLog x.den x.den : ℤ)
  if (2 : ℚ) ^ e ≤ |x| then e else e - 1

/-- Round to nearest, ties to even, in the binary format with `p` significant bits and
least normal exponent `emin`; the exponent range has no upper end (no overflow). -/
def roundToFormat (p : Nat) (emin : ℤ) (x : ℚ) : ℚ :=
  if x = 0 then 0
  else
    let quantum : ℚ := 2 ^ (max (binaryExponent x) emin - ((p : ℤ) - 1))
    roundHalfEven (x / quantum) * quantum

/-- Conversion to IEEE 754 binary32, the C++ `float`. -/
def binary32 : ℚ → ℚ := roundToFormat 24 (-126)

/-- Conversion to IEEE 754 binary64, the C++ `double`. -/
def binary64 : ℚ → ℚ := roundToFormat 53 (-1022)

/-- The rounding of IEEE 754 arithmetic. -/
def Rounding.ieee : Rounding ℚ :=
  { single := binary32, double := binary64 }

/-- What the statements assume of a rounding `r`: both conversions are monotone and leave 0
and 360 as they are, a `float` converts to itself, and the `double` product `0.01 * 100`
stored in a `float` is 1.  Round-to-nearest in IEEE 754 binary32 and binary64 has these
properties (`Rounding.ieee_sound`). -/
structure Rounding.Sound {α : Type} [LinearOrderedField α] (r : Rounding α) : Prop where
  single_mono : ∀ x y : α, x ≤ y → r.single x ≤ r.single y
  double_mono : ∀ x y : α, x ≤ y → r.double x ≤ r.double y
  single_zero : r.single 0 = 0
  double_zero : r.double 0 = 0
  single_idem : ∀ x : α, r.single (r.single x) = r.single x
  single_turn : r.single 360 = 360
  double_turn : r.double 360 = 360
  hundredth : r.single (r.double (r.double 0.01 * 100)) = 1

/-- The keyframes `[(0, -2⁻¹⁶), (1, -2⁻¹⁶)]`: the same angle, just below zero, at both ends
of the path. -/
def Example.justBelowZero : List (HolonomicPose ℚ) :=
  [{ dist := 0, angle := -1 / 65536 }, { dist := 1, angle := -1 / 65536 }]

/-- The keyframes `[(0, 0), (0, 90)]`: two keyframes at the same position. -/
def Example.zeroWidth : List (HolonomicPose ℚ) :=
  [{ dist := 0, angle := 0 }, { dist := 0, angle := 90 }]

/-- A `PathPlus` along the x-axis whose second segment ends on two samples that nearly
coincide: A = (15, 0), B = (-6, 0), C = (-5.875, 0), tangents (0, 0), (0.375, 0), (0, 0).
Every coordinate is a `float`. -/
def Example.pathShortEnd : PathPlus ℚ :=
  { p0 := { x := 15, y := 0 }, p1 := { x := -6, y := 0 }, p2 := { x := -47 / 8, y := 0 },
    t0 := { x := 0, y := 0 }, t1 := { x := 3 / 8, y := 0 }, t2 := { x := 0, y := 0 } }

/-- A `PathPlus` along the x-axis: A = (4, 0), B = (-16, 0), C = (20, 0), tangents
(-15, 0), (-2, 0), (6, 0). -/
def Example.pathThere : PathPlus ℚ :=
  { p0 := { x := 4, y := 0 }, p1 := { x := -16, y := 0 }, p2 := { x := 20, y := 0 },
    t0 := { x := -15, y := 0 }, t1 := { x := -2, y := 0 }, t2 := { x := 6, y := 0 } }

/-- The differential trajectory that float arithmetic builds from `Example.pathShortEnd`.
The statements use its distances and its `length` only: these depend on `hypot` alone, which
`Libm.onAxis` gives exactly for the steps of a path along the x-axis, and not on `atan2f` or
`pow`, which enter the headings. -/
def Example.shortEnd : DifferentialTrajectory ℚ :=
  Rounded.DifferentialTrajectory.ofPathPlus Rounding.ieee Libm.onAxis Example.pathShortEnd
    (StaticProfile.mk5 1 1 0 0 1) false

/-- The differential trajectory that float arithmetic builds from `Example.pathThere`.  As
for `Example.shortEnd`, the statements use its distances and its `length` only. -/
def Example.there : DifferentialTrajectory ℚ :=
  Rounded.DifferentialTrajectory.ofPathPlus Rounding.ieee Libm.onAxis Example.pathThere
    (StaticProfile.mk5 1 1 0 0 1) false

/-- A differential drive object at rest that has travelled 14680065 / 262144 inches
(56.000003814697266, a `float`). -/
def Example.almostThere : DifferentialDrive ℚ :=
  { (DifferentialDrive.new : DifferentialDrive ℚ) with distanceTraveled := 14680065 / 262144 }

/-! ## Waypoint lookup: the linear scan -/

section Lookup

variable {α : Type} [LinearOrderedField α]

theorem Waypoint.scan_some_iff (ws : List (Waypoint α)) (d : α) :
    ∀ (n i : Nat), ws.length - i = n → ∀ k : Nat,
      (Waypoint.scan ws d i = some k ↔
        i ≤ k ∧ (∃ w, ws[k]? = some w ∧ d ≤ w.dist) ∧
          ∀ (j : Nat) (w : Waypoint α), i ≤ j → j < k → ws[j]? = some w → w.dist < d) := by
  intro n
  induction n with
  | zero =>
    intro i hi k
    have hlen : ¬ i < ws.length := by omega
    rw [Waypoint.scan, dif_neg hlen]
    constructor
    · intro h; cases h
    · rintro ⟨hik, ⟨w, hw, _⟩, _⟩
      have := (List.getElem?_eq_some.mp hw).1
      omega
  | succ n ih =>
    intro i hi k
    have hlen : i < ws.length := by omega
    rw [Waypoint.scan, dif_pos hlen]
    by_cases hlt : ws[i].dist < d
    · rw [if_pos hlt, ih (i + 1) (by omega) k]
      constructor
      · rintro ⟨hik, hk, hall⟩
        refine ⟨by omega, hk, ?_⟩
        intro j w hij hjk hw
        rcases Nat.eq_or_lt_of_le hij with h | h
        · subst h
          rw [List.getElem?_eq_getElem hlen] at hw
          cases hw
          exact hlt
        · exact hall j w h hjk hw
      · rintro ⟨hik, ⟨w, hw, hdw⟩, hall⟩
        have hne : i ≠ k := by
          intro h
          subst h
          rw [List.getElem?_eq_getElem hlen] at hw
          cases hw
          exact absurd hlt (not_lt.mpr hdw)
        refine ⟨by omega, ⟨w, hw, hdw⟩, ?_⟩
        intro j w' hij hjk hw'
        exact hall j w' (by omega) hjk hw'
    · rw [if_neg hlt]
      constructor
      · intro h
        cases h
        refine ⟨le_refl _, ⟨ws[i], List.getElem?_eq_getElem hlen, not_lt.mp hlt⟩, ?_⟩
        intro j w hij hjk
        omega
      · rintro ⟨hik, _, hall⟩
        rcases Nat.eq_or_lt_of_le hik with h | h
        · rw [h]
        · exact absurd (hall i ws[i] (le_refl _) h (List.getElem?_eq_getElem hlen)) hlt

theorem Waypoint.scan_none_iff (ws : List (Waypoint α)) (d : α) :
    ∀ (n i : Nat), ws.length - i = n →
      (Waypoint.scan ws d i = none ↔
        ∀ (j : Nat) (w : Waypoint α), i ≤ j → ws[j]? = some w → w.dist < d) := by
  intro n
  induction n with
  | zero =>
    intro i hi
    have hlen : ¬ i < ws.length := by omega
    rw [Waypoint.scan, dif_neg hlen]
    simp only [true_iff]
    intro j w hij hw
    have := (List.getElem?_eq_some.mp hw).1
    omega
  | succ n ih =>
    intro i hi
    have hlen : i < ws.length := by omega
    rw [Waypoint.scan, dif_pos hlen]
    by_cases hlt : ws[i].dist < d
    · rw [if_pos hlt, ih (i + 1) (by omega)]
      constructor
      · intro hall j w hij hw
        rcases Nat.eq_or_lt_of_le hij with h | h
        · subst h
          rw [List.getElem?_eq_getElem hlen] at hw
          cases hw
          exact hlt
        · exact hall j w h hw
      · intro hall j w hij hw
        exact hall j w (by omega) hw
    · rw [if_neg hlt]
      constructor
      · intro h; cases h
      · intro hall
        exact absurd (hall i ws[i] (le_refl _) (List.getElem?_eq_getElem hlen)) hlt

/-- `lookup` returns `w` exactly when `w` sits at the least index whose distance is at least
`d`. -/
theorem Waypoint.lookup_eq_some_iff (ws : List (Waypoint α)) (d : α) (w : Waypoint α) :
    Waypoint.lookup ws d = some w ↔
      ∃ k : Nat, ws[k]? = some w ∧ d ≤ w.dist ∧
        ∀ (j : Nat) (v : Waypoint α), j < k → ws[j]? = some v → v.dist < d := by
  unfold Waypoint.lookup
  constructor
  · intro h
    rcases hs : Waypoint.scan ws d 0 with _ | k
    · rw [hs] at h; cases h
    · rw [hs] at h
      have hk : ws[k]? = some w := h
      obtain ⟨_, ⟨v, hv, hdv⟩, hall⟩ := (Waypoint.scan_some_iff ws d _ 0 rfl k).mp hs
      rw [hk] at hv
      cases hv
      exact ⟨k, hk, hdv, fun j v hjk hv => hall j v (Nat.zero_le _) hjk hv⟩
  · rintro ⟨k, hk, hdw, hall⟩
    have hs : Waypoint.scan ws d 0 = some k :=
      (Waypoint.scan_some_iff ws d _ 0 rfl k).mpr
        ⟨Nat.zero_le _, ⟨w, hk, hdw⟩, fun j v _ hjk hv => hall j v hjk hv⟩
    rw [hs]
    exact hk

/-- `lookup` throws exactly when every waypoint is closer than `d`. -/
theorem Waypoint.lookup_eq_none_iff (ws : List (Waypoint α)) (d : α) :
    Waypoint.lookup ws d = none ↔ ∀ w ∈ ws, w.dist < d := by
  unfold Waypoint.lookup
  constructor
  · intro h
    rcases hs : Waypoint.scan ws d 0 with _ | k
    · intro w hw
      obtain ⟨j, hj, rfl⟩ := List.getElem_of_mem hw
      exact (Waypoint.scan_none_iff ws d _ 0 rfl).mp hs j _ (Nat.zero_le _)
        (List.getElem?_eq_getElem hj)
    · rw [hs] at h
      obtain ⟨_, ⟨v, hv, _⟩, _⟩ := (Waypoint.scan_some_iff ws d _ 0 rfl k).mp hs
      have hk : ws[k]? = none := h
      rw [hk] at hv
      cases hv
  · intro hall
    have hs : Waypoint.scan ws d 0 = none :=
      (Waypoint.scan_none_iff ws d _ 0 rfl).mpr
        (fun j w _ hw => hall w (List.getElem?_mem hw))
    rw [hs]
    rfl

end Lookup

/-! ## Waypoint distances of the generated trajectories -/

section Order

variable {α : Type} [LinearOrderedField α]

theorem Waypoint.Ordered.nonDecreasing {ws : List (Waypoint α)} (h : Waypoint.Ordered ws) :
    Waypoint.NonDecreasing ws := by
  intro i a b ha hb
  obtain ⟨hi, rfl⟩ := List.getElem?_eq_some.mp ha
  obtain ⟨hj, rfl⟩ := List.getElem?_eq_some.mp hb
  exact (List.pairwise_iff_getElem.mp h) i (i + 1) hi hj (Nat.lt_succ_self i)

theorem Waypoint.NonDecreasing.ordered {ws : List (Waypoint α)}
    (h : Waypoint.NonDecreasing ws) : Waypoint.Ordered ws := by
  induction ws with
  | nil => exact List.Pairwise.nil
  | cons a l ih =>
    have hl : Waypoint.NonDecreasing l := by
      intro i x y hx hy
      exact h (i + 1) x y (by simpa using hx) (by simpa using hy)
    have hord := ih hl
    refine List.Pairwise.cons ?_ hord
    intro b hb
    cases l with
    | nil => cases hb
    | cons c l =>
      have hac : a.dist ≤ c.dist := h 0 a c (by simp) (by simp)
      rcases List.mem_cons.mp hb with rfl | hb
      · exact hac
      · exact le_trans hac (List.rel_of_pairwise_cons hord hb)

omit [LinearOrderedField α] in
theorem Waypoint.lastDist_cons (a : Waypoint α) (ws : List (Waypoint α)) (d : α) :
    Waypoint.lastDist (a :: ws) d = Waypoint.lastDist ws a.dist := rfl

end Order

section Distances

variable {α : Type} [LinearOrderedField α] [FloorRing α]

theorem DifferentialTrajectory_generateLoop_length (m : Libm α) (path : Path α) (rev : Bool)
    (segment : α) (profile : StaticProfile α) (length : α) (index : Nat) :
    ∀ (n i : Nat) (previous : Pose α) (dist : α),
      (DifferentialTrajectory.generateLoop m path rev segment profile length index
        n i previous dist).1.length = n := by
  intro n
  induction n with
  | zero => intro i previous dist; rfl
  | succ n ih =>
    intro i previous dist
    simp only [DifferentialTrajectory.generateLoop, List.length_cons, ih]

theorem HolonomicTrajectory_generateLoop_length (m : Libm α) (path : Path α)
    (orientation : List (HolonomicPose α))
    (segment : α) (profile : StaticProfile α) (length : α) (index aIndex : Nat) :
    ∀ (n i : Nat) (previous : Pose α) (dist : α) (out : List (Waypoint α) × α),
      HolonomicTrajectory.generateLoop m path orientation segment profile length index aIndex
        n i previous dist = some out →
      out.1.length = n ∧ Waypoint.lastDist out.1 (length + dist) = length + out.2 := by
  intro n
  induction n with
  | zero =>
    intro i previous dist out h
    simp only [HolonomicTrajectory.generateLoop, Option.some.injEq] at h
    subst h
    exact ⟨rfl, rfl⟩
  | succ n ih =>
    intro i previous dist out h
    simp only [HolonomicTrajectory.generateLoop, Option.bind_eq_bind, Option.bind_eq_some,
      Option.pure_def, Option.some.injEq] at h
    obtain ⟨hw, _, rest, hrest, rfl⟩ := h
    obtain ⟨h1, h2⟩ := ih _ _ _ rest hrest
    refine ⟨by simp only [List.length_cons, h1], ?_⟩
    simp only [Waypoint.lastDist_cons]
    rw [← h2, add_assoc]

/-! ### The six constructors -/

theorem DifferentialTrajectory_ofPath_waypoints (m : Libm α) (path : Path α)
    (profile : StaticProfile α) (rev : Bool) :
    (DifferentialTrajectory.ofPath m path profile rev).waypoints =
      (DifferentialTrajectory.generate m DifferentialTrajectory.fresh path rev 100 profile).1 :=
  rfl

theorem DifferentialTrajectory_ofPath_length (m : Libm α) (path : Path α)
    (profile : StaticProfile α) (rev : Bool) :
    (DifferentialTrajectory.ofPath m path profile rev).length =
      (DifferentialTrajectory.generate m DifferentialTrajectory.fresh path rev
        100 profile).2.length :=
  rfl

theorem DifferentialTrajectory_ofPathPlus_waypoints (m : Libm α) (path : PathPlus α)
    (profile : StaticProfile α) (rev : Bool) :
    (DifferentialTrajectory.ofPathPlus m path profile rev).waypoints =
      (DifferentialTrajectory.generate m DifferentialTrajectory.fresh
        { p0 := path.p0, p1 := path.p1, t0 := path.t0, t1 := path.t1 } rev 50 profile).1 ++
      (DifferentialTrajectory.generate m
        { (DifferentialTrajectory.generate m DifferentialTrajectory.fresh
            { p0 := path.p0, p1 := path.p1, t0 := path.t0, t1 := path.t1 } rev 50 profile).2
          with waypoints := (DifferentialTrajectory.generate m DifferentialTrajectory.fresh
            { p0 := path.p0, p1 := path.p1, t0 := path.t0, t1 := path.t1 } rev 50 profile).1 }
        { p0 := path.p1, p1 := path.p2, t0 := path.t1, t1 := path.t2 } rev 50 profile).1 :=
  rfl

theorem DifferentialTrajectory_ofPathPlus_length (m : Libm α) (path : PathPlus α)
    (profile : StaticProfile α) (rev : Bool) :
    (DifferentialTrajectory.ofPathPlus m path profile rev).length =
      (DifferentialTrajectory.generate m DifferentialTrajectory.fresh
        { p0 := path.p0, p1 := path.p1, t0 := path.t0, t1 := path.t1 } rev 50
          profile).2.length +
      (DifferentialTrajectory.generate m
        { (DifferentialTrajectory.generate m DifferentialTrajectory.fresh
            { p0 := path.p0, p1 := path.p1, t0 := path.t0, t1 := path.t1 } rev 50 profile).2
          with waypoints := (DifferentialTrajectory.generate m DifferentialTrajectory.fresh
            { p0 := path.p0, p1 := path.p1, t0 := path.t0, t1 := path.t1 } rev 50 profile).1 }
        { p0 := path.p1, p1 := path.p2, t0 := path.t1, t1 := path.t2 } rev 50
          profile).2.length :=
  rfl

/-! ### Construction without an orientation schedule always succeeds -/

theorem InterpolateHolonomicPose_nil (x : α) :
    InterpolateHolonomicPose ([] : List (HolonomicPose α)) x = some (-1) := rfl

theorem HolonomicTrajectory_lineLoop_nil_isSome (m : Libm α) (angle distance : α)
    (profile : StaticProfile α) :
    ∀ (n i : Nat),
      (HolonomicTrajectory.lineLoop m angle distance profile [] n i).isSome = true := by
  intro n
  induction n with
  | zero => intro i; rfl
  | succ n ih =>
    intro i
    obtain ⟨rest, hrest⟩ := Option.isSome_iff_exists.mp (ih (i + 1))
    simp only [HolonomicTrajectory.lineLoop, InterpolateHolonomicPose_nil, Option.bind_eq_bind,
      Option.some_bind, hrest, Option.pure_def, Option.isSome_some]

theorem HolonomicTrajectory_generateLoop_nil_isSome (m : Libm α) (path : Path α)
    (segment : α) (profile : StaticProfile α) (length : α) (index aIndex : Nat) :
    ∀ (n i : Nat) (previous : Pose α) (dist : α),
      (HolonomicTrajectory.generateLoop m path [] segment profile length index aIndex
        n i previous dist).isSome = true := by
  intro n
  induction n with
  | zero => intro i previous dist; rfl
  | succ n ih =>
    intro i previous dist
    rw [HolonomicTrajectory.generateLoop]
    simp only [InterpolateHolonomicPose_nil, Option.bind_eq_bind, Option.some_bind,
      Option.pure_def]
    obtain ⟨rest, hrest⟩ := Option.isSome_iff_exists.mp (ih (i + 1)
      (CubicHermiteInterpolation m path previous (segment * (i : α)))
      (dist + Vector.getMagnitude m
        (previous.getError
          (CubicHermiteInterpolation m path previous (segment * (i : α)))).getVector))
    rw [hrest]
    rfl

theorem HolonomicTrajectory_generate_nil_isSome (m : Libm α) (self : HolonomicTrajectory α)
    (path : Path α) (clarity : Nat) (profile : StaticProfile α) :
    (HolonomicTrajectory.generate m self path [] clarity profile).isSome = true := by
  obtain ⟨out, hout⟩ := Option.isSome_iff_exists.mp
    (HolonomicTrajectory_generateLoop_nil_isSome m path (1 / (clarity : α)) profile
      self.length self.index self.aIndex clarity 1
      { x := path.p0.x, y := path.p0.y, w := path.t0.getAngle m } 0)
  simp only [HolonomicTrajectory.generate, Option.bind_eq_bind, hout, Option.some_bind,
    Option.pure_def, Option.isSome_some]

theorem HolonomicTrajectory_line_nil_isSome (m : Libm α) (trajectory2D : Vector α)
    (profile : StaticProfile α) :
    (HolonomicTrajectory.line m trajectory2D profile []).isSome = true := by
  obtain ⟨ws, hws⟩ := Option.isSome_iff_exists.mp
    (HolonomicTrajectory_lineLoop_nil_isSome m (trajectory2D.getAngle m / RadToDeg)
      (trajectory2D.getMagnitude m) profile 100 1)
  simp only [HolonomicTrajectory.line, Option.bind_eq_bind, hws, Option.some_bind,
    Option.pure_def, Option.isSome_some]

theorem HolonomicTrajectory_ofPath_nil_isSome (m : Libm α) (path : Path α)
    (profile : StaticProfile α) :
    (HolonomicTrajectory.ofPath m path profile []).isSome = true := by
  obtain ⟨g, hg⟩ := Option.isSome_iff_exists.mp
    (HolonomicTrajectory_generate_nil_isSome m HolonomicTrajectory.fresh path 100 profile)
  simp only [HolonomicTrajectory.ofPath, Option.bind_eq_bind, hg, Option.some_bind,
    Option.pure_def, Option.isSome_some]

/-! ### Distances as polyline lengths -/

omit [FloorRing α] in
theorem Path.polylineFrom_succ (m : Libm α) (path : Path α) (segment : α) (n i : Nat)
    (prev : Vector α) :
    Path.polylineFrom m path segment (n + 1) i prev =
      m.hypot ((path.position (segment * (i : α))).x - prev.x)
          ((path.position (segment * (i : α))).y - prev.y) +
        Path.polylineFrom m path segment n (i + 1) (path.position (segment * (i : α))) := rfl

omit [FloorRing α] in
theorem CubicHermiteInterpolation_getVector (m : Libm α) (path : Path α) (previous : Pose α)
    (x : α) : (CubicHermiteInterpolation m path previous x).getVector = path.position x := rfl

theorem DifferentialTrajectory_generateLoop_polyline (m : Libm α) (path : Path α) (rev : Bool)
    (segment : α) (profile : StaticProfile α) (length : α) (index : Nat) :
    ∀ (n i : Nat) (previous : Pose α) (dist : α),
      (DifferentialTrajectory.generateLoop m path rev segment profile length index
        n i previous dist).2 = dist + Path.polylineFrom m path segment n i previous.getVector ∧
      ∀ (k : Nat) (w : Waypoint α),
        (DifferentialTrajectory.generateLoop m path rev segment profile length index
          n i previous dist).1[k]? = some w →
        w.dist = length + dist + Path.polylineFrom m path segment (k + 1) i previous.getVector := by
  intro n
  induction n with
  | zero =>
    intro i previous dist
    refine ⟨(add_zero _).symm, ?_⟩
    intro k w hw
    cases hw
  | succ n ih =>
    intro i previous dist
    obtain ⟨h1, h2⟩ := ih (i + 1) (CubicHermiteInterpolation m path previous (segment * (i : α)))
      (dist + Vector.getMagnitude m
        (previous.getError
          (CubicHermiteInterpolation m path previous (segment * (i : α)))).getVector)
    rw [CubicHermiteInterpolation_getVector] at h1 h2
    refine ⟨?_, ?_⟩
    · rw [DifferentialTrajectory.generateLoop]
      simp only
      rw [h1, Path.polylineFrom]
      simp only [Vector.getMagnitude, Pose.getVector, Pose.getError,
        CubicHermiteInterpolation, Path.position]
      ring
    · intro k w hw
      rw [DifferentialTrajectory.generateLoop] at hw
      cases k with
      | zero =>
        simp only [List.getElem?_cons_zero, Option.some.injEq] at hw
        subst hw
        simp only [Path.polylineFrom, Vector.getMagnitude, Pose.getVector, Pose.getError,
          CubicHermiteInterpolation, Path.position]
        ring
      | succ k =>
        simp only [List.getElem?_cons_succ] at hw
        rw [h2 k w hw, Path.polylineFrom_succ m path segment (k + 1)]
        simp only [Vector.getMagnitude, Pose.getVector, Pose.getError,
          CubicHermiteInterpolation, Path.position]
        ring

theorem HolonomicTrajectory_generateLoop_polyline (m : Libm α) (path : Path α)
    (orientation : List (HolonomicPose α)) (segment : α) (profile : StaticProfile α)
    (length : α) (index aIndex : Nat) :
    ∀ (n i : Nat) (previous : Pose α) (dist : α) (out : List (Waypoint α) × α),
      HolonomicTrajectory.generateLoop m path orientation segment profile length index aIndex
        n i previous dist = some out →
      out.2 = dist + Path.polylineFrom m path segment n i previous.getVector ∧
      ∀ (k : Nat) (w : Waypoint α), out.1[k]? = some w →
        w.dist = length + dist + Path.polylineFrom m path segment (k + 1) i previous.getVector := by
  intro n
  induction n with
  | zero =>
    intro i previous dist out h
    simp only [HolonomicTrajectory.generateLoop, Option.some.injEq] at h
    subst h
    refine ⟨(add_zero _).symm, ?_⟩
    intro k w hw
    cases hw
  | succ n ih =>
    intro i previous dist out h
    simp only [HolonomicTrajectory.generateLoop, Option.bind_eq_bind, Option.bind_eq_some,
      Option.pure_def, Option.some.injEq] at h
    obtain ⟨w0, _, rest, hrest, rfl⟩ := h
    obtain ⟨h1, h2⟩ := ih _ _ _ rest hrest
    rw [CubicHermiteInterpolation_getVector] at h1 h2
    refine ⟨?_, ?_⟩
    · simp only
      rw [h1, Path.polylineFrom_succ]
      simp only [Vector.getMagnitude, Pose.getVector, Pose.getError,
        CubicHermiteInterpolation, Path.position]
      ring
    · intro k w hw
      cases k with
      | zero =>
        simp only [List.getElem?_cons_zero, Option.some.injEq] at hw
        subst hw
        simp only [Path.polylineFrom, Vector.getMagnitude, Pose.getVector, Pose.getError,
          CubicHermiteInterpolation, Path.position]
        ring
      | succ k =>
        simp only [List.getElem?_cons_succ] at hw
        rw [h2 k w hw, Path.polylineFrom_succ m path segment (k + 1)]
        simp only [Vector.getMagnitude, Pose.getVector, Pose.getError,
          CubicHermiteInterpolation, Path.position]
        ring

/-- What one call of `generate` produces, in terms of the polyline of its path. -/
theorem DifferentialTrajectory_generate_polyline (m : Libm α)
    (self : DifferentialTrajectory α) (path : Path α) (rev : Bool) (clarity : Nat)
    (profile : StaticProfile α) :
    (DifferentialTrajectory.generate m self path rev clarity profile).1.length = clarity ∧
    (DifferentialTrajectory.generate m self path rev clarity profile).2.length =
      Path.polyline m path clarity clarity ∧
    (DifferentialTrajectory.generate m self path rev clarity profile).2.waypoints =
      self.waypoints ∧
    ∀ (k : Nat) (w : Waypoint α),
      (DifferentialTrajectory.generate m self path rev clarity profile).1[k]? = some w →
      w.dist = self.length + Path.polyline m path clarity (k + 1) := by
  have hlen := DifferentialTrajectory_generateLoop_length m path rev (1 / (clarity : α))
    profile self.length self.index clarity 1
    { x := path.p0.x, y := path.p0.y, w := path.t0.getAngle m } 0
  obtain ⟨h1, h2⟩ := DifferentialTrajectory_generateLoop_polyline m path rev (1 / (clarity : α))
    profile self.length self.index clarity 1
    { x := path.p0.x, y := path.p0.y, w := path.t0.getAngle m } 0
  have hv : ({ x := path.p0.x, y := path.p0.y, w := path.t0.getAngle m } : Pose α).getVector
      = path.p0 := rfl
  rw [hv] at h1 h2
  rw [zero_add] at h1
  refine ⟨hlen, h1, rfl, ?_⟩
  intro k w hw
  have := h2 k w hw
  rw [add_zero] at this
  exact this

/-- What one successful call of `generate` produces, in terms of the polyline of its path. -/
theorem HolonomicTrajectory_generate_polyline (m : Libm α)
    (self : HolonomicTrajectory α) (path : Path α) (orientation : List (HolonomicPose α))
    (clarity : Nat) (profile : StaticProfile α)
    (g : List (Waypoint α) × HolonomicTrajectory α)
    (hg : HolonomicTrajectory.generate m self path orientation clarity profile = some g) :
    g.1.length = clarity ∧
    g.2.length = Path.polyline m path clarity clarity ∧
    g.2.waypoints = self.waypoints ∧
    ∀ (k : Nat) (w : Waypoint α), g.1[k]? = some w →
      w.dist = self.length + Path.polyline m path clarity (k + 1) := by
  simp only [HolonomicTrajectory.generate, Option.bind_eq_bind, Option.bind_eq_some,
    Option.pure_def, Option.some.injEq] at hg
  obtain ⟨out, hout, rfl⟩ := hg
  obtain ⟨hlen, _⟩ := HolonomicTrajectory_generateLoop_length m path orientation _ profile
    self.length self.index self.aIndex clarity 1 _ 0 out hout
  obtain ⟨h1, h2⟩ := HolonomicTrajectory_generateLoop_polyline m path orientation _ profile
    self.length self.index self.aIndex clarity 1 _ 0 out hout
  have hv : ({ x := path.p0.x, y := path.p0.y, w := path.t0.getAngle m } : Pose α).getVector
      = path.p0 := rfl
  rw [hv] at h1 h2
  rw [zero_add] at h1
  refine ⟨hlen, h1, rfl, ?_⟩
  intro k w hw
  have := h2 k w hw
  rw [add_zero] at this
  exact this

/-! ### The last waypoint -/

/-- The composite differential trajectory in terms of the polylines of its two segments. -/
theorem DifferentialTrajectory_ofPathPlus_polyline (m : Libm α) (path : PathPlus α)
    (profile : StaticProfile α) (rev : Bool) :
    (DifferentialTrajectory.ofPathPlus m path profile rev).waypoints.length = 100 ∧
    (DifferentialTrajectory.ofPathPlus m path profile rev).length =
      Path.polyline m { p0 := path.p0, p1 := path.p1, t0 := path.t0, t1 := path.t1 } 50 50 +
      Path.polyline m { p0 := path.p1, p1 := path.p2, t0 := path.t1, t1 := path.t2 } 50 50 ∧
    (∀ (k : Nat) (w : Waypoint α), k < 50 →
      (DifferentialTrajectory.ofPathPlus m path profile rev).waypoints[k]? = some w →
      w.dist =
        Path.polyline m { p0 := path.p0, p1 := path.p1, t0 := path.t0, t1 := path.t1 } 50
          (k + 1)) ∧
    (∀ (k : Nat) (w : Waypoint α), k < 50 →
      (DifferentialTrajectory.ofPathPlus m path profile rev).waypoints[50 + k]? = some w →
      w.dist =
        Path.polyline m { p0 := path.p0, p1 := path.p1, t0 := path.t0, t1 := path.t1 } 50 50 +
        Path.polyline m { p0 := path.p1, p1 := path.p2, t0 := path.t1, t1 := path.t2 } 50
          (k + 1)) := by
  rw [DifferentialTrajectory_ofPathPlus_waypoints, DifferentialTrajectory_ofPathPlus_length]
  obtain ⟨a1, a2, _, a4⟩ := DifferentialTrajectory_generate_polyline m
    DifferentialTrajectory.fresh
    { p0 := path.p0, p1 := path.p1, t0 := path.t0, t1 := path.t1 } rev 50 profile
  generalize DifferentialTrajectory.generate m DifferentialTrajectory.fresh
    { p0 := path.p0, p1 := path.p1, t0 := path.t0, t1 := path.t1 } rev 50 profile = g1
    at a1 a2 a4 ⊢
  obtain ⟨b1, b2, _, b4⟩ := DifferentialTrajectory_generate_polyline m
    { g1.2 with waypoints := g1.1 }
    { p0 := path.p1, p1 := path.p2, t0 := path.t1, t1 := path.t2 } rev 50 profile
  generalize DifferentialTrajectory.generate m { g1.2 with waypoints := g1.1 }
    { p0 := path.p1, p1 := path.p2, t0 := path.t1, t1 := path.t2 } rev 50 profile = g2
    at b1 b2 b4 ⊢
  have hz : (DifferentialTrajectory.fresh : DifferentialTrajectory α).length = 0 := rfl
  rw [hz] at a4
  simp only at b4
  refine ⟨by rw [List.length_append, a1, b1], by rw [a2, b2], ?_, ?_⟩
  · intro k w hk hw
    rw [List.getElem?_append_left (by omega)] at hw
    rw [a4 k w hw, zero_add]
  · intro k w hk hw
    rw [List.getElem?_append_right (by omega), a1, Nat.add_sub_cancel_left] at hw
    rw [b4 k w hw, a2]

/-- The composite holonomic trajectory in terms of the polylines of its two segments. -/
theorem HolonomicTrajectory_ofPathPlus_polyline (m : Libm α) (path : PathPlus α)
    (profile : StaticProfile α) (orientation : List (HolonomicPose α))
    (t : HolonomicTrajectory α)
    (ht : HolonomicTrajectory.ofPathPlus m path profile orientation = some t) :
    t.waypoints.length = 100 ∧
    t.length =
      Path.polyline m { p0 := path.p0, p1 := path.p1, t0 := path.t0, t1 := path.t1 } 50 50 +
      Path.polyline m { p0 := path.p1, p1 := path.p2, t0 := path.t1, t1 := path.t2 } 50 50 ∧
    (∀ (k : Nat) (w : Waypoint α), k < 50 → t.waypoints[k]? = some w →
      w.dist =
        Path.polyline m { p0 := path.p0, p1 := path.p1, t0 := path.t0, t1 := path.t1 } 50
          (k + 1)) ∧
    (∀ (k : Nat) (w : Waypoint α), k < 50 → t.waypoints[50 + k]? = some w →
      w.dist =
        Path.polyline m { p0 := path.p0, p1 := path.p1, t0 := path.t0, t1 := path.t1 } 50 50 +
        Path.polyline m { p0 := path.p1, p1 := path.p2, t0 := path.t1, t1 := path.t2 } 50
          (k + 1)) := by
  simp only [HolonomicTrajectory.ofPathPlus, Option.bind_eq_bind, Option.bind_eq_some,
    Option.pure_def, Option.some.injEq] at ht
  obtain ⟨g1, hg1, g2, hg2, rfl⟩ := ht
  obtain ⟨a1, a2, _, a4⟩ := HolonomicTrajectory_generate_polyline m
    HolonomicTrajectory.fresh _ orientation 50 profile g1 hg1
  obtain ⟨b1, b2, b3, b4⟩ := HolonomicTrajectory_generate_polyline m
    _ _ orientation 50 profile g2 hg2
  have hz : (HolonomicTrajectory.fresh : HolonomicTrajectory α).length = 0 := rfl
  rw [hz] at a4
  simp only at b3 b4
  simp only [b3]
  refine ⟨by rw [List.length_append, a1, b1], by rw [a2, b2], ?_, ?_⟩
  · intro k w hk hw
    rw [List.getElem?_append_left (by omega)] at hw
    rw [a4 k w hw, zero_add]
  · intro k w hk hw
    rw [List.getElem?_append_right (by omega), a1, Nat.add_sub_cancel_left] at hw
    rw [b4 k w hw, a2]

end Distances

/-! ## The rational math library -/

section ClaimsDistances

theorem Libm.onAxis_hypot_nonneg : ∀ x y : ℚ, 0 ≤ Libm.onAxis.hypot x y :=
  fun x _ => le_max_of_le_left (abs_nonneg x)

end ClaimsDistances

/-! ## Claims C3 and C5: the lookup -/

section ClaimsLookup

variable {α : Type} [LinearOrderedField α]

theorem Waypoint.lookup_leastIndexLookup (ws : List (Waypoint α))
    (hmono : Waypoint.NonDecreasing ws) :
    Waypoint.LeastIndexLookup (Waypoint.lookup ws) ws := by
  refine ⟨?_, ?_, ?_⟩
  · intro d last hlast hd
    rcases h : Waypoint.lookup ws d with _ | w
    · have hmem : last ∈ ws := List.mem_of_getLast?_eq_some hlast
      exact absurd ((Waypoint.lookup_eq_none_iff ws d).mp h last hmem) (not_lt.mpr hd)
    · obtain ⟨k, hk, hdw, hall⟩ := (Waypoint.lookup_eq_some_iff ws d w).mp h
      exact ⟨k, w, rfl, hk, hdw, hall⟩
  · intro first hfirst h0
    refine (Waypoint.lookup_eq_some_iff ws 0 first).mpr ⟨0, hfirst, h0, ?_⟩
    intro j v hj
    cases hj
  · intro i a b d ha hb had hdb
    refine (Waypoint.lookup_eq_some_iff ws d b).mpr ⟨i + 1, hb, hdb, ?_⟩
    intro j v hj hv
    have hord := hmono.ordered
    obtain ⟨hjl, rfl⟩ := List.getElem?_eq_some.mp hv
    obtain ⟨hil, rfl⟩ := List.getElem?_eq_some.mp ha
    rcases Nat.eq_or_lt_of_le (Nat.lt_succ_iff.mp hj) with h | h
    · subst h
      exact had
    · exact lt_of_le_of_lt ((List.pairwise_iff_getElem.mp hord) j i hjl hil h) had

theorem Waypoint.lookup_failsClosed (ws : List (Waypoint α)) :
    Waypoint.FailsClosed (Waypoint.lookup ws) ws := by
  refine ⟨?_, ?_, ?_, ?_⟩
  · intro d
    rw [Waypoint.lookup_eq_none_iff]
    constructor
    · rintro h ⟨w, hw, hdw⟩
      exact absurd (h w hw) (not_lt.mpr hdw)
    · intro h w hw
      by_contra hlt
      exact h ⟨w, hw, not_lt.mp hlt⟩
  · intro d last hmono hlast hd
    rw [Waypoint.lookup_eq_none_iff]
    intro w hw
    obtain ⟨j, hj, rfl⟩ := List.getElem_of_mem hw
    have hlast' := hlast
    rw [List.getLast?_eq_getElem?] at hlast'
    obtain ⟨hl, rfl⟩ := List.getElem?_eq_some.mp hlast'
    rcases Nat.eq_or_lt_of_le (Nat.le_pred_of_lt hj) with h | h
    · have : ws[j] = ws[ws.length - 1] := by congr 1
      rw [this]
      exact hd
    · exact lt_of_le_of_lt
        ((List.pairwise_iff_getElem.mp hmono.ordered) j (ws.length - 1) hj hl h) hd
  · intro hnil d
    rw [Waypoint.lookup_eq_none_iff, hnil]
    intro w hw
    cases hw
  · intro d w h
    obtain ⟨k, hk, _, _⟩ := (Waypoint.lookup_eq_some_iff ws d w).mp h
    exact List.getElem?_mem hk

/-- C3: on a trajectory whose waypoint distances are non-decreasing, `get(d)` for a `d` not
exceeding the last distance returns the waypoint of least index `i` with
`waypoints[i].dist ≥ d`; `get(0)` returns `waypoints[0]`, and for `d` in
`(waypoints[i].dist, waypoints[i+1].dist]` it returns `waypoints[i+1]`.  Stated for
`DifferentialTrajectory::get` and `HolonomicTrajectory::get`. -/
theorem C3_get_returns_least_index (td : DifferentialTrajectory α) (th : HolonomicTrajectory α)
    (hd : Waypoint.NonDecreasing td.waypoints) (hh : Waypoint.NonDecreasing th.waypoints) :
    Waypoint.LeastIndexLookup td.get td.waypoints ∧
    Waypoint.LeastIndexLookup th.get th.waypoints :=
  ⟨Waypoint.lookup_leastIndexLookup td.waypoints hd,
   Waypoint.lookup_leastIndexLookup th.waypoints hh⟩

/-- C5: `get(d)` throws `std::out_of_range` exactly when no waypoint has `dist ≥ d`, which
covers every `d` beyond the last distance of a non-decreasing list and every lookup on an
empty list; a returned waypoint is always a member of the sequence.  Stated for
`DifferentialTrajectory::get` and `HolonomicTrajectory::get`. -/
theorem C5_get_fails_closed (td : DifferentialTrajectory α) (th : HolonomicTrajectory α) :
    Waypoint.FailsClosed td.get td.waypoints ∧ Waypoint.FailsClosed th.get th.waypoints :=
  ⟨Waypoint.lookup_failsClosed td.waypoints, Waypoint.lookup_failsClosed th.waypoints⟩

end ClaimsLookup

/-! ## Claim C4: the lookup at the full length -/

section ClaimLength

variable {α : Type} [LinearOrderedField α] [FloorRing α]

theorem fmod_eq_self_of_lt {a y : α} (ha : 0 ≤ a) (hay : a < y) : fmod a y = a := by
  have hy : 0 < y := lt_of_le_of_lt ha hay
  have hq0 : 0 ≤ a / y := div_nonneg ha hy.le
  have hq1 : a / y < 1 := (div_lt_one hy).mpr hay
  have hfl : ⌊a / y⌋ = 0 := Int.floor_eq_zero_iff.mpr ⟨hq0, hq1⟩
  simp only [fmod, if_pos hq0, hfl, Int.cast_zero, mul_zero, sub_zero]

theorem fmod_add_self_of_lt {a y : α} (ha : 0 ≤ a) (hay : a < y) : fmod (a + y) y = a := by
  have hy : 0 < y := lt_of_le_of_lt ha hay
  have hq : (a + y) / y = a / y + 1 := by field_simp
  have hq0 : 0 ≤ a / y := div_nonneg ha hy.le
  have hq1 : a / y < 1 := (div_lt_one hy).mpr hay
  have hfl : ⌊(a + y) / y⌋ = 1 := by
    rw [hq, Int.floor_add_one, Int.floor_eq_zero_iff.mpr ⟨hq0, hq1⟩]
    rfl
  have hpos : 0 ≤ (a + y) / y := by rw [hq]; linarith
  simp only [fmod, if_pos hpos, hfl, Int.cast_one, mul_one, add_sub_cancel_right]

/-- `bound` leaves an angle of `[0, 360)` unchanged. -/
theorem bound_eq_self {a : α} (ha : 0 ≤ a) (h : a < 360) : bound a = a := by
  unfold bound
  rw [fmod_eq_self_of_lt ha h, fmod_add_self_of_lt ha h]

/-- C3 on the hand-written trajectories with distances 1, 2, 2: the distances are
non-decreasing, and `get(3/2)` is the waypoint at index 1 for both classes. -/
theorem C3_get_returns_least_index_witness :
    Waypoint.NonDecreasing Example.differential.waypoints ∧
    Waypoint.NonDecreasing Example.holonomic.waypoints ∧
    (Waypoint.LeastIndexLookup Example.differential.get Example.differential.waypoints ∧
      Waypoint.LeastIndexLookup Example.holonomic.get Example.holonomic.waypoints) ∧
    Example.differential.get (3 / 2) = Example.waypoints[1]? ∧
    Example.holonomic.get (3 / 2) = Example.waypoints[1]? := by
  have hord : Waypoint.Ordered Example.waypoints := by
    simp [Waypoint.Ordered, Example.waypoints]
  have h := C3_get_returns_least_index Example.differential Example.holonomic
    hord.nonDecreasing hord.nonDecreasing
  refine ⟨hord.nonDecreasing, hord.nonDecreasing, h, ?_, ?_⟩
  · exact h.1.2.2 0 _ _ (3 / 2) rfl rfl
      (by norm_num [Example.differential, Example.waypoints])
      (by norm_num [Example.waypoints])
  · exact h.2.2.2 0 _ _ (3 / 2) rfl rfl
      (by norm_num [Example.holonomic, Example.waypoints])
      (by norm_num [Example.waypoints])

end ClaimLength

/-! ## Claims C8, C9 and C10: wheel fractions and the angle wrap -/

section ClaimsFractions

variable {α : Type} [LinearOrderedField α]

/-- C8 fails at `y = -1`, `w = -1`: the raw values are `left = -1.6`, `right = -0.4`, the
divisor `fmax(fmax(fabs(right), 1), left)` is 1 because `left` enters it without `fabs`, and
`drive` receives `left = -1.6`, outside `[-1, 1]`. -/
theorem C8_arcadeDrive_left_fraction_out_of_range :
    DifferentialDrive.arcadeDriveArgs (-1 : ℚ) (-1) = (-8 / 5, -2 / 5) ∧
    (DifferentialDrive.arcadeDriveArgs (-1 : ℚ) (-1)).1 < -1 ∧
    DifferentialDrive.arcadeDrive (-1 : ℚ) (-1) = .spin (-80) (-320) (-320) (-80) := by
  have h : DifferentialDrive.arcadeDriveArgs (-1 : ℚ) (-1) = (-8 / 5, -2 / 5) := by
    norm_num [DifferentialDrive.arcadeDriveArgs, DifferentialDrive.W_SCALER, abs_of_pos,
      max_def]
  refine ⟨h, by rw [h]; norm_num, ?_⟩
  rw [DifferentialDrive.arcadeDrive, h]
  norm_num [DifferentialDrive.drive, DifferentialDrive.MAX_VELOCITY]

theorem abs_div_max_le_one {a c : α} (hc : 0 < c) (hac : |a| ≤ c) :
    -1 ≤ a / c ∧ a / c ≤ 1 := by
  have h := abs_le.mp hac
  constructor
  · rw [le_div_iff₀ hc]; linarith
  · rw [div_le_iff₀ hc]; linarith

/-- C9: for every translation vector, rotation input, heading and `fieldCentric` setting the
four values `arcadeDrive` multiplies by `WHEEL_MAX_RPM` lie in `[-1, 1]`; they are the raw
projections divided by the largest raw magnitude when that exceeds 1, and the raw projections
themselves otherwise; in both cases the raw projections divided by one positive number. -/
theorem C9_holonomic_arcadeDrive_fractions_in_range (m : Libm α) (self : HolonomicDrive α)
    (translation : Vector α) (w : α) :
    let raw := HolonomicDrive.arcadeDriveRaw m self translation w
    let q := HolonomicDrive.arcadeDriveFractions m self translation w
    let top := max (max |raw.1| |raw.2.1|) (max |raw.2.2.1| |raw.2.2.2|)
    ((-1 ≤ q.1 ∧ q.1 ≤ 1) ∧ (-1 ≤ q.2.1 ∧ q.2.1 ≤ 1) ∧
      (-1 ≤ q.2.2.1 ∧ q.2.2.1 ≤ 1) ∧ (-1 ≤ q.2.2.2 ∧ q.2.2.2 ≤ 1)) ∧
    (1 < top → q = (raw.1 / top, raw.2.1 / top, raw.2.2.1 / top, raw.2.2.2 / top)) ∧
    (top ≤ 1 → q = raw) ∧
    (∃ c : α, 0 < c ∧
      q = (raw.1 / c, raw.2.1 / c, raw.2.2.1 / c, raw.2.2.2 / c)) ∧
    HolonomicDrive.arcadeDrive m self translation w =
      .spin (q.1 * 180) (q.2.1 * 180) (q.2.2.1 * 180) (q.2.2.2 * 180) := by
  intro raw q top
  have h1 : |raw.1| ≤ top := le_trans (le_max_left _ _) (le_max_left _ _)
  have h2 : |raw.2.1| ≤ top := le_trans (le_max_right _ _) (le_max_left _ _)
  have h3 : |raw.2.2.1| ≤ top := le_trans (le_max_left _ _) (le_max_right _ _)
  have h4 : |raw.2.2.2| ≤ top := le_trans (le_max_right _ _) (le_max_right _ _)
  have hbig : 1 < top →
      q = (raw.1 / top, raw.2.1 / top, raw.2.2.1 / top, raw.2.2.2 / top) := by
    intro h
    show HolonomicDrive.arcadeDriveFractions m self translation w = _
    unfold HolonomicDrive.arcadeDriveFractions
    simp only
    rw [if_pos h]
  have hsmall : top ≤ 1 → q = raw := by
    intro h
    show HolonomicDrive.arcadeDriveFractions m self translation w = _
    unfold HolonomicDrive.arcadeDriveFractions
    simp only
    rw [if_neg (not_lt.mpr h)]
  refine ⟨?_, hbig, hsmall, ?_, ?_⟩
  · rcases lt_or_le 1 top with h | h
    · have hpos : 0 < top := lt_trans zero_lt_one h
      rw [hbig h]
      exact ⟨abs_div_max_le_one hpos h1, abs_div_max_le_one hpos h2,
        abs_div_max_le_one hpos h3, abs_div_max_le_one hpos h4⟩
    · rw [hsmall h]
      have e : ∀ a : α, |a| ≤ top → -1 ≤ a ∧ a ≤ 1 := by
        intro a ha
        have := abs_le.mp (le_trans ha h)
        exact this
      exact ⟨e _ h1, e _ h2, e _ h3, e _ h4⟩
  · rcases lt_or_le 1 top with h | h
    · exact ⟨top, lt_trans zero_lt_one h, hbig h⟩
    · refine ⟨1, zero_lt_one, ?_⟩
      rw [hsmall h]
      simp only [div_one]
  · show HolonomicDrive.arcadeDrive m self translation w = _
    unfold HolonomicDrive.arcadeDrive
    simp only [HolonomicDrive.WHEEL_MAX_RPM]

/-- C10 fails at `current = 1000`, `desired = 0`: the difference 1000 is reduced once, to
640, and `wrap` returns -640, outside `[-180, 180]`. -/
theorem C10_counterexample : wrap (1000 : ℚ) 0 = -640 ∧ ¬ (-180 ≤ wrap (1000 : ℚ) 0) := by
  have h : wrap (1000 : ℚ) 0 = -640 := by norm_num [wrap]
  exact ⟨h, by rw [h]; norm_num⟩

/-- C10 (amended): for all angles whose difference is at most 540 in absolute value,
`wrap(current, desired)` lies in `[-180, 180]`. -/
theorem C10_wrap_in_range_of_abs_sub_le (current desired : α)
    (h : |current - desired| ≤ 540) :
    -180 ≤ wrap current desired ∧ wrap current desired ≤ 180 := by
  obtain ⟨h1, h2⟩ := abs_le.mp h
  unfold wrap
  simp only
  split_ifs with ha hb
  · constructor <;> linarith
  · constructor <;> linarith
  · constructor <;> linarith

/-- C10 (amended) at `current = 350`, `desired = 10`: the difference 340 is within 540 and
`wrap` returns 20. -/
theorem C10_wrap_in_range_of_abs_sub_le_witness :
    |(350 : ℚ) - 10| ≤ 540 ∧ (-180 ≤ wrap (350 : ℚ) 10 ∧ wrap (350 : ℚ) 10 ≤ 180) ∧
    wrap (350 : ℚ) 10 = 20 :=
  ⟨by norm_num [abs_of_pos], C10_wrap_in_range_of_abs_sub_le 350 10 (by norm_num [abs_of_pos]),
   by norm_num [wrap]⟩

end ClaimsFractions

/-! ## Progress of the follow loop in exact arithmetic, and claim C7 -/

section ClaimsFollow

variable {α : Type} [LinearOrderedField α]

theorem fitToRange_unit_mem (v : α) : 0 ≤ fitToRange v 0 1 ∧ fitToRange v 0 1 ≤ 1 := by
  unfold fitToRange
  split_ifs with h1 h2
  · exact ⟨zero_le_one, le_refl _⟩
  · exact ⟨le_refl _, zero_le_one⟩
  · exact ⟨not_lt.mp h2, not_lt.mp h1⟩

theorem fitToRange_unit_mono {u v : α} (h : u ≤ v) : fitToRange u 0 1 ≤ fitToRange v 0 1 := by
  unfold fitToRange
  split_ifs <;> linarith

theorem fitToRange_unit_lt_one {v : α} (h : fitToRange v 0 1 < 1) : v < 1 := by
  unfold fitToRange at h
  split_ifs at h with h1 h2
  · exact absurd h (lt_irrefl _)
  · exact lt_trans h2 zero_lt_one
  · exact h

theorem fitToRange_unit_eq_one {v : α} (h : ¬ fitToRange v 0 1 < 1) : fitToRange v 0 1 = 1 :=
  le_antisymm (fitToRange_unit_mem v).2 (not_lt.mp h)

theorem progressSequence_of_pairwise {vals : List α} (hmem : ∀ v ∈ vals, 0 ≤ v ∧ v ≤ 1)
    (hp : List.Pairwise (fun a b : α => a ≤ b) vals) : ProgressSequence vals := by
  have hmono : ∀ (i j : Nat) (a b : α), i ≤ j → vals[i]? = some a → vals[j]? = some b →
      a ≤ b := by
    intro i j a b hij ha hb
    obtain ⟨hi, rfl⟩ := List.getElem?_eq_some.mp ha
    obtain ⟨hj, rfl⟩ := List.getElem?_eq_some.mp hb
    rcases Nat.eq_or_lt_of_le hij with e | e
    · subst e; exact le_refl _
    · exact (List.pairwise_iff_getElem.mp hp) i j hi hj e
  refine ⟨hmem, hmono, ?_⟩
  intro i j b hij ha hb
  exact le_antisymm (hmem b (List.getElem?_mem hb)).2 (hmono i j 1 b hij ha hb)

/-! ### DifferentialDrive -/

theorem DifferentialDrive_localize_distanceTraveled (m : Libm α)
    (hh : ∀ x y : α, 0 ≤ m.hypot x y) (s : DifferentialDrive α) (r : Readings α) :
    s.distanceTraveled ≤ (DifferentialDrive.localize m s r).distanceTraveled := by
  simp only [DifferentialDrive.localize, Vector.getMagnitude]
  exact le_add_of_nonneg_right (hh _ _)

theorem DifferentialDrive_localize_omegaPID (m : Libm α) (s : DifferentialDrive α)
    (r : Readings α) : (DifferentialDrive.localize m s r).omegaPID = s.omegaPID := rfl

/-- The value `follow` returns and the distance it leaves behind. -/
theorem DifferentialDrive_follow_value (m : Libm α) (s : DifferentialDrive α)
    (t : DifferentialTrajectory α) (r : Readings α) (v : α) (s' : DifferentialDrive α)
    (c : MotorCommand α) (h : DifferentialDrive.follow m s t r = some (v, s', c)) :
    v = fitToRange ((DifferentialDrive.localize m s r).distanceTraveled / t.length) 0 1 ∧
    s'.distanceTraveled = (DifferentialDrive.localize m s r).distanceTraveled := by
  unfold DifferentialDrive.follow at h
  simp only at h
  split_ifs at h with hp hs
  · simp only [Option.bind_eq_bind, Option.bind_eq_some, Option.pure_def, Option.some.injEq,
      Prod.mk.injEq] at h
    obtain ⟨w, _, rfl, rfl, _⟩ := h
    exact ⟨rfl, rfl⟩
  · simp only [Option.bind_eq_bind, Option.bind_eq_some, Option.pure_def, Option.some.injEq,
      Prod.mk.injEq] at h
    obtain ⟨w, _, rfl, rfl, _⟩ := h
    exact ⟨rfl, rfl⟩
  · simp only [Option.pure_def, Option.some.injEq, Prod.mk.injEq] at h
    obtain ⟨rfl, rfl, _⟩ := h
    exact ⟨(fitToRange_unit_eq_one hp).symm, rfl⟩

/-- Once the distance travelled has reached a positive length, `follow` returns 1, stops the
motors and leaves the object as `localize` made it. -/
theorem DifferentialDrive_follow_complete (m : Libm α) (hh : ∀ x y : α, 0 ≤ m.hypot x y)
    (s : DifferentialDrive α) (t : DifferentialTrajectory α) (r : Readings α)
    (hlen : 0 < t.length) (hdone : t.length ≤ s.distanceTraveled) :
    DifferentialDrive.follow m s t r =
      some (1, DifferentialDrive.localize m s r, MotorCommand.stop) := by
  have hd := DifferentialDrive_localize_distanceTraveled m hh s r
  have hq : 1 ≤ (DifferentialDrive.localize m s r).distanceTraveled / t.length := by
    rw [le_div_iff₀ hlen]; linarith
  have hp : ¬ fitToRange ((DifferentialDrive.localize m s r).distanceTraveled / t.length) 0 1
      < 1 := fun h => absurd (fitToRange_unit_lt_one h) (not_lt.mpr hq)
  unfold DifferentialDrive.follow
  simp only
  rw [if_neg hp]
  rfl

/-- Along a sequence of calls the distance travelled never decreases, and the values
returned by `follow` are ordered, lie in `[0, 1]` and start at or above the progress of the
initial object. -/
theorem DifferentialDrive_run_values (m : Libm α) (hh : ∀ x y : α, 0 ≤ m.hypot x y)
    (t : DifferentialTrajectory α) (hlen : 0 < t.length) :
    ∀ (calls : List (DriveCall α)) (s : DifferentialDrive α) (vals : List α)
      (s' : DifferentialDrive α),
      DifferentialDrive.run m t s calls = some (vals, s') →
      s.distanceTraveled ≤ s'.distanceTraveled ∧
      (∀ v ∈ vals, fitToRange (s.distanceTraveled / t.length) 0 1 ≤ v ∧ 0 ≤ v ∧ v ≤ 1) ∧
      List.Pairwise (fun a b : α => a ≤ b) vals := by
  intro calls
  induction calls with
  | nil =>
    intro s vals s' h
    simp only [DifferentialDrive.run, Option.some.injEq, Prod.mk.injEq] at h
    obtain ⟨rfl, rfl⟩ := h
    refine ⟨le_refl _, ?_, List.Pairwise.nil⟩
    intro v hv
    cases hv
  | cons call rest ih =>
    intro s vals s' h
    cases call with
    | follow r =>
      simp only [DifferentialDrive.run, Option.bind_eq_bind, Option.bind_eq_some,
        Option.pure_def, Option.some.injEq, Prod.mk.injEq] at h
      obtain ⟨⟨v, s1, c⟩, hf, ⟨tl, s2⟩, hr, rfl, rfl⟩ := h
      obtain ⟨hv, hs1⟩ := DifferentialDrive_follow_value m s t r v s1 c hf
      have hloc := DifferentialDrive_localize_distanceTraveled m hh s r
      obtain ⟨h1, h2, h3⟩ := ih s1 tl s2 hr
      simp only at h1 h2 h3 hv hs1 ⊢
      have hsv : fitToRange (s.distanceTraveled / t.length) 0 1 ≤ v := by
        rw [hv]
        exact fitToRange_unit_mono (div_le_div_of_nonneg_right hloc hlen.le)
      have hv1 : v = fitToRange (s1.distanceTraveled / t.length) 0 1 := by rw [hv, hs1]
      refine ⟨by rw [hs1] at h1; exact le_trans hloc h1, ?_, ?_⟩
      · intro u hu
        rcases List.mem_cons.mp hu with rfl | hu
        · rw [hv]
          exact ⟨fitToRange_unit_mono (div_le_div_of_nonneg_right hloc hlen.le),
            fitToRange_unit_mem _⟩
        · obtain ⟨a, b⟩ := h2 u hu
          exact ⟨le_trans hsv (by rw [hv1]; exact a), b⟩
      · refine List.Pairwise.cons ?_ h3
        intro u hu
        rw [hv1]
        exact (h2 u hu).1
    | localize r =>
      simp only [DifferentialDrive.run] at h
      have hloc := DifferentialDrive_localize_distanceTraveled m hh s r
      obtain ⟨h1, h2, h3⟩ := ih _ vals s' h
      refine ⟨le_trans hloc h1, ?_, h3⟩
      intro u hu
      obtain ⟨a, b⟩ := h2 u hu
      exact ⟨le_trans (fitToRange_unit_mono (div_le_div_of_nonneg_right hloc hlen.le)) a, b⟩

/-! ### HolonomicDrive -/

theorem HolonomicDrive_localize_distanceTraveled (m : Libm α)
    (hh : ∀ x y : α, 0 ≤ m.hypot x y) (s : HolonomicDrive α) (r : Readings α) :
    s.distanceTraveled ≤ (HolonomicDrive.localize m s r).distanceTraveled := by
  simp only [HolonomicDrive.localize, Vector.getMagnitude]
  exact le_add_of_nonneg_right (hh _ _)

theorem HolonomicDrive_localize_omegaPID (m : Libm α) (s : HolonomicDrive α)
    (r : Readings α) : (HolonomicDrive.localize m s r).omegaPID = s.omegaPID := rfl

/-- The value `follow` returns and the distance it leaves behind. -/
theorem HolonomicDrive_follow_value (m : Libm α) (s : HolonomicDrive α)
    (t : HolonomicTrajectory α) (r : Readings α) (v : α) (s' : HolonomicDrive α)
    (c : MotorCommand α) (h : HolonomicDrive.follow m s t r = some (v, s', c)) :
    v = fitToRange ((HolonomicDrive.localize m s r).distanceTraveled / t.length) 0 1 ∧
    s'.distanceTraveled = (HolonomicDrive.localize m s r).distanceTraveled := by
  unfold HolonomicDrive.follow at h
  simp only at h
  split_ifs at h with hp hs
  · simp only [Option.bind_eq_bind, Option.bind_eq_some, Option.pure_def, Option.some.injEq,
      Prod.mk.injEq] at h
    obtain ⟨w, _, rfl, rfl, _⟩ := h
    exact ⟨rfl, rfl⟩
  · simp only [Option.bind_eq_bind, Option.bind_eq_some, Option.pure_def, Option.some.injEq,
      Prod.mk.injEq] at h
    obtain ⟨w, _, rfl, rfl, _⟩ := h
    exact ⟨rfl, rfl⟩
  · simp only [Option.pure_def, Option.some.injEq, Prod.mk.injEq] at h
    obtain ⟨rfl, rfl, _⟩ := h
    exact ⟨(fitToRange_unit_eq_one hp).symm, rfl⟩

/-- Once the distance travelled has reached a positive length, `follow` returns 1, stops the
motors and leaves the object as `localize` made it. -/
theorem HolonomicDrive_follow_complete (m : Libm α) (hh : ∀ x y : α, 0 ≤ m.hypot x y)
    (s : HolonomicDrive α) (t : HolonomicTrajectory α) (r : Readings α)
    (hlen : 0 < t.length) (hdone : t.length ≤ s.distanceTraveled) :
    HolonomicDrive.follow m s t r =
      some (1, HolonomicDrive.localize m s r, MotorCommand.stop) := by
  have hd := HolonomicDrive_localize_distanceTraveled m hh s r
  have hq : 1 ≤ (HolonomicDrive.localize m s r).distanceTraveled / t.length := by
    rw [le_div_iff₀ hlen]; linarith
  have hp : ¬ fitToRange ((HolonomicDrive.localize m s r).distanceTraveled / t.length) 0 1
      < 1 := fun h => absurd (fitToRange_unit_lt_one h) (not_lt.mpr hq)
  unfold HolonomicDrive.follow
  simp only
  rw [if_neg hp]
  rfl

/-- Along a sequence of calls the distance travelled never decreases, and the values
returned by `follow` are ordered, lie in `[0, 1]` and start at or above the progress of the
initial object. -/
theorem HolonomicDrive_run_values (m : Libm α) (hh : ∀ x y : α, 0 ≤ m.hypot x y)
    (t : HolonomicTrajectory α) (hlen : 0 < t.length) :
    ∀ (calls : List (DriveCall α)) (s : HolonomicDrive α) (vals : List α)
      (s' : HolonomicDrive α),
      HolonomicDrive.run m t s calls = some (vals, s') →
      s.distanceTraveled ≤ s'.distanceTraveled ∧
      (∀ v ∈ vals, fitToRange (s.distanceTraveled / t.length) 0 1 ≤ v ∧ 0 ≤ v ∧ v ≤ 1) ∧
      List.Pairwise (fun a b : α => a ≤ b) vals := by
  intro calls
  induction calls with
  | nil =>
    intro s vals s' h
    simp only [HolonomicDrive.run, Option.some.injEq, Prod.mk.injEq] at h
    obtain ⟨rfl, rfl⟩ := h
    refine ⟨le_refl _, ?_, List.Pairwise.nil⟩
    intro v hv
    cases hv
  | cons call rest ih =>
    intro s vals s' h
    cases call with
    | follow r =>
      simp only [HolonomicDrive.run, Option.bind_eq_bind, Option.bind_eq_some,
        Option.pure_def, Option.some.injEq, Prod.mk.injEq] at h
      obtain ⟨⟨v, s1, c⟩, hf, ⟨tl, s2⟩, hr, rfl, rfl⟩ := h
      obtain ⟨hv, hs1⟩ := HolonomicDrive_follow_value m s t r v s1 c hf
      have hloc := HolonomicDrive_localize_distanceTraveled m hh s r
      obtain ⟨h1, h2, h3⟩ := ih s1 tl s2 hr
      simp only at h1 h2 h3 hv hs1 ⊢
      have hsv : fitToRange (s.distanceTraveled / t.length) 0 1 ≤ v := by
        rw [hv]
        exact fitToRange_unit_mono (div_le_div_of_nonneg_right hloc hlen.le)
      have hv1 : v = fitToRange (s1.distanceTraveled / t.length) 0 1 := by rw [hv, hs1]
      refine ⟨by rw [hs1] at h1; exact le_trans hloc h1, ?_, ?_⟩
      · intro u hu
        rcases List.mem_cons.mp hu with rfl | hu
        · rw [hv]
          exact ⟨fitToRange_unit_mono (div_le_div_of_nonneg_right hloc hlen.le),
            fitToRange_unit_mem _⟩
        · obtain ⟨a, b⟩ := h2 u hu
          exact ⟨le_trans hsv (by rw [hv1]; exact a), b⟩
      · refine List.Pairwise.cons ?_ h3
        intro u hu
        rw [hv1]
        exact (h2 u hu).1
    | localize r =>
      simp only [HolonomicDrive.run] at h
      have hloc := HolonomicDrive_localize_distanceTraveled m hh s r
      obtain ⟨h1, h2, h3⟩ := ih _ vals s' h
      refine ⟨le_trans hloc h1, ?_, h3⟩
      intro u hu
      obtain ⟨a, b⟩ := h2 u hu
      exact ⟨le_trans (fitToRange_unit_mono (div_le_div_of_nonneg_right hloc hlen.le)) a, b⟩

/-- C7 (amended): in every controller state with `distanceTraveled ≥ trajectory.length > 0`
a further `follow` call returns 1, issues the stop command and leaves the PID state as it
was; the rest of the object is as this call's `localize` leaves it, with the heading and
`lastTime` just read.  Stated for `DifferentialDrive` and `HolonomicDrive`; `hypot` is
assumed to return non-negative values. -/
theorem C7_follow_complete_keeps_pid (m : Libm α) (hh : ∀ x y : α, 0 ≤ m.hypot x y) :
    (∀ (s : DifferentialDrive α) (t : DifferentialTrajectory α) (r : Readings α),
      0 < t.length → t.length ≤ s.distanceTraveled →
      DifferentialDrive.follow m s t r =
        some (1, DifferentialDrive.localize m s r, MotorCommand.stop) ∧
      (DifferentialDrive.localize m s r).omegaPID = s.omegaPID ∧
      (DifferentialDrive.localize m s r).pose.w = r.gyro ∧
      (DifferentialDrive.localize m s r).lastTime = r.time2) ∧
    (∀ (s : HolonomicDrive α) (t : HolonomicTrajectory α) (r : Readings α),
      0 < t.length → t.length ≤ s.distanceTraveled →
      HolonomicDrive.follow m s t r =
        some (1, HolonomicDrive.localize m s r, MotorCommand.stop) ∧
      (HolonomicDrive.localize m s r).omegaPID = s.omegaPID ∧
      (HolonomicDrive.localize m s r).pose.w = r.gyro ∧
      (HolonomicDrive.localize m s r).lastTime = r.time2) :=
  ⟨fun s t r hlen hdone =>
      ⟨DifferentialDrive_follow_complete m hh s t r hlen hdone, rfl, rfl, rfl⟩,
   fun s t r hlen hdone =>
      ⟨HolonomicDrive_follow_complete m hh s t r hlen hdone, rfl, rfl, rfl⟩⟩

variable [FloorRing α]

/-- C7 fails on a drive object that has travelled the full length 2 of its trajectory: the
next `follow` returns 1 and stops the motors, but the object it leaves has heading 90
instead of 0 and `lastTime` 10 instead of 0, the values this call's `localize` read. -/
theorem C7_counterexample :
    0 < Example.differential.length ∧
    Example.differential.length ≤ Example.differentialDrive.distanceTraveled ∧
    ∃ s' : DifferentialDrive ℚ,
      DifferentialDrive.follow Libm.onAxis Example.differentialDrive Example.differential
        Example.readings = some (1, s', MotorCommand.stop) ∧
      Example.differentialDrive.pose.w = 0 ∧ s'.pose.w = 90 ∧
      Example.differentialDrive.lastTime = 0 ∧ s'.lastTime = 10 ∧
      s' ≠ Example.differentialDrive := by
  have hlen : 0 < Example.differential.length := by
    show (0 : ℚ) < 2
    norm_num
  have hdone : Example.differential.length ≤ Example.differentialDrive.distanceTraveled := by
    show (2 : ℚ) ≤ 2
    norm_num
  refine ⟨hlen, hdone, _, DifferentialDrive_follow_complete Libm.onAxis
    Libm.onAxis_hypot_nonneg _ _ _ hlen hdone, rfl, rfl, rfl, rfl, ?_⟩
  intro h
  have : (DifferentialDrive.localize Libm.onAxis Example.differentialDrive
    Example.readings).lastTime = Example.differentialDrive.lastTime := by rw [h]
  have e : (10 : ℚ) = 0 := this
  norm_num at e

/-- C7 (amended) at the rational math library and the holonomic drive object that has
travelled the full length 2 of its trajectory. -/
theorem C7_follow_complete_keeps_pid_witness :
    (∀ x y : ℚ, 0 ≤ Libm.onAxis.hypot x y) ∧
    0 < Example.holonomic.length ∧
    Example.holonomic.length ≤ Example.holonomicDrive.distanceTraveled ∧
    HolonomicDrive.follow Libm.onAxis Example.holonomicDrive Example.holonomic
      Example.readings =
      some (1, HolonomicDrive.localize Libm.onAxis Example.holonomicDrive Example.readings,
        MotorCommand.stop) ∧
    (HolonomicDrive.localize Libm.onAxis Example.holonomicDrive Example.readings).omegaPID =
      Example.holonomicDrive.omegaPID := by
  have hlen : 0 < Example.holonomic.length := by
    show (0 : ℚ) < 2
    norm_num
  have hdone : Example.holonomic.length ≤ Example.holonomicDrive.distanceTraveled := by
    show (2 : ℚ) ≤ 2
    norm_num
  have h := (C7_follow_complete_keeps_pid Libm.onAxis Libm.onAxis_hypot_nonneg).2
    Example.holonomicDrive Example.holonomic Example.readings hlen hdone
  exact ⟨Libm.onAxis_hypot_nonneg, hlen, hdone, h.1, h.2.1⟩

end ClaimsFollow

/-! ## Claims C11 to C16: angle helpers, Hermite endpoints and pose error -/

section ClaimsAngles

variable {α : Type} [LinearOrderedField α]

/-- The three cases of `wrap`: the result plus `current` is `desired`, shifted by a full turn
when the difference was beyond a half turn. -/
theorem wrap_cases (current desired : α) :
    (180 < current - desired ∧ wrap current desired = desired - current + 360) ∨
    (current - desired < -180 ∧ wrap current desired = desired - current - 360) ∨
    ((-180 ≤ current - desired ∧ current - desired ≤ 180) ∧
      wrap current desired = desired - current) := by
  unfold wrap
  simp only
  split_ifs with ha hb
  · exact Or.inl ⟨ha, by ring⟩
  · exact Or.inr (Or.inl ⟨hb, by ring⟩)
  · exact Or.inr (Or.inr ⟨⟨not_lt.mp hb, not_lt.mp ha⟩, by ring⟩)

theorem wrap_add_eq (current desired : α) :
    ∃ k : ℤ, (k = -1 ∨ k = 0 ∨ k = 1) ∧ current + wrap current desired = desired + 360 * k := by
  rcases wrap_cases current desired with ⟨_, h⟩ | ⟨_, h⟩ | ⟨_, h⟩
  · exact ⟨1, Or.inr (Or.inr rfl), by rw [h]; push_cast; ring⟩
  · exact ⟨-1, Or.inl rfl, by rw [h]; push_cast; ring⟩
  · exact ⟨0, Or.inr (Or.inl rfl), by rw [h]; push_cast; ring⟩

theorem wrap_self (a : α) : wrap a a = 0 := by
  rcases wrap_cases a a with ⟨h, _⟩ | ⟨h, _⟩ | ⟨_, h⟩
  · rw [sub_self] at h
    exact absurd h (by norm_num)
  · rw [sub_self] at h
    exact absurd h (by norm_num)
  · rw [h, sub_self]

/-- C11: for all `current` and `desired`, `current + wrap(current, desired)` equals
`desired - 360`, `desired` or `desired + 360`; it is congruent to `desired` modulo 360. -/
theorem C11_wrap_reaches_desired (current desired : α) :
    (current + wrap current desired = desired - 360 ∨
      current + wrap current desired = desired ∨
      current + wrap current desired = desired + 360) ∧
    ∃ k : ℤ, current + wrap current desired = desired + 360 * k := by
  constructor
  · rcases wrap_cases current desired with ⟨_, h⟩ | ⟨_, h⟩ | ⟨_, h⟩
    · exact Or.inr (Or.inr (by rw [h]; ring))
    · exact Or.inl (by rw [h]; ring)
    · exact Or.inr (Or.inl (by rw [h]; ring))
  · obtain ⟨k, _, hk⟩ := wrap_add_eq current desired
    exact ⟨k, hk⟩

/-- C12: for every angle `a`, `wrap(a, a) = 0`. -/
theorem C12_wrap_self_eq_zero (a : α) : wrap a a = 0 :=
  wrap_self a

/-- C15: for every Hermite segment and every previous pose, `CubicHermiteInterpolation`
returns the position `p0` at `x = 0` and the position `p1` at `x = 1`, whatever the tangents
`t0` and `t1` are. -/
theorem C15_hermite_endpoints (m : Libm α) (p0 p1 t0 t1 : Vector α) (previous : Pose α) :
    (CubicHermiteInterpolation m { p0 := p0, p1 := p1, t0 := t0, t1 := t1 } previous 0).x
      = p0.x ∧
    (CubicHermiteInterpolation m { p0 := p0, p1 := p1, t0 := t0, t1 := t1 } previous 0).y
      = p0.y ∧
    (CubicHermiteInterpolation m { p0 := p0, p1 := p1, t0 := t0, t1 := t1 } previous 1).x
      = p1.x ∧
    (CubicHermiteInterpolation m { p0 := p0, p1 := p1, t0 := t0, t1 := t1 } previous 1).y
      = p1.y ∧
    (CubicHermiteInterpolation m { p0 := p0, p1 := p1, t0 := t0, t1 := t1 } previous 0).getVector
      = p0 ∧
    (CubicHermiteInterpolation m { p0 := p0, p1 := p1, t0 := t0, t1 := t1 } previous 1).getVector
      = p1 := by
  have hx0 : (CubicHermiteInterpolation m { p0 := p0, p1 := p1, t0 := t0, t1 := t1 }
      previous 0).x = p0.x := by
    simp only [CubicHermiteInterpolation]; ring
  have hy0 : (CubicHermiteInterpolation m { p0 := p0, p1 := p1, t0 := t0, t1 := t1 }
      previous 0).y = p0.y := by
    simp only [CubicHermiteInterpolation]; ring
  have hx1 : (CubicHermiteInterpolation m { p0 := p0, p1 := p1, t0 := t0, t1 := t1 }
      previous 1).x = p1.x := by
    simp only [CubicHermiteInterpolation]; ring
  have hy1 : (CubicHermiteInterpolation m { p0 := p0, p1 := p1, t0 := t0, t1 := t1 }
      previous 1).y = p1.y := by
    simp only [CubicHermiteInterpolation]; ring
  refine ⟨hx0, hy0, hx1, hy1, ?_, ?_⟩
  · cases p0
    simp only [Pose.getVector, Vector.mk.injEq]
    exact ⟨hx0, hy0⟩
  · cases p1
    simp only [Pose.getVector, Vector.mk.injEq]
    exact ⟨hx1, hy1⟩

/-- C16: for all poses `a` and `b`, `a.getError(b)` has `x = b.x - a.x`, `y = b.y - a.y` and
`w = wrap(a.w, b.w)`, which is `-(a.w - b.w)` up to a multiple of 360, so that `a.w + w` is
congruent to `b.w` modulo 360; `a.getError(a)` is the zero pose. -/
theorem C16_pose_getError (a b : Pose α) :
    (a.getError b).x = b.x - a.x ∧
    (a.getError b).y = b.y - a.y ∧
    (a.getError b).w = wrap a.w b.w ∧
    (∃ k : ℤ, (a.getError b).w = -(a.w - b.w) + 360 * k) ∧
    (∃ k : ℤ, a.w + (a.getError b).w = b.w + 360 * k) ∧
    a.getError a = { x := 0, y := 0, w := 0 } := by
  obtain ⟨k, _, hk⟩ := wrap_add_eq a.w b.w
  refine ⟨rfl, rfl, rfl, ⟨k, ?_⟩, ⟨k, hk⟩, ?_⟩
  · show wrap a.w b.w = _
    linarith
  · simp only [Pose.getError, sub_self, wrap_self]

end ClaimsAngles

/-! ## Angle normalisation in exact arithmetic -/

section ClaimsBound

variable {α : Type} [LinearOrderedField α] [FloorRing α]

/-- The truncated remainder by a positive `y`: it differs from `x` by a whole multiple of
`y`, lies strictly between `-y` and `y`, and is non-negative for a non-negative `x`. -/
theorem fmod_spec {y : α} (hy : 0 < y) (x : α) :
    (∃ k : ℤ, fmod x y = x - y * k) ∧ (-y < fmod x y ∧ fmod x y < y) ∧
    (0 ≤ x → 0 ≤ fmod x y) := by
  by_cases hq : 0 ≤ x / y
  · have hx : 0 ≤ x := by
      have := mul_nonneg hq hy.le
      rwa [div_mul_cancel₀ x hy.ne'] at this
    have h1 : (⌊x / y⌋ : α) ≤ x / y := Int.floor_le _
    have h2 : x / y < ⌊x / y⌋ + 1 := Int.lt_floor_add_one _
    have h1' : y * (⌊x / y⌋ : α) ≤ x := by
      have := mul_le_mul_of_nonneg_left h1 hy.le
      rwa [mul_div_cancel₀ x hy.ne'] at this
    have h2' : x < y * ((⌊x / y⌋ : α) + 1) := by
      have := mul_lt_mul_of_pos_left h2 hy
      rwa [mul_div_cancel₀ x hy.ne'] at this
    have e : fmod x y = x - y * (⌊x / y⌋ : α) := by
      simp only [fmod, if_pos hq]
    refine ⟨⟨⌊x / y⌋, e⟩, ?_, ?_⟩
    · rw [e]
      constructor <;> nlinarith
    · intro _
      rw [e]
      linarith
  · have hneg : x / y < 0 := not_le.mp hq
    have hx : x < 0 := by
      have := mul_neg_of_neg_of_pos hneg hy
      rwa [div_mul_cancel₀ x hy.ne'] at this
    have h1 : x / y ≤ (⌈x / y⌉ : α) := Int.le_ceil _
    have h2 : (⌈x / y⌉ : α) < x / y + 1 := Int.ceil_lt_add_one _
    have h1' : x ≤ y * (⌈x / y⌉ : α) := by
      have := mul_le_mul_of_nonneg_left h1 hy.le
      rwa [mul_div_cancel₀ x hy.ne'] at this
    have h2' : y * (⌈x / y⌉ : α) < x + y := by
      have := mul_lt_mul_of_pos_left h2 hy
      rwa [mul_add, mul_div_cancel₀ x hy.ne', mul_one] at this
    have e : fmod x y = x - y * (⌈x / y⌉ : α) := by
      simp only [fmod, if_neg hq]
    refine ⟨⟨⌈x / y⌉, e⟩, ?_, ?_⟩
    · rw [e]
      constructor <;> linarith
    · intro h0
      exact absurd h0 (not_le.mpr hx)

/-- `bound a` lies in `[0, 360)` and differs from `a` by a whole number of turns. -/
theorem bound_spec (a : α) :
    0 ≤ bound a ∧ bound a < 360 ∧ ∃ k : ℤ, bound a - a = 360 * k := by
  have h360 : (0 : α) < 360 := by norm_num
  obtain ⟨⟨k1, e1⟩, ⟨l1, _⟩, _⟩ := fmod_spec h360 a
  obtain ⟨⟨k2, e2⟩, ⟨_, u2⟩, n2⟩ := fmod_spec h360 (fmod a 360 + 360)
  refine ⟨n2 (by linarith), u2, ⟨1 - k1 - k2, ?_⟩⟩
  unfold bound
  rw [e2, e1]
  push_cast
  ring

omit [FloorRing α] in
/-- Two angles of `[0, 360)` that differ by a whole number of turns are equal. -/
theorem eq_of_turns {r s : α} (hr : 0 ≤ r ∧ r < 360) (hs : 0 ≤ s ∧ s < 360) (k : ℤ)
    (h : r - s = 360 * k) : r = s := by
  have hk1 : (-1 : α) < k := by
    by_contra hc
    have : (k : α) ≤ -1 := not_lt.mp hc
    nlinarith [hr.1, hs.2]
  have hk2 : (k : α) < 1 := by
    by_contra hc
    have : (1 : α) ≤ k := not_lt.mp hc
    nlinarith [hr.2, hs.1]
  have hk1' : (-1 : ℤ) < k := by exact_mod_cast hk1
  have hk2' : k < (1 : ℤ) := by exact_mod_cast hk2
  have hk : k = 0 := by omega
  rw [hk, Int.cast_zero, mul_zero] at h
  linarith

/-- `bound` does not change when a whole number of turns is added to its argument. -/
theorem bound_add_turns (a : α) (k : ℤ) : bound (a + 360 * k) = bound a := by
  obtain ⟨h1, h2, k1, e1⟩ := bound_spec (a + 360 * k)
  obtain ⟨h3, h4, k2, e2⟩ := bound_spec a
  refine eq_of_turns ⟨h1, h2⟩ ⟨h3, h4⟩ (k1 + k - k2) ?_
  have : bound (a + 360 * k) - bound a = 360 * k1 + 360 * k - 360 * k2 := by linarith
  rw [this]
  push_cast
  ring

end ClaimsBound

/-! ## Claims C17 to C20: the orientation schedule -/

section ClaimsOrientation

variable {α : Type} [LinearOrderedField α]

/-- The loop of `InterpolateHolonomicPose` stops at `j` when every keyframe before `j` lies
before `x` and keyframe `j` does not. -/
theorem InterpolateHolonomicPose_loop_eq (o : List (HolonomicPose α)) (x : α) (j : Nat)
    (hi : HolonomicPose α) (hhi : o[j]? = some hi) (hx : x ≤ hi.dist)
    (hbelow : ∀ (i : Nat) (a : HolonomicPose α), i < j → o[i]? = some a → a.dist < x) :
    ∀ (n s : Nat), j - s = n → s ≤ j → InterpolateHolonomicPose.loop o x s = some j := by
  obtain ⟨hjl, hje⟩ := List.getElem?_eq_some.mp hhi
  intro n
  induction n with
  | zero =>
    intro s hn hs
    have e : s = j := by omega
    subst e
    rw [InterpolateHolonomicPose.loop, dif_pos hjl, hje, if_neg (not_lt.mpr hx)]
  | succ n ih =>
    intro s hn hs
    have hsj : s < j := by omega
    have hsl : s < o.length := by omega
    have hlt : o[s].dist < x := hbelow s o[s] hsj (List.getElem?_eq_getElem hsl)
    rw [InterpolateHolonomicPose.loop, dif_pos hsl, if_pos hlt]
    by_cases hb : s + 1 = o.length - 1
    · rw [if_pos hb]
      have : s + 1 = j := by omega
      rw [this]
    · rw [if_neg hb]
      exact ih (s + 1) (by omega) (by omega)

/-- Entered below the last index, the loop ends at an index of the list, and beyond the
entry index when the keyframe there lies before `x`. -/
theorem InterpolateHolonomicPose_loop_bounds (o : List (HolonomicPose α)) (x : α) :
    ∀ (n s : Nat), o.length - s = n → s + 1 < o.length →
      ∃ r : Nat, InterpolateHolonomicPose.loop o x s = some r ∧ s ≤ r ∧ r < o.length ∧
        (∀ a : HolonomicPose α, o[s]? = some a → a.dist < x → s < r) := by
  intro n
  induction n with
  | zero => intro s hn hs; omega
  | succ n ih =>
    intro s hn hs
    have hsl : s < o.length := by omega
    rw [InterpolateHolonomicPose.loop, dif_pos hsl]
    by_cases hlt : o[s].dist < x
    · rw [if_pos hlt]
      by_cases hb : s + 1 = o.length - 1
      · rw [if_pos hb]
        exact ⟨s + 1, rfl, by omega, by omega, fun _ _ _ => Nat.lt_succ_self s⟩
      · rw [if_neg hb]
        obtain ⟨r, hr, h1, h2, _⟩ := ih (s + 1) (by omega) (by omega)
        exact ⟨r, hr, by omega, h2, fun _ _ _ => by omega⟩
    · rw [if_neg hlt]
      refine ⟨s, rfl, le_refl _, hsl, ?_⟩
      intro a ha hax
      rw [List.getElem?_eq_getElem hsl] at ha
      cases ha
      exact absurd hax hlt

omit [LinearOrderedField α] in
theorem vectorAt_natCast {β : Type} (v : List β) (i : Nat) : vectorAt v (i : Int) = v[i]? := by
  unfold vectorAt
  rw [if_neg (by omega)]
  rfl

omit [LinearOrderedField α] in
theorem vectorAt_pred {β : Type} (v : List β) (i : Nat) (hi : 1 ≤ i) :
    vectorAt v ((i : Int) - 1) = v[i - 1]? := by
  have e : ((i : Int) - 1) = ((i - 1 : Nat) : Int) := by omega
  rw [e, vectorAt_natCast]

omit [LinearOrderedField α] in
theorem vectorAt_neg_one {β : Type} (v : List β) : vectorAt v ((0 : Nat) - 1 : Int) = none := by
  unfold vectorAt
  rw [if_pos (by omega)]

variable [FloorRing α]

/-- The value of `InterpolateHolonomicPose` once the loop has ended at an index `s ≥ 1` of
the list. -/
theorem InterpolateHolonomicPose_of_loop (o : List (HolonomicPose α)) (x : α) (s : Nat)
    (lo hi : HolonomicPose α) (hloop : InterpolateHolonomicPose.loop o x 0 = some s)
    (hs : 1 ≤ s) (hlo : o[s - 1]? = some lo) (hhi : o[s]? = some hi) :
    InterpolateHolonomicPose o x =
      some (bound ((x - lo.dist) / (hi.dist - lo.dist) * wrap lo.angle hi.angle + lo.angle)) := by
  have hne : o.isEmpty = false := by
    cases o with
    | nil => cases hhi
    | cons a l => rfl
  unfold InterpolateHolonomicPose
  simp only [hne, Bool.not_false, if_true, hloop, Option.bind_eq_bind, Option.some_bind,
    vectorAt_pred o s hs, vectorAt_natCast, hlo, hhi, Option.pure_def]

/-- `InterpolateHolonomicPose` on a non-empty list returns a value exactly when the list has
at least two entries and the first lies before `x`. -/
theorem InterpolateHolonomicPose_isSome_iff (o : List (HolonomicPose α)) (x : α)
    (first : HolonomicPose α) (hfirst : o[0]? = some first) :
    (InterpolateHolonomicPose o x).isSome = true ↔ 2 ≤ o.length ∧ first.dist < x := by
  obtain ⟨h0, hf⟩ := List.getElem?_eq_some.mp hfirst
  have hne : o.isEmpty = false := by
    cases o with
    | nil => cases hfirst
    | cons a l => rfl
  constructor
  · intro h
    by_contra hc
    have hnone : InterpolateHolonomicPose o x = none := by
      by_cases hlt : first.dist < x
      · have hlen : o.length = 1 := by
          by_contra hl
          exact hc ⟨by omega, hlt⟩
        have hloop : InterpolateHolonomicPose.loop o x 0 = none := by
          rw [InterpolateHolonomicPose.loop, dif_pos h0, hf, if_pos hlt,
            if_neg (by omega), InterpolateHolonomicPose.loop, dif_neg (by omega)]
        unfold InterpolateHolonomicPose
        simp only [hne, Bool.not_false, if_true, hloop, Option.bind_eq_bind, Option.none_bind]
      · have hloop : InterpolateHolonomicPose.loop o x 0 = some 0 := by
          rw [InterpolateHolonomicPose.loop, dif_pos h0, hf, if_neg hlt]
        unfold InterpolateHolonomicPose
        simp only [hne, Bool.not_false, if_true, hloop, Option.bind_eq_bind, Option.some_bind,
          vectorAt_neg_one, Option.none_bind]
    rw [hnone] at h
    cases h
  · rintro ⟨hlen, hlt⟩
    obtain ⟨r, hr, _, hrl, hpos⟩ := InterpolateHolonomicPose_loop_bounds o x _ 0 rfl (by omega)
    have hr1 : 1 ≤ r := hpos first hfirst hlt
    rw [InterpolateHolonomicPose_of_loop o x r o[r - 1] o[r] hr hr1
      (List.getElem?_eq_getElem (by omega)) (List.getElem?_eq_getElem hrl)]
    rfl

/-- C17: for a keyframe list with at least two entries and strictly increasing positions,
an index `j ≥ 1` with bracketing keyframes `lo = o[j-1]`, `hi = o[j]` and `x` in
`(lo.dist, hi.dist]`, `InterpolateHolonomicPose` returns
`bound(lo.angle + ((x - lo.dist) / (hi.dist - lo.dist)) * wrap(lo.angle, hi.angle))`; at
`x = hi.dist` this is `bound(hi.angle)`. -/
theorem C17_interpolate_between_keyframes (o : List (HolonomicPose α)) (x : α) (j : Nat)
    (lo hi : HolonomicPose α) (_hlen : 2 ≤ o.length)
    (hinc : List.Pairwise (fun a b : HolonomicPose α => a.dist < b.dist) o)
    (hj : 1 ≤ j) (hlo : o[j - 1]? = some lo) (hhi : o[j]? = some hi)
    (hx1 : lo.dist < x) (hx2 : x ≤ hi.dist) :
    InterpolateHolonomicPose o x =
      some (bound (lo.angle + ((x - lo.dist) / (hi.dist - lo.dist)) * wrap lo.angle hi.angle)) ∧
    (x = hi.dist → InterpolateHolonomicPose o x = some (bound hi.angle)) := by
  obtain ⟨hl1, hl2⟩ := List.getElem?_eq_some.mp hlo
  have hbelow : ∀ (i : Nat) (a : HolonomicPose α), i < j → o[i]? = some a → a.dist < x := by
    intro i a hij ha
    obtain ⟨hil, rfl⟩ := List.getElem?_eq_some.mp ha
    rcases Nat.eq_or_lt_of_le (Nat.le_pred_of_lt hij) with e | e
    · have e' : i = j - 1 := e
      subst e'
      rw [hl2]
      exact hx1
    · have e' : i < j - 1 := e
      have := (List.pairwise_iff_getElem.mp hinc) i (j - 1) hil hl1 e'
      rw [hl2] at this
      exact lt_trans this hx1
  have hloop := InterpolateHolonomicPose_loop_eq o x j hi hhi hx2 hbelow j 0 rfl (Nat.zero_le _)
  have hval := InterpolateHolonomicPose_of_loop o x j lo hi hloop hj hlo hhi
  have hcomm : (x - lo.dist) / (hi.dist - lo.dist) * wrap lo.angle hi.angle + lo.angle =
      lo.angle + ((x - lo.dist) / (hi.dist - lo.dist)) * wrap lo.angle hi.angle := add_comm _ _
  rw [hcomm] at hval
  refine ⟨hval, ?_⟩
  intro hxe
  rw [hval, hxe]
  have hne : hi.dist - lo.dist ≠ 0 := by
    have : lo.dist < hi.dist := lt_of_lt_of_le hx1 hx2
    exact (sub_pos.mpr this).ne'
  obtain ⟨k, _, hk⟩ := wrap_add_eq lo.angle hi.angle
  rw [div_self hne, one_mul, hk, bound_add_turns]

/-- C17 on the keyframes `[(0, 0), (0.3, 180), (1, 300)]` with `j = 2` and `x = 1`: the
positions increase strictly, `x` lies in `(0.3, 1]`, and the result is `bound(300) = 300`. -/
theorem C17_interpolate_between_keyframes_witness :
    2 ≤ Example.keyframes.length ∧
    List.Pairwise (fun a b : HolonomicPose ℚ => a.dist < b.dist) Example.keyframes ∧
    Example.keyframes[1]? = some { dist := 3 / 10, angle := 180 } ∧
    Example.keyframes[2]? = some { dist := 1, angle := 300 } ∧
    InterpolateHolonomicPose Example.keyframes 1 = some (bound 300) ∧
    bound (300 : ℚ) = 300 := by
  have hinc : List.Pairwise (fun a b : HolonomicPose ℚ => a.dist < b.dist)
      Example.keyframes := by
    simp [Example.keyframes]
    norm_num
  have h := C17_interpolate_between_keyframes Example.keyframes 1 2
    { dist := 3 / 10, angle := 180 } { dist := 1, angle := 300 } (by decide) hinc (by decide)
    rfl rfl (by norm_num) (by norm_num)
  exact ⟨by decide, hinc, rfl, rfl, h.2 rfl, bound_eq_self (by norm_num) (by norm_num)⟩

/-! ### When construction with keyframes succeeds -/

/-- The spline loop returns exactly when every one of its interpolations does. -/
theorem HolonomicTrajectory_generateLoop_isSome_iff (m : Libm α) (path : Path α)
    (orientation : List (HolonomicPose α)) (segment : α) (profile : StaticProfile α)
    (length : α) (index aIndex : Nat) :
    ∀ (n i : Nat) (previous : Pose α) (dist : α),
      (HolonomicTrajectory.generateLoop m path orientation segment profile length index aIndex
        n i previous dist).isSome = true ↔
      ∀ k : Nat, k < n →
        (InterpolateHolonomicPose orientation
          ((aIndex : α) + segment * ((i + k : Nat) : α))).isSome = true := by
  intro n
  induction n with
  | zero =>
    intro i previous dist
    constructor
    · intro _ k hk
      cases hk
    · intro _
      rfl
  | succ n ih =>
    intro i previous dist
    rw [HolonomicTrajectory.generateLoop]
    constructor
    · intro h k hk
      obtain ⟨out, hout⟩ := Option.isSome_iff_exists.mp h
      simp only [Option.bind_eq_bind, Option.bind_eq_some, Option.pure_def,
        Option.some.injEq] at hout
      obtain ⟨w, hw, rest, hrest, _⟩ := hout
      cases k with
      | zero =>
        rw [Nat.add_zero, hw]
        rfl
      | succ k =>
        have := (ih (i + 1) _ _).mp (by rw [hrest]; rfl) k (by omega)
        have e : i + 1 + k = i + (k + 1) := by omega
        rw [e] at this
        exact this
    · intro h
      obtain ⟨w, hw⟩ := Option.isSome_iff_exists.mp (h 0 (Nat.succ_pos n))
      rw [Nat.add_zero] at hw
      obtain ⟨rest, hrest⟩ := Option.isSome_iff_exists.mp ((ih (i + 1)
        (CubicHermiteInterpolation m path previous (segment * (i : α)))
        (dist + Vector.getMagnitude m
          (previous.getError
            (CubicHermiteInterpolation m path previous (segment * (i : α)))).getVector)).mpr
        (by
          intro k hk
          have := h (k + 1) (by omega)
          have e : i + (k + 1) = i + 1 + k := by omega
          rw [e] at this
          exact this))
      simp only [hw, Option.bind_eq_bind, Option.some_bind, hrest, Option.pure_def,
        Option.isSome_some]

/-- With a non-empty keyframe list, a run of `n ≥ 1` interpolations at the positions
`base + segment * (i + k)` all return exactly when the list has two entries and its first
lies before the first position. -/
theorem InterpolateHolonomicPose_all_isSome_iff (o : List (HolonomicPose α))
    (first : HolonomicPose α) (hfirst : o[0]? = some first) (base segment : α)
    (hseg : 0 ≤ segment) (n i : Nat) (hn : 0 < n) :
    (∀ k : Nat, k < n →
      (InterpolateHolonomicPose o (base + segment * ((i + k : Nat) : α))).isSome = true) ↔
    2 ≤ o.length ∧ first.dist < base + segment * (i : α) := by
  constructor
  · intro h
    have := (InterpolateHolonomicPose_isSome_iff o _ first hfirst).mp (h 0 hn)
    rwa [Nat.add_zero] at this
  · rintro ⟨hlen, hlt⟩ k _
    refine (InterpolateHolonomicPose_isSome_iff o _ first hfirst).mpr ⟨hlen, ?_⟩
    have hk : (0 : α) ≤ (k : α) := Nat.cast_nonneg k
    have : segment * (i : α) ≤ segment * ((i + k : Nat) : α) := by
      push_cast
      nlinarith [mul_nonneg hseg hk]
    linarith

theorem HolonomicTrajectory_generate_isSome_iff (m : Libm α) (self : HolonomicTrajectory α)
    (path : Path α) (o : List (HolonomicPose α)) (clarity : Nat) (profile : StaticProfile α)
    (first : HolonomicPose α) (hfirst : o[0]? = some first) (hc : 0 < clarity) :
    (HolonomicTrajectory.generate m self path o clarity profile).isSome = true ↔
      2 ≤ o.length ∧ first.dist < (self.aIndex : α) + 1 / (clarity : α) := by
  have hseg : (0 : α) ≤ 1 / (clarity : α) := by positivity
  have hloop := HolonomicTrajectory_generateLoop_isSome_iff m path o (1 / (clarity : α)) profile
    self.length self.index self.aIndex clarity 1
    { x := path.p0.x, y := path.p0.y, w := path.t0.getAngle m } 0
  have hall := InterpolateHolonomicPose_all_isSome_iff o first hfirst (self.aIndex : α)
    (1 / (clarity : α)) hseg clarity 1 hc
  rw [Nat.cast_one, mul_one] at hall
  rw [← hall, ← hloop]
  unfold HolonomicTrajectory.generate
  simp only
  cases HolonomicTrajectory.generateLoop m path o (1 / (clarity : α)) profile
    self.length self.index self.aIndex clarity 1
    { x := path.p0.x, y := path.p0.y, w := path.t0.getAngle m } 0 with
  | none => simp
  | some out => simp

theorem HolonomicTrajectory_generate_aIndex (m : Libm α) (self : HolonomicTrajectory α)
    (path : Path α) (o : List (HolonomicPose α)) (clarity : Nat) (profile : StaticProfile α)
    (g : List (Waypoint α) × HolonomicTrajectory α)
    (hg : HolonomicTrajectory.generate m self path o clarity profile = some g) :
    g.2.aIndex = 1 ∧
    g.2.initialPose = { x := path.p0.x, y := path.p0.y,
                        w := match o.head? with
                             | none => 0
                             | some k => k.angle } ∧
    g.2.finalPose = { x := path.p1.x, y := path.p1.y,
                      w := match o.getLast? with
                           | none => 0
                           | some k => k.angle } := by
  simp only [HolonomicTrajectory.generate, Option.bind_eq_bind, Option.bind_eq_some,
    Option.pure_def, Option.some.injEq] at hg
  obtain ⟨out, _, rfl⟩ := hg
  exact ⟨rfl, rfl, rfl⟩

/-- With a non-empty keyframe list the `PathPlus` constructor succeeds exactly when the list
has two entries and the first lies before the first sample, 1/50. -/
theorem HolonomicTrajectory_ofPathPlus_isSome_iff (m : Libm α) (path : PathPlus α)
    (profile : StaticProfile α) (o : List (HolonomicPose α)) (first : HolonomicPose α)
    (hfirst : o[0]? = some first) :
    (HolonomicTrajectory.ofPathPlus m path profile o).isSome = true ↔
      2 ≤ o.length ∧ first.dist < 1 / 50 := by
  have hg1 := HolonomicTrajectory_generate_isSome_iff m HolonomicTrajectory.fresh
    { p0 := path.p0, p1 := path.p1, t0 := path.t0, t1 := path.t1 } o 50
    profile first hfirst (by norm_num)
  have e : (((HolonomicTrajectory.fresh : HolonomicTrajectory α).aIndex : Nat) : α) +
      1 / ((50 : Nat) : α) = 1 / 50 := by
    show ((0 : Nat) : α) + 1 / ((50 : Nat) : α) = 1 / 50
    norm_num
  rw [e] at hg1
  unfold HolonomicTrajectory.ofPathPlus
  cases h1 : HolonomicTrajectory.generate m HolonomicTrajectory.fresh
    { p0 := path.p0, p1 := path.p1, t0 := path.t0, t1 := path.t1 } o 50 profile with
  | none =>
    rw [h1] at hg1
    simp only [Option.bind_eq_bind, Option.none_bind]
    exact hg1
  | some g1 =>
    rw [h1] at hg1
    have hcond := hg1.mp rfl
    have hg2 := HolonomicTrajectory_generate_isSome_iff m { g1.2 with waypoints := g1.1 }
      { p0 := path.p1, p1 := path.p2, t0 := path.t1, t1 := path.t2 } o 50
      profile first hfirst (by norm_num)
    have ha : ({ g1.2 with waypoints := g1.1 } : HolonomicTrajectory α).aIndex = 1 :=
      (HolonomicTrajectory_generate_aIndex m _ _ o 50 profile g1 h1).1
    rw [ha] at hg2
    have hsome : (HolonomicTrajectory.generate m { g1.2 with waypoints := g1.1 }
        { p0 := path.p1, p1 := path.p2, t0 := path.t1, t1 := path.t2 } o 50
        profile).isSome = true := by
      refine hg2.mpr ⟨hcond.1, lt_trans hcond.2 ?_⟩
      norm_num
    obtain ⟨g2, h2⟩ := Option.isSome_iff_exists.mp hsome
    simp only [Option.bind_eq_bind, Option.some_bind, h2, Option.pure_def, Option.isSome_some,
      true_iff]
    exact hcond

/-! ### Orientation flag and poses of the constructed trajectory -/

/-- The members the `PathPlus` constructor leaves behind. -/
theorem HolonomicTrajectory_ofPathPlus_members (m : Libm α) (path : PathPlus α)
    (profile : StaticProfile α) (o : List (HolonomicPose α)) (t : HolonomicTrajectory α)
    (ht : HolonomicTrajectory.ofPathPlus m path profile o = some t) :
    t.orientation = (!o.isEmpty) ∧
    t.initialPose = { x := path.p0.x, y := path.p0.y,
                      w := match o.head? with
                           | none => 0
                           | some k => k.angle } ∧
    t.finalPose = { x := path.p2.x, y := path.p2.y,
                    w := match o.getLast? with
                         | none => 0
                         | some k => k.angle } := by
  simp only [HolonomicTrajectory.ofPathPlus, Option.bind_eq_bind, Option.bind_eq_some,
    Option.pure_def, Option.some.injEq] at ht
  obtain ⟨g1, hg1, g2, hg2, rfl⟩ := ht
  obtain ⟨_, hi1, _⟩ := HolonomicTrajectory_generate_aIndex m _ _ o 50 profile g1 hg1
  obtain ⟨_, _, hf2⟩ := HolonomicTrajectory_generate_aIndex m _ _ o 50 profile g2 hg2
  exact ⟨rfl, hi1, hf2⟩

/-- C20: for every `PathPlus`, profile and non-empty keyframe list on which construction
succeeds, the trajectory has `initialPose = (p0.x, p0.y, angle of the first keyframe)`,
`finalPose = (p2.x, p2.y, angle of the last keyframe)` and `length` equal to the polyline
length of segment p0-p1 plus that of segment p1-p2; the trajectory `traj` of main.cpp is
constructed, with `initialPose = (0, -57, 0)` and `finalPose = (-30, 52, 5)`. -/
theorem C20_pathPlus_poses_and_length (m : Libm α) :
    (∀ (path : PathPlus α) (profile : StaticProfile α) (o : List (HolonomicPose α))
        (first last : HolonomicPose α) (t : HolonomicTrajectory α),
      o.head? = some first → o.getLast? = some last →
      HolonomicTrajectory.ofPathPlus m path profile o = some t →
      t.initialPose = { x := path.p0.x, y := path.p0.y, w := first.angle } ∧
      t.finalPose = { x := path.p2.x, y := path.p2.y, w := last.angle } ∧
      t.length =
        Path.polyline m { p0 := path.p0, p1 := path.p1, t0 := path.t0, t1 := path.t1 } 50 50 +
        Path.polyline m { p0 := path.p1, p1 := path.p2, t0 := path.t1, t1 := path.t2 } 50 50) ∧
    (∃ t : HolonomicTrajectory α, traj m = some t ∧
      t.initialPose = { x := 0, y := -57, w := 0 } ∧
      t.finalPose = { x := -30, y := 52, w := 5 }) := by
  have hgen : ∀ (path : PathPlus α) (profile : StaticProfile α) (o : List (HolonomicPose α))
      (first last : HolonomicPose α) (t : HolonomicTrajectory α),
      o.head? = some first → o.getLast? = some last →
      HolonomicTrajectory.ofPathPlus m path profile o = some t →
      t.initialPose = { x := path.p0.x, y := path.p0.y, w := first.angle } ∧
      t.finalPose = { x := path.p2.x, y := path.p2.y, w := last.angle } ∧
      t.length =
        Path.polyline m { p0 := path.p0, p1 := path.p1, t0 := path.t0, t1 := path.t1 } 50 50 +
        Path.polyline m { p0 := path.p1, p1 := path.p2, t0 := path.t1, t1 := path.t2 }
          50 50 := by
    intro path profile o first last t hfirst hlast ht
    obtain ⟨_, hi, hf⟩ := HolonomicTrajectory_ofPathPlus_members m path profile o t ht
    rw [hfirst] at hi
    rw [hlast] at hf
    exact ⟨hi, hf, (HolonomicTrajectory_ofPathPlus_polyline m path profile o t ht).2.1⟩
  refine ⟨hgen, ?_⟩
  have hsome : (traj m).isSome = true := by
    unfold traj
    exact (HolonomicTrajectory_ofPathPlus_isSome_iff m _ _ _ { dist := 0, angle := 0 }
      rfl).mpr ⟨by simp only [List.length_cons, List.length_nil]; norm_num, by norm_num⟩
  obtain ⟨t, ht⟩ := Option.isSome_iff_exists.mp hsome
  have ht' := ht
  unfold traj at ht'
  have h := hgen _ _ _ { dist := 0, angle := 0 } { dist := 2, angle := 5 } t (by rfl) (by rfl)
    ht'
  exact ⟨t, ht, h.1, h.2.1⟩

end ClaimsOrientation

/-! ## Claims C25, C28 and C30: profile constructor, PID controller, shortest rotation -/

section ClaimsPID

variable {α : Type} [LinearOrderedField α]

theorem PID_get_eq_terms (s : PID α) (time position setpoint : α) :
    (s.get time position setpoint).1 =
      if s.range then
        fitToRange ((s.terms time position setpoint).1 + (s.terms time position setpoint).2.1 +
          (s.terms time position setpoint).2.2.1 + (s.terms time position setpoint).2.2.2)
          s.min s.max
      else
        (s.terms time position setpoint).1 + (s.terms time position setpoint).2.1 +
          (s.terms time position setpoint).2.2.1 + (s.terms time position setpoint).2.2.2 := by
  unfold PID.get PID.terms
  cases hi : s.init <;> cases hr : s.range <;> simp [hi, hr]

theorem fitToRange_mem {v lo hi : α} (h : lo ≤ hi) :
    lo ≤ fitToRange v lo hi ∧ fitToRange v lo hi ≤ hi := by
  unfold fitToRange
  split_ifs with h1 h2
  · exact ⟨h, le_refl _⟩
  · exact ⟨le_refl _, h⟩
  · exact ⟨not_lt.mp h2, not_lt.mp h1⟩

theorem PID_new_range (p i d f lo hi : α) :
    (PID.new p i d f lo hi).p = p ∧ (PID.new p i d f lo hi).i = i ∧
    (PID.new p i d f lo hi).d = d ∧ (PID.new p i d f lo hi).f = f ∧
    (PID.new p i d f lo hi).init = true ∧
    ((lo ≠ 0 ∨ hi ≠ 0) → (PID.new p i d f lo hi).range = true ∧
      (PID.new p i d f lo hi).min = lo ∧ (PID.new p i d f lo hi).max = hi) ∧
    ((lo = 0 ∧ hi = 0) → (PID.new p i d f lo hi).range = false) := by
  unfold PID.new
  split_ifs with h
  · exact ⟨rfl, rfl, rfl, rfl, rfl, fun _ => ⟨rfl, rfl, rfl⟩, fun h' => by
      rcases h with h | h
      · exact absurd h'.1 h
      · exact absurd h'.2 h⟩
  · exact ⟨rfl, rfl, rfl, rfl, rfl, fun h' => absurd h' h, fun _ => rfl⟩

theorem PID_terms_of_init (s : PID α) (hinit : s.init = true) (time position setpoint : α) :
    s.terms time position setpoint =
      (s.p * (setpoint - position), s.i * (setpoint - position), 0,
        copysign s.f (setpoint - position)) := by
  unfold PID.terms
  simp only [hinit, if_true]
  have h1 : time - (time - 1) = 1 := by ring
  simp [h1]

theorem PID_terms_feedForward (s : PID α) (time position setpoint : α) :
    (s.terms time position setpoint).2.2.2 = copysign s.f (setpoint - position) := by
  unfold PID.terms
  cases hi : s.init <;> simp [hi]

/-- C28 fails at error 0 and at a negative gain: with `f = 1` and `position = setpoint` the
feed-forward term is 1, not `f * sign(0) = 0`, and `get` returns 1; with `f = -2` and error 1
the term is 2, not `f * sign(1) = -2`. -/
theorem C28_counterexample :
    ((PID.new (0 : ℚ) 0 0 1 0 0).terms 7 3 3).2.2.2 = 1 ∧
    (1 : ℚ) * ((SignType.sign ((3 : ℚ) - 3) : SignType) : ℚ) = 0 ∧
    ((PID.new (0 : ℚ) 0 0 1 0 0).get 7 3 3).1 = 1 ∧
    ((PID.new (0 : ℚ) 0 0 (-2) 0 0).terms 7 0 1).2.2.2 = 2 ∧
    (-2 : ℚ) * ((SignType.sign ((1 : ℚ) - 0) : SignType) : ℚ) = -2 := by
  refine ⟨?_, ?_, ?_, ?_, ?_⟩
  · rw [PID_terms_feedForward]
    norm_num [PID.new, copysign]
  · norm_num
  · rw [PID_get_eq_terms, PID_terms_of_init _ (by norm_num [PID.new])]
    norm_num [PID.new, copysign]
  · rw [PID_terms_feedForward]
    norm_num [PID.new, copysign]
  · norm_num

/-- C30: `wrap(current, desired)` lies in `[-180, 180]` exactly when
`|current - desired| ≤ 540`, which holds whenever both angles lie in `[0, 360)`; on that
range it is the shortest signed rotation from `current` to `desired`: it differs from
`desired - current` by a whole number of turns and no such rotation is smaller in absolute
value. -/
theorem C30_wrap_shortest_rotation (current desired : α) :
    (|current - desired| ≤ 540 ↔
      (-180 ≤ wrap current desired ∧ wrap current desired ≤ 180)) ∧
    ((0 ≤ current ∧ current < 360) → (0 ≤ desired ∧ desired < 360) →
      |current - desired| ≤ 540) ∧
    (|current - desired| ≤ 540 →
      (∃ k : ℤ, wrap current desired = desired - current + 360 * k) ∧
      ∀ k : ℤ, |wrap current desired| ≤ |desired - current + 360 * k|) := by
  have hrange : |current - desired| ≤ 540 →
      (-180 ≤ wrap current desired ∧ wrap current desired ≤ 180) := by
    intro h
    obtain ⟨h1, h2⟩ := abs_le.mp h
    rcases wrap_cases current desired with ⟨c, e⟩ | ⟨c, e⟩ | ⟨c, e⟩
    · rw [e]; constructor <;> linarith
    · rw [e]; constructor <;> linarith
    · rw [e]; constructor <;> linarith [c.1, c.2]
  refine ⟨⟨hrange, ?_⟩, ?_, ?_⟩
  · rintro ⟨h1, h2⟩
    rw [abs_le]
    rcases wrap_cases current desired with ⟨c, e⟩ | ⟨c, e⟩ | ⟨c, e⟩
    · rw [e] at h1 h2; constructor <;> linarith
    · rw [e] at h1 h2; constructor <;> linarith
    · constructor <;> linarith [c.1, c.2]
  · rintro ⟨a1, a2⟩ ⟨b1, b2⟩
    rw [abs_le]
    constructor <;> linarith
  · intro h
    obtain ⟨r1, r2⟩ := hrange h
    obtain ⟨j, _, hj⟩ := wrap_add_eq current desired
    have hw : wrap current desired = desired - current + 360 * j := by linarith
    refine ⟨⟨j, hw⟩, ?_⟩
    intro k
    have habs : |wrap current desired| ≤ 180 := abs_le.mpr ⟨r1, r2⟩
    by_cases hkj : k = j
    · rw [hkj, ← hw]
    · have hrep : desired - current + 360 * (k : α) =
          wrap current desired + 360 * ((k - j : ℤ) : α) := by
        rw [hw]; push_cast; ring
      rw [hrep]
      have hn : (k - j : ℤ) ≠ 0 := sub_ne_zero.mpr hkj
      have h1 : (1 : α) ≤ |((k - j : ℤ) : α)| := by
        rw [← Int.cast_abs]
        exact_mod_cast Int.one_le_abs hn
      have h2 : |(360 : α) * ((k - j : ℤ) : α)| = 360 * |((k - j : ℤ) : α)| := by
        rw [abs_mul, abs_of_pos (by norm_num : (0 : α) < 360)]
      have h3 := abs_sub_abs_le_abs_sub ((360 : α) * ((k - j : ℤ) : α))
        (-(wrap current desired))
      rw [abs_neg, sub_neg_eq_add, add_comm ((360 : α) * _) _] at h3
      linarith

end ClaimsPID

/-! ## Claims C23 and C24: the velocity profile -/

section ClaimsProfile

variable {α : Type} [LinearOrderedField α]

end ClaimsProfile

section ClaimsProfileReal

theorem E_gt_two : (2 : ℝ) < E := by
  unfold E
  norm_num

theorem rpow_E_nonpos (y : ℝ) (hy : y ≤ 0) : 0 < (E : ℝ) ^ y ∧ (E : ℝ) ^ y ≤ 1 :=
  ⟨Real.rpow_pos_of_pos (by linarith [E_gt_two]) y,
   Real.rpow_le_one_of_one_le_of_nonpos (by linarith [E_gt_two]) hy⟩

theorem rpow_E_le_sixteenth (y : ℝ) (hy : y ≤ -4) : (E : ℝ) ^ y ≤ 1 / 16 := by
  have h1 : (1 : ℝ) ≤ E := by linarith [E_gt_two]
  have h2 : (E : ℝ) ^ y ≤ (E : ℝ) ^ (-4 : ℝ) := Real.rpow_le_rpow_of_exponent_le h1 hy
  have h3 : (E : ℝ) ^ (-4 : ℝ) = ((E : ℝ) ^ (4 : ℕ))⁻¹ := by
    rw [Real.rpow_neg (by linarith [E_gt_two]), ← Real.rpow_natCast]
    norm_num
  have h4 : (16 : ℝ) ≤ (E : ℝ) ^ (4 : ℕ) := by
    have : (2 : ℝ) ^ (4 : ℕ) ≤ (E : ℝ) ^ (4 : ℕ) :=
      pow_le_pow_left₀ (by norm_num) E_gt_two.le 4
    linarith [this, (by norm_num : (2 : ℝ) ^ (4 : ℕ) = 16)]
  rw [h3] at h2
  have h5 : ((E : ℝ) ^ (4 : ℕ))⁻¹ ≤ 1 / 16 := by
    rw [one_div]
    exact inv_anti₀ (by norm_num) h4
  linarith

/-- C24: for the profile `s1 = 0.15, s2 = 0.05, k1 = 0.45, k2 = 0.35, m = 0.8, d = 100`, with
`pow(E, y)` the real power `E ^ y`, the curve rises then falls, `get(0) < get(50)` and
`get(100) < get(50)`; `get(0)` is `m * s1 / c2(0)` and `get(100)` is `m * s2 / c1(100)`, where
`c1(x) = 1 + (m/s1 - 1) * E^(-k1*x)` and `c2(x) = 1 + (m/s2 - 1) * E^(k2*x - k2*d)`. -/
theorem C24_main_profile_rises_then_falls (lib : Libm ℝ)
    (hpow : ∀ y : ℝ, lib.pow E y = (E : ℝ) ^ y) :
    (StaticProfile.mk5 (0.15 : ℝ) 0.05 0.45 0.35 0.8).get lib 0 <
      (StaticProfile.mk5 (0.15 : ℝ) 0.05 0.45 0.35 0.8).get lib 50 ∧
    (StaticProfile.mk5 (0.15 : ℝ) 0.05 0.45 0.35 0.8).get lib 100 <
      (StaticProfile.mk5 (0.15 : ℝ) 0.05 0.45 0.35 0.8).get lib 50 ∧
    (StaticProfile.mk5 (0.15 : ℝ) 0.05 0.45 0.35 0.8).get lib 0 =
      0.8 * 0.15 / (1 + (0.8 / 0.05 - 1) * (E : ℝ) ^ ((0.35 : ℝ) * 0 - 0.35 * 100)) ∧
    (StaticProfile.mk5 (0.15 : ℝ) 0.05 0.45 0.35 0.8).get lib 100 =
      0.8 * 0.05 / (1 + (0.8 / 0.15 - 1) * (E : ℝ) ^ (-(0.45 : ℝ) * 100)) := by
  have k1 : (0.8 : ℝ) / 0.15 - 1 = 13 / 3 := by norm_num
  have k2 : (0.8 : ℝ) / 0.05 - 1 = 15 := by norm_num
  have k3 : (0.8 : ℝ) * 0.8 = 16 / 25 := by norm_num
  have k4 : (0.8 : ℝ) * 0.15 = 3 / 25 := by norm_num
  have k5 : (0.8 : ℝ) * 0.05 = 1 / 25 := by norm_num
  obtain ⟨a1, _⟩ := rpow_E_nonpos ((0.35 : ℝ) * 0 - 0.35 * 100) (by norm_num)
  obtain ⟨b1, _⟩ := rpow_E_nonpos (-(0.45 : ℝ) * 100) (by norm_num)
  obtain ⟨c1, _⟩ := rpow_E_nonpos (-(0.45 : ℝ) * 50) (by norm_num)
  obtain ⟨d1, _⟩ := rpow_E_nonpos ((0.35 : ℝ) * 50 - 0.35 * 100) (by norm_num)
  have c2 := rpow_E_le_sixteenth (-(0.45 : ℝ) * 50) (by norm_num)
  have d2 := rpow_E_le_sixteenth ((0.35 : ℝ) * 50 - 0.35 * 100) (by norm_num)
  have z1 : (E : ℝ) ^ (-(0.45 : ℝ) * 0) = 1 := by
    rw [mul_zero, Real.rpow_zero]
  have z2 : (E : ℝ) ^ ((0.35 : ℝ) * 100 - 0.35 * 100) = 1 := by
    rw [sub_self, Real.rpow_zero]
  have g0 : (StaticProfile.mk5 (0.15 : ℝ) 0.05 0.45 0.35 0.8).get lib 0 =
      0.8 * 0.15 / (1 + (0.8 / 0.05 - 1) * (E : ℝ) ^ ((0.35 : ℝ) * 0 - 0.35 * 100)) := by
    simp only [StaticProfile.get, StaticProfile.mk5, hpow, z1, k1, k2, k3, k4]
    generalize (E : ℝ) ^ ((0.35 : ℝ) * 0 - 0.35 * 100) = u at a1 ⊢
    have h1 : ((13 / 3 : ℝ) * 1 + 1) * (15 * u + 1) ≠ 0 := by positivity
    have h2 : (1 : ℝ) + 15 * u ≠ 0 := by positivity
    rw [div_eq_div_iff h1 h2]
    ring
  have g100 : (StaticProfile.mk5 (0.15 : ℝ) 0.05 0.45 0.35 0.8).get lib 100 =
      0.8 * 0.05 / (1 + (0.8 / 0.15 - 1) * (E : ℝ) ^ (-(0.45 : ℝ) * 100)) := by
    simp only [StaticProfile.get, StaticProfile.mk5, hpow, z2, k1, k2, k3, k5]
    generalize (E : ℝ) ^ (-(0.45 : ℝ) * 100) = u at b1 ⊢
    have h1 : ((13 / 3 : ℝ) * u + 1) * (15 * 1 + 1) ≠ 0 := by positivity
    have h2 : (1 : ℝ) + 13 / 3 * u ≠ 0 := by positivity
    rw [div_eq_div_iff h1 h2]
    ring
  have g50 : (3 / 20 : ℝ) <
      (StaticProfile.mk5 (0.15 : ℝ) 0.05 0.45 0.35 0.8).get lib 50 := by
    simp only [StaticProfile.get, StaticProfile.mk5, hpow, k1, k2, k3]
    generalize (E : ℝ) ^ (-(0.45 : ℝ) * 50) = u at c1 c2 ⊢
    generalize (E : ℝ) ^ ((0.35 : ℝ) * 50 - 0.35 * 100) = v at d1 d2 ⊢
    have hu : (0 : ℝ) < 13 / 3 * u + 1 := by positivity
    have hv : (0 : ℝ) < 15 * v + 1 := by positivity
    rw [lt_div_iff₀ (mul_pos hu hv)]
    have hu2 : (13 / 3 : ℝ) * u + 1 ≤ 61 / 48 := by linarith
    have hv2 : (15 : ℝ) * v + 1 ≤ 31 / 16 := by linarith
    have := mul_le_mul hu2 hv2 hv.le (by norm_num)
    linarith
  have l0 : (StaticProfile.mk5 (0.15 : ℝ) 0.05 0.45 0.35 0.8).get lib 0 ≤ 3 / 25 := by
    rw [g0, k2, k4]
    exact div_le_self (by norm_num) (by linarith)
  have l100 : (StaticProfile.mk5 (0.15 : ℝ) 0.05 0.45 0.35 0.8).get lib 100 ≤ 1 / 25 := by
    rw [g100, k1, k5]
    exact div_le_self (by norm_num) (by linarith)
  exact ⟨by linarith, by linarith, g0, g100⟩

/-- C24 with `pow` the real power function. -/
theorem C24_main_profile_rises_then_falls_witness :
    ∃ lib : Libm ℝ, (lib.pow = fun b e : ℝ => b ^ e) ∧
      (∀ y : ℝ, lib.pow E y = (E : ℝ) ^ y) ∧
      (StaticProfile.mk5 (0.15 : ℝ) 0.05 0.45 0.35 0.8).get lib 0 <
        (StaticProfile.mk5 (0.15 : ℝ) 0.05 0.45 0.35 0.8).get lib 50 ∧
      (StaticProfile.mk5 (0.15 : ℝ) 0.05 0.45 0.35 0.8).get lib 100 <
        (StaticProfile.mk5 (0.15 : ℝ) 0.05 0.45 0.35 0.8).get lib 50 := by
  refine ⟨⟨fun x y => Real.sqrt (x * x + y * y), fun y x => Complex.arg ⟨x, y⟩, Real.cos,
    Real.sin, fun b e => b ^ e⟩, rfl, fun y => rfl, ?_⟩
  have h := C24_main_profile_rises_then_falls
    ⟨fun x y => Real.sqrt (x * x + y * y), fun y x => Complex.arg ⟨x, y⟩, Real.cos,
      Real.sin, fun b e => b ^ e⟩ (fun y => rfl)
  exact ⟨h.1, h.2.1⟩

end ClaimsProfileReal

/-! ## Speeds of the spline waypoints -/

section ClaimSpeed
variable {α : Type} [LinearOrderedField α]

theorem cornerMultiplier_pos_le_one (dh : α) :
    0 < cornerMultiplier dh ∧ cornerMultiplier dh ≤ 1 := by
  have h : (1 : α) ≤ autonomous_rotation_scaler * |dh| + 1 := by
    have : (0 : α) ≤ autonomous_rotation_scaler * |dh| :=
      mul_nonneg (by unfold autonomous_rotation_scaler; norm_num) (abs_nonneg _)
    linarith
  unfold cornerMultiplier
  exact ⟨by positivity, by rw [div_le_one (by linarith)]; exact h⟩

theorem cornerMultiplier_strictAnti {dh dh' : α} (h : |dh| < |dh'|) :
    cornerMultiplier dh' < cornerMultiplier dh := by
  have hs : (0 : α) < autonomous_rotation_scaler := by
    unfold autonomous_rotation_scaler; norm_num
  have h1 : (0 : α) < autonomous_rotation_scaler * |dh| + 1 := by
    have := mul_nonneg hs.le (abs_nonneg dh)
    linarith
  unfold cornerMultiplier
  exact one_div_lt_one_div_of_lt h1 (by nlinarith)

theorem cornerMultiplier_mul_abs_le (dh v : α) : |cornerMultiplier dh * v| ≤ |v| := by
  obtain ⟨h1, h2⟩ := cornerMultiplier_pos_le_one dh
  rw [abs_mul, abs_of_pos h1]
  exact mul_le_of_le_one_left (abs_nonneg v) h2

theorem Path.sampleFrom_succ (m : Libm α) (path : Path α) (segment : α) (previous : Pose α)
    (i : Nat) :
    ∀ j : Nat, Path.sampleFrom m path segment previous i (j + 1) =
      Path.sampleFrom m path segment
        (CubicHermiteInterpolation m path previous (segment * (i : α))) (i + 1) j := by
  intro j
  induction j with
  | zero => simp only [Path.sampleFrom, Nat.add_zero]
  | succ j ih =>
    rw [Path.sampleFrom, ih, Path.sampleFrom]
    have e : i + (j + 1) = i + 1 + j := by omega
    rw [e]

variable [FloorRing α]

/-- Speed and heading of the waypoints pushed by the differential loop. -/
theorem DifferentialTrajectory_generateLoop_speed (m : Libm α) (path : Path α) (rev : Bool)
    (segment : α) (profile : StaticProfile α) (length : α) (index : Nat) :
    ∀ (n i : Nat) (previous : Pose α) (dist : α) (k : Nat) (w : Waypoint α),
      (DifferentialTrajectory.generateLoop m path rev segment profile length index
        n i previous dist).1[k]? = some w →
      w.heading.x = 0 ∧
      w.heading.y =
        (if rev then
          -(cornerMultiplier (wrap (Path.sampleFrom m path segment previous i k).w
              (Path.sampleFrom m path segment previous i (k + 1)).w) *
            profile.get m ((i + k + index : Nat) : α))
        else
          cornerMultiplier (wrap (Path.sampleFrom m path segment previous i k).w
              (Path.sampleFrom m path segment previous i (k + 1)).w) *
            profile.get m ((i + k + index : Nat) : α)) ∧
      w.heading.w =
        bound ((Path.sampleFrom m path segment previous i (k + 1)).w - 90 +
          (if rev then 180 else 0)) := by
  intro n
  induction n with
  | zero =>
    intro i previous dist k w hw
    cases hw
  | succ n ih =>
    intro i previous dist k w hw
    rw [DifferentialTrajectory.generateLoop] at hw
    cases k with
    | zero =>
      simp only [List.getElem?_cons_zero, Option.some.injEq] at hw
      subst hw
      simp only [Path.sampleFrom, Nat.add_zero, Pose.getError, cornerMultiplier]
      refine ⟨trivial, ?_, trivial⟩
      cases rev <;> simp
    | succ k =>
      simp only [List.getElem?_cons_succ] at hw
      obtain ⟨h1, h2, h3⟩ := ih (i + 1) _ _ k w hw
      rw [← Path.sampleFrom_succ, ← Path.sampleFrom_succ] at h2
      rw [← Path.sampleFrom_succ] at h3
      have e : i + 1 + k + index = i + (k + 1) + index := by omega
      rw [e] at h2
      exact ⟨h1, h2, h3⟩


/-- Speed components and orientation target of the waypoints pushed by the holonomic loop. -/
theorem HolonomicTrajectory_generateLoop_heading (m : Libm α) (path : Path α)
    (orientation : List (HolonomicPose α)) (segment : α) (profile : StaticProfile α)
    (length : α) (index aIndex : Nat) :
    ∀ (n i : Nat) (previous : Pose α) (dist : α) (out : List (Waypoint α) × α),
      HolonomicTrajectory.generateLoop m path orientation segment profile length index aIndex
        n i previous dist = some out →
      ∀ (k : Nat) (w : Waypoint α), out.1[k]? = some w →
        w.heading.x =
          m.cos ((Path.sampleFrom m path segment previous i (k + 1)).w / RadToDeg) *
            (cornerMultiplier (wrap (Path.sampleFrom m path segment previous i k).w
                (Path.sampleFrom m path segment previous i (k + 1)).w) *
              profile.get m ((i + k + index : Nat) : α)) ∧
        w.heading.y =
          m.sin ((Path.sampleFrom m path segment previous i (k + 1)).w / RadToDeg) *
            (cornerMultiplier (wrap (Path.sampleFrom m path segment previous i k).w
                (Path.sampleFrom m path segment previous i (k + 1)).w) *
              profile.get m ((i + k + index : Nat) : α)) ∧
        InterpolateHolonomicPose orientation ((aIndex : α) + segment * ((i + k : Nat) : α)) =
          some w.heading.w := by
  intro n
  induction n with
  | zero =>
    intro i previous dist out hout k w hw
    rw [HolonomicTrajectory.generateLoop] at hout
    cases hout
    cases hw
  | succ n ih =>
    intro i previous dist out hout k w hw
    rw [HolonomicTrajectory.generateLoop] at hout
    simp only [Option.bind_eq_bind, Option.bind_eq_some, Option.pure_def,
      Option.some.injEq] at hout
    obtain ⟨a, ha, rest, hrest, rfl⟩ := hout
    cases k with
    | zero =>
      simp only [List.getElem?_cons_zero, Option.some.injEq] at hw
      subst hw
      simp only [Path.sampleFrom, Nat.add_zero]
      exact ⟨rfl, rfl, ha⟩
    | succ k =>
      simp only [List.getElem?_cons_succ] at hw
      obtain ⟨h1, h2, h3⟩ := ih (i + 1) _ _ rest hrest k w hw
      rw [← Path.sampleFrom_succ, ← Path.sampleFrom_succ] at h1 h2
      have e : i + 1 + k + index = i + (k + 1) + index := by omega
      have e' : i + 1 + k = i + (k + 1) := by omega
      rw [e] at h1 h2
      rw [e'] at h3
      exact ⟨h1, h2, h3⟩

/-- Speed and heading of the waypoints returned by one call of the differential `generate`. -/
theorem DifferentialTrajectory_generate_speed (m : Libm α) (self : DifferentialTrajectory α)
    (path : Path α) (rev : Bool) (clarity : Nat) (profile : StaticProfile α)
    (k : Nat) (w : Waypoint α)
    (hw : (DifferentialTrajectory.generate m self path rev clarity profile).1[k]? = some w) :
    w.heading.x = 0 ∧
    w.heading.y =
      (if rev then
        -(cornerMultiplier (Path.turn m path clarity (k + 1)) *
          profile.get m ((k + 1 + self.index : Nat) : α))
      else
        cornerMultiplier (Path.turn m path clarity (k + 1)) *
          profile.get m ((k + 1 + self.index : Nat) : α)) ∧
    w.heading.w =
      bound ((Path.sample m path clarity (k + 1)).w - 90 + (if rev then 180 else 0)) := by
  have h := DifferentialTrajectory_generateLoop_speed m path rev (1 / (clarity : α)) profile
    self.length self.index clarity 1
    { x := path.p0.x, y := path.p0.y, w := path.t0.getAngle m } 0 k w hw
  have e : 1 + k + self.index = k + 1 + self.index := by omega
  rw [e] at h
  exact h

/-- Speed components and orientation target of the waypoints returned by one successful call
of the holonomic `generate`. -/
theorem HolonomicTrajectory_generate_heading (m : Libm α) (self : HolonomicTrajectory α)
    (path : Path α) (o : List (HolonomicPose α)) (clarity : Nat) (profile : StaticProfile α)
    (g : List (Waypoint α) × HolonomicTrajectory α)
    (hg : HolonomicTrajectory.generate m self path o clarity profile = some g)
    (k : Nat) (w : Waypoint α) (hw : g.1[k]? = some w) :
    w.heading.x =
      m.cos ((Path.sample m path clarity (k + 1)).w / RadToDeg) *
        (cornerMultiplier (Path.turn m path clarity (k + 1)) *
          profile.get m ((k + 1 + self.index : Nat) : α)) ∧
    w.heading.y =
      m.sin ((Path.sample m path clarity (k + 1)).w / RadToDeg) *
        (cornerMultiplier (Path.turn m path clarity (k + 1)) *
          profile.get m ((k + 1 + self.index : Nat) : α)) ∧
    InterpolateHolonomicPose o ((self.aIndex : α) + ((k : α) + 1) / (clarity : α)) =
      some w.heading.w ∧
    g.2.index = clarity := by
  simp only [HolonomicTrajectory.generate, Option.bind_eq_bind, Option.bind_eq_some,
    Option.pure_def, Option.some.injEq] at hg
  obtain ⟨out, hout, rfl⟩ := hg
  obtain ⟨h1, h2, h3⟩ := HolonomicTrajectory_generateLoop_heading m path o _ profile
    self.length self.index self.aIndex clarity 1 _ 0 out hout k w hw
  have e : 1 + k + self.index = k + 1 + self.index := by omega
  rw [e] at h1 h2
  have e' : (1 : α) / (clarity : α) * ((1 + k : Nat) : α) = ((k : α) + 1) / (clarity : α) := by
    push_cast
    ring
  rw [e'] at h3
  exact ⟨h1, h2, h3, rfl⟩


omit [FloorRing α] in
theorem Path.specSpeed_abs_le (m : Libm α) (path : Path α) (clarity k : Nat)
    (profile : StaticProfile α) (position : Nat) :
    |Path.specSpeed m path clarity k profile position| ≤ |profile.get m (position : α)| := by
  unfold Path.specSpeed
  rw [mul_comm]
  exact cornerMultiplier_mul_abs_le _ _

/-- Speeds of the differential `Path` trajectory. -/
theorem DifferentialTrajectory_ofPath_speed (m : Libm α) (path : Path α)
    (profile : StaticProfile α) (rev : Bool) (k : Nat) (w : Waypoint α)
    (hw : (DifferentialTrajectory.ofPath m path profile rev).waypoints[k]? = some w) :
    w.heading.y =
      (if rev then -Path.specSpeed m path 100 (k + 1) profile (k + 1)
       else Path.specSpeed m path 100 (k + 1) profile (k + 1)) := by
  rw [DifferentialTrajectory_ofPath_waypoints] at hw
  have h := (DifferentialTrajectory_generate_speed m _ path rev 100 profile k w hw).2.1
  have hz : (DifferentialTrajectory.fresh : DifferentialTrajectory α).index = 0 := rfl
  rw [hz, Nat.add_zero] at h
  unfold Path.specSpeed
  rw [h, mul_comm]

/-- Speeds of the differential `PathPlus` trajectory, segment by segment. -/
theorem DifferentialTrajectory_ofPathPlus_speed (m : Libm α) (path : PathPlus α)
    (profile : StaticProfile α) (rev : Bool) :
    (∀ (k : Nat) (w : Waypoint α), k < 50 →
      (DifferentialTrajectory.ofPathPlus m path profile rev).waypoints[k]? = some w →
      w.heading.y =
        (if rev then -Path.specSpeed m path.first 50 (k + 1) profile (k + 1)
         else Path.specSpeed m path.first 50 (k + 1) profile (k + 1))) ∧
    (∀ (k : Nat) (w : Waypoint α), k < 50 →
      (DifferentialTrajectory.ofPathPlus m path profile rev).waypoints[50 + k]? = some w →
      w.heading.y =
        (if rev then -Path.specSpeed m path.second 50 (k + 1) profile (k + 51)
         else Path.specSpeed m path.second 50 (k + 1) profile (k + 51))) := by
  rw [DifferentialTrajectory_ofPathPlus_waypoints]
  have a1 := (DifferentialTrajectory_generate_polyline m DifferentialTrajectory.fresh
    { p0 := path.p0, p1 := path.p1, t0 := path.t0, t1 := path.t1 } rev 50 profile).1
  constructor
  · intro k w hk hw
    rw [List.getElem?_append_left (by omega)] at hw
    have h := (DifferentialTrajectory_generate_speed m _ _ rev 50 profile k w hw).2.1
    have hz : (DifferentialTrajectory.fresh : DifferentialTrajectory α).index = 0 := rfl
    rw [hz, Nat.add_zero] at h
    unfold Path.specSpeed PathPlus.first
    rw [h, mul_comm]
  · intro k w hk hw
    rw [List.getElem?_append_right (by omega), a1, Nat.add_sub_cancel_left] at hw
    have h := (DifferentialTrajectory_generate_speed m _ _ rev 50 profile k w hw).2.1
    have e : k + 1 + 50 = k + 51 := by omega
    simp only [DifferentialTrajectory.generate, e] at h
    unfold Path.specSpeed PathPlus.second
    rw [h, mul_comm]

/-- Speed components of the holonomic `Path` trajectory. -/
theorem HolonomicTrajectory_ofPath_speed (m : Libm α) (path : Path α)
    (profile : StaticProfile α) (o : List (HolonomicPose α)) (t : HolonomicTrajectory α)
    (ht : HolonomicTrajectory.ofPath m path profile o = some t)
    (k : Nat) (w : Waypoint α) (hw : t.waypoints[k]? = some w) :
    w.heading.x = m.cos ((Path.sample m path 100 (k + 1)).w / RadToDeg) *
      Path.specSpeed m path 100 (k + 1) profile (k + 1) ∧
    w.heading.y = m.sin ((Path.sample m path 100 (k + 1)).w / RadToDeg) *
      Path.specSpeed m path 100 (k + 1) profile (k + 1) := by
  simp only [HolonomicTrajectory.ofPath, Option.bind_eq_bind, Option.bind_eq_some,
    Option.pure_def, Option.some.injEq] at ht
  obtain ⟨g, hg, rfl⟩ := ht
  obtain ⟨h1, h2, _, _⟩ := HolonomicTrajectory_generate_heading m _ path o 100 profile g hg k w hw
  have hz : (HolonomicTrajectory.fresh : HolonomicTrajectory α).index = 0 := rfl
  rw [hz, Nat.add_zero] at h1 h2
  unfold Path.specSpeed
  rw [h1, h2, mul_comm (profile.get m _)]
  exact ⟨rfl, rfl⟩

/-- Speed components and orientation targets of the holonomic `PathPlus` trajectory, segment
by segment. -/
theorem HolonomicTrajectory_ofPathPlus_heading (m : Libm α) (path : PathPlus α)
    (profile : StaticProfile α) (o : List (HolonomicPose α)) (t : HolonomicTrajectory α)
    (ht : HolonomicTrajectory.ofPathPlus m path profile o = some t) :
    (∀ (k : Nat) (w : Waypoint α), k < 50 → t.waypoints[k]? = some w →
      w.heading.x = m.cos ((Path.sample m path.first 50 (k + 1)).w / RadToDeg) *
        Path.specSpeed m path.first 50 (k + 1) profile (k + 1) ∧
      w.heading.y = m.sin ((Path.sample m path.first 50 (k + 1)).w / RadToDeg) *
        Path.specSpeed m path.first 50 (k + 1) profile (k + 1) ∧
      InterpolateHolonomicPose o (((k : α) + 1) / 50) = some w.heading.w) ∧
    (∀ (k : Nat) (w : Waypoint α), k < 50 → t.waypoints[50 + k]? = some w →
      w.heading.x = m.cos ((Path.sample m path.second 50 (k + 1)).w / RadToDeg) *
        Path.specSpeed m path.second 50 (k + 1) profile (k + 51) ∧
      w.heading.y = m.sin ((Path.sample m path.second 50 (k + 1)).w / RadToDeg) *
        Path.specSpeed m path.second 50 (k + 1) profile (k + 51) ∧
      InterpolateHolonomicPose o (1 + ((k : α) + 1) / 50) = some w.heading.w) := by
  simp only [HolonomicTrajectory.ofPathPlus, Option.bind_eq_bind, Option.bind_eq_some,
    Option.pure_def, Option.some.injEq] at ht
  obtain ⟨g1, hg1, g2, hg2, rfl⟩ := ht
  obtain ⟨a1, _, _, _⟩ := HolonomicTrajectory_generate_polyline m
    HolonomicTrajectory.fresh _ o 50 profile g1 hg1
  obtain ⟨_, _, b3, _⟩ := HolonomicTrajectory_generate_polyline m _ _ o 50 profile g2 hg2
  have ha := (HolonomicTrajectory_generate_aIndex m _ _ o 50 profile g1 hg1).1
  simp only at b3
  simp only [b3]
  constructor
  · intro k w hk hw
    rw [List.getElem?_append_left (by omega)] at hw
    obtain ⟨h1, h2, h3, _⟩ := HolonomicTrajectory_generate_heading m _ _ o 50 profile g1 hg1
      k w hw
    have hz : (HolonomicTrajectory.fresh : HolonomicTrajectory α).index = 0 := rfl
    have hz' : (HolonomicTrajectory.fresh : HolonomicTrajectory α).aIndex = 0 := rfl
    rw [hz, Nat.add_zero] at h1 h2
    rw [hz', Nat.cast_zero, zero_add, Nat.cast_ofNat] at h3
    unfold Path.specSpeed PathPlus.first
    rw [h1, h2, mul_comm (profile.get m _)]
    exact ⟨rfl, rfl, h3⟩
  · intro k w hk hw
    rw [List.getElem?_append_right (by omega), a1, Nat.add_sub_cancel_left] at hw
    obtain ⟨h1, h2, h3, _⟩ := HolonomicTrajectory_generate_heading m _ _ o 50 profile g2 hg2
      k w hw
    have hidx := (HolonomicTrajectory_generate_heading m _ _ o 50 profile g1 hg1 0
      g1.1[0] (List.getElem?_eq_getElem (by omega))).2.2.2
    have e : k + 1 + 50 = k + 51 := by omega
    simp only [hidx, e] at h1 h2
    simp only [ha, Nat.cast_one, Nat.cast_ofNat] at h3
    unfold Path.specSpeed PathPlus.second
    rw [h1, h2, mul_comm (profile.get m _)]
    exact ⟨rfl, rfl, h3⟩

/-- C22. Every spline waypoint carries the speed `profile.get(k)` times the cornering
multiplier `1 / (0.4 * |dh| + 1)`, where `dh` is the shortest-angle difference between the
finite-difference headings of samples `k - 1` and `k`: as `heading.y` (negated in reverse)
in a differential trajectory, and as the common factor of the two direction components in a
holonomic one.  The multiplier lies in (0, 1] and is strictly decreasing in `|dh|`, so the
speed never exceeds `|profile.get(k)|` in magnitude.  A `Path` trajectory reads the profile
at 1..100; a `PathPlus` trajectory reads it at 1..50 on the first segment and 51..100 on the
second. -/
theorem C22_speed_is_profile_times_multiplier (m : Libm α) :
    (∀ dh : α, cornerMultiplier dh = 1 / (0.4 * |dh| + 1) ∧
      0 < cornerMultiplier dh ∧ cornerMultiplier dh ≤ 1) ∧
    (∀ dh dh' : α, |dh| < |dh'| → cornerMultiplier dh' < cornerMultiplier dh) ∧
    (∀ (path : Path α) (clarity k : Nat) (profile : StaticProfile α) (position : Nat),
      Path.specSpeed m path clarity k profile position =
        profile.get m (position : α) *
          (1 / (0.4 * |wrap (Path.sample m path clarity (k - 1)).w
            (Path.sample m path clarity k).w| + 1)) ∧
      |Path.specSpeed m path clarity k profile position| ≤ |profile.get m (position : α)|) ∧
    (∀ (path : Path α) (profile : StaticProfile α) (rev : Bool),
      (DifferentialTrajectory.ofPath m path profile rev).waypoints.length = 100 ∧
      ∀ (k : Nat) (w : Waypoint α),
        (DifferentialTrajectory.ofPath m path profile rev).waypoints[k]? = some w →
        w.heading.y =
          (if rev then -Path.specSpeed m path 100 (k + 1) profile (k + 1)
           else Path.specSpeed m path 100 (k + 1) profile (k + 1))) ∧
    (∀ (path : PathPlus α) (profile : StaticProfile α) (rev : Bool),
      (DifferentialTrajectory.ofPathPlus m path profile rev).waypoints.length = 100 ∧
      (∀ (k : Nat) (w : Waypoint α), k < 50 →
        (DifferentialTrajectory.ofPathPlus m path profile rev).waypoints[k]? = some w →
        w.heading.y =
          (if rev then -Path.specSpeed m path.first 50 (k + 1) profile (k + 1)
           else Path.specSpeed m path.first 50 (k + 1) profile (k + 1))) ∧
      (∀ (k : Nat) (w : Waypoint α), k < 50 →
        (DifferentialTrajectory.ofPathPlus m path profile rev).waypoints[50 + k]? = some w →
        w.heading.y =
          (if rev then -Path.specSpeed m path.second 50 (k + 1) profile (k + 51)
           else Path.specSpeed m path.second 50 (k + 1) profile (k + 51)))) ∧
    (∀ (path : Path α) (profile : StaticProfile α) (o : List (HolonomicPose α))
        (t : HolonomicTrajectory α),
      HolonomicTrajectory.ofPath m path profile o = some t →
      t.waypoints.length = 100 ∧
      ∀ (k : Nat) (w : Waypoint α), t.waypoints[k]? = some w →
        w.heading.x = m.cos ((Path.sample m path 100 (k + 1)).w / RadToDeg) *
          Path.specSpeed m path 100 (k + 1) profile (k + 1) ∧
        w.heading.y = m.sin ((Path.sample m path 100 (k + 1)).w / RadToDeg) *
          Path.specSpeed m path 100 (k + 1) profile (k + 1)) ∧
    (∀ (path : PathPlus α) (profile : StaticProfile α) (o : List (HolonomicPose α))
        (t : HolonomicTrajectory α),
      HolonomicTrajectory.ofPathPlus m path profile o = some t →
      t.waypoints.length = 100 ∧
      (∀ (k : Nat) (w : Waypoint α), k < 50 → t.waypoints[k]? = some w →
        w.heading.x = m.cos ((Path.sample m path.first 50 (k + 1)).w / RadToDeg) *
          Path.specSpeed m path.first 50 (k + 1) profile (k + 1) ∧
        w.heading.y = m.sin ((Path.sample m path.first 50 (k + 1)).w / RadToDeg) *
          Path.specSpeed m path.first 50 (k + 1) profile (k + 1)) ∧
      (∀ (k : Nat) (w : Waypoint α), k < 50 → t.waypoints[50 + k]? = some w →
        w.heading.x = m.cos ((Path.sample m path.second 50 (k + 1)).w / RadToDeg) *
          Path.specSpeed m path.second 50 (k + 1) profile (k + 51) ∧
        w.heading.y = m.sin ((Path.sample m path.second 50 (k + 1)).w / RadToDeg) *
          Path.specSpeed m path.second 50 (k + 1) profile (k + 51))) := by
  refine ⟨?_, ?_, ?_, ?_, ?_, ?_, ?_⟩
  · intro dh
    exact ⟨by unfold cornerMultiplier autonomous_rotation_scaler; rfl,
      cornerMultiplier_pos_le_one dh⟩
  · intro dh dh' h
    exact cornerMultiplier_strictAnti h
  · intro path clarity k profile position
    exact ⟨by unfold Path.specSpeed cornerMultiplier Path.turn autonomous_rotation_scaler; rfl,
      Path.specSpeed_abs_le m path clarity k profile position⟩
  · intro path profile rev
    refine ⟨?_, DifferentialTrajectory_ofPath_speed m path profile rev⟩
    rw [DifferentialTrajectory_ofPath_waypoints]
    exact (DifferentialTrajectory_generate_polyline m _ path rev 100 profile).1
  · intro path profile rev
    exact ⟨(DifferentialTrajectory_ofPathPlus_polyline m path profile rev).1,
      DifferentialTrajectory_ofPathPlus_speed m path profile rev⟩
  · intro path profile o t ht
    refine ⟨?_, HolonomicTrajectory_ofPath_speed m path profile o t ht⟩
    simp only [HolonomicTrajectory.ofPath, Option.bind_eq_bind, Option.bind_eq_some,
      Option.pure_def, Option.some.injEq] at ht
    obtain ⟨g, hg, rfl⟩ := ht
    exact (HolonomicTrajectory_generate_polyline m _ path o 100 profile g hg).1
  · intro path profile o t ht
    obtain ⟨h1, h2⟩ := HolonomicTrajectory_ofPathPlus_heading m path profile o t ht
    refine ⟨(HolonomicTrajectory_ofPathPlus_polyline m path profile o t ht).1, ?_, ?_⟩
    · intro k w hk hw
      exact ⟨(h1 k w hk hw).1, (h1 k w hk hw).2.1⟩
    · intro k w hk hw
      exact ⟨(h2 k w hk hw).1, (h2 k w hk hw).2.1⟩

end ClaimSpeed

/-! ## The orientation target of main.cpp at the segment boundary -/

section ClaimBoundary
variable {α : Type} [LinearOrderedField α] [FloorRing α]

/-- The keyframe list of main.cpp at normalized position 1, the end of segment A-B: the
loop stops at the keyframe `{1, 300}` and the target is 300. -/
theorem traj_keyframes_at_one :
    InterpolateHolonomicPose
      (trajKeyframes : List (HolonomicPose α))
      ((((49 : Nat) : α) + 1) / 50) = some 300 := by
  have hx : (((49 : Nat) : α) + 1) / 50 = 1 := by norm_num
  rw [hx]
  have hloop : InterpolateHolonomicPose.loop
      (trajKeyframes : List (HolonomicPose α))
      1 0 = some 2 := by
    refine InterpolateHolonomicPose_loop_eq trajKeyframes (1 : α) 2 { dist := 1, angle := 300 } rfl
      (le_refl _) ?_ 2 0 rfl (Nat.zero_le _)
    intro i a hi ha
    have hcases : i = 0 ∨ i = 1 := by omega
    rcases hcases with rfl | rfl
    · simp only [trajKeyframes, Example.intendedKeyframes, List.getElem?_cons_zero,
        Option.some.injEq] at ha
      subst ha
      norm_num
    · simp only [trajKeyframes, Example.intendedKeyframes, List.getElem?_cons_succ,
        List.getElem?_cons_zero, Option.some.injEq] at ha
      subst ha
      norm_num
  rw [InterpolateHolonomicPose_of_loop trajKeyframes (1 : α) 2 { dist := 0.3, angle := 180 }
    { dist := 1, angle := 300 } hloop (by norm_num) rfl rfl]
  have hw : wrap (180 : α) 300 = 120 := by
    unfold wrap
    norm_num
  have hv : ((1 : α) - 0.3) / (1 - 0.3) * 120 + 180 = 300 := by norm_num
  simp only [hw, hv]
  rw [bound_eq_self (by norm_num) (by norm_num)]

/-- The keyframe list of main.cpp at normalized position 1.02, the first sample of segment
B-C: no keyframe from `{0.5, 90}` on stops the loop before the last index, so the bracket is
`{0.5, 90}`-`{2, 5}` and the target is 908/15, about 60.5. -/
theorem traj_keyframes_after_one :
    InterpolateHolonomicPose
      (trajKeyframes : List (HolonomicPose α))
      (1 + (((0 : Nat) : α) + 1) / 50) = some (908 / 15) := by
  have hx : (1 : α) + (((0 : Nat) : α) + 1) / 50 = 51 / 50 := by norm_num
  rw [hx]
  have hloop : InterpolateHolonomicPose.loop
      (trajKeyframes : List (HolonomicPose α))
      (51 / 50) 0 = some 4 := by
    refine InterpolateHolonomicPose_loop_eq trajKeyframes (51 / 50 : α) 4 { dist := 2, angle := 5 } rfl
      (by norm_num) ?_ 4 0 rfl (Nat.zero_le _)
    intro i a hi ha
    have hcases : i = 0 ∨ i = 1 ∨ i = 2 ∨ i = 3 := by omega
    rcases hcases with rfl | rfl | rfl | rfl
    · simp only [trajKeyframes, Example.intendedKeyframes, List.getElem?_cons_zero,
        Option.some.injEq] at ha
      subst ha
      norm_num
    · simp only [trajKeyframes, Example.intendedKeyframes, List.getElem?_cons_succ,
        List.getElem?_cons_zero, Option.some.injEq] at ha
      subst ha
      norm_num
    · simp only [trajKeyframes, Example.intendedKeyframes, List.getElem?_cons_succ,
        List.getElem?_cons_zero, Option.some.injEq] at ha
      subst ha
      norm_num
    · simp only [trajKeyframes, Example.intendedKeyframes, List.getElem?_cons_succ,
        List.getElem?_cons_zero, Option.some.injEq] at ha
      subst ha
      norm_num
  rw [InterpolateHolonomicPose_of_loop trajKeyframes (51 / 50 : α) 4 { dist := 0.5, angle := 90 }
    { dist := 2, angle := 5 } hloop (by norm_num) rfl rfl]
  have hw : wrap (90 : α) 5 = -85 := by
    unfold wrap
    norm_num
  have hv : ((51 : α) / 50 - 0.5) / (2 - 0.5) * (-85) + 90 = 908 / 15 := by norm_num
  simp only [hw, hv]
  rw [bound_eq_self (by norm_num) (by norm_num)]

/-- With the fourth keyframe at 1.5, half-way along segment B-C as the comment beside it in
main.cpp describes, the target at position 1.02 is 306. -/
theorem traj_keyframes_intended :
    InterpolateHolonomicPose
      (Example.intendedKeyframes : List (HolonomicPose α))
      (51 / 50) = some 306 := by
  have hloop : InterpolateHolonomicPose.loop
      (Example.intendedKeyframes : List (HolonomicPose α))
      (51 / 50) 0 = some 3 := by
    refine InterpolateHolonomicPose_loop_eq Example.intendedKeyframes (51 / 50 : α) 3
      { dist := 1.5, angle := 90 } rfl
      (by norm_num) ?_ 3 0 rfl (Nat.zero_le _)
    intro i a hi ha
    have hcases : i = 0 ∨ i = 1 ∨ i = 2 := by omega
    rcases hcases with rfl | rfl | rfl
    · simp only [trajKeyframes, Example.intendedKeyframes, List.getElem?_cons_zero,
        Option.some.injEq] at ha
      subst ha
      norm_num
    · simp only [trajKeyframes, Example.intendedKeyframes, List.getElem?_cons_succ,
        List.getElem?_cons_zero, Option.some.injEq] at ha
      subst ha
      norm_num
    · simp only [trajKeyframes, Example.intendedKeyframes, List.getElem?_cons_succ,
        List.getElem?_cons_zero, Option.some.injEq] at ha
      subst ha
      norm_num
  rw [InterpolateHolonomicPose_of_loop Example.intendedKeyframes (51 / 50 : α) 3
    { dist := 1, angle := 300 }
    { dist := 1.5, angle := 90 } hloop (by norm_num) rfl rfl]
  have hw : wrap (300 : α) 90 = 150 := by
    unfold wrap
    norm_num
  have hv : ((51 : α) / 50 - 1) / (1.5 - 1) * 150 + 300 = 306 := by norm_num
  simp only [hw, hv]
  rw [bound_eq_self (by norm_num) (by norm_num)]

/-- The constructor of `traj` in main.cpp returns. -/
theorem traj_isSome (m : Libm α) : (traj m).isSome = true := by
  unfold traj
  exact (HolonomicTrajectory_ofPathPlus_isSome_iff m _ _ _ { dist := 0, angle := 0 }
    rfl).mpr ⟨by simp only [List.length_cons, List.length_nil]; norm_num, by norm_num⟩

/-- C21. The trajectory `traj` of main.cpp is constructed with 100 waypoints; the last
waypoint of segment A-B (index 49, position 1) has the orientation target 300, but the first
waypoint of segment B-C (index 50, position 1.02) has the target 908/15 (about 60.5), so the
shortest-angle difference between the two is 1808/15 (about 120.5) and not below 10 in
absolute value: the target jumps at keyframe position 1.  The keyframe `{0.5, 90}` lies
before `{1, 300}` in position, so the bracket found at 1.02 is `{0.5, 90}`-`{2, 5}`; with
that keyframe at 1.5 the target at 1.02 would be 306, 6 degrees from 300. -/
theorem C21_traj_orientation_jumps_at_boundary (m : Libm α) :
    (∃ (t : HolonomicTrajectory α) (a b : Waypoint α),
      traj m = some t ∧ t.waypoints.length = 100 ∧
      t.waypoints[49]? = some a ∧ t.waypoints[50]? = some b ∧
      a.heading.w = 300 ∧ b.heading.w = 908 / 15 ∧
      wrap a.heading.w b.heading.w = 1808 / 15 ∧
      ¬ |wrap a.heading.w b.heading.w| < 10) ∧
    InterpolateHolonomicPose
      (Example.intendedKeyframes : List (HolonomicPose α))
      (51 / 50) = some 306 ∧
    wrap (300 : α) 306 = 6 := by
  refine ⟨?_, traj_keyframes_intended, by unfold wrap; norm_num⟩
  obtain ⟨t, ht⟩ := Option.isSome_iff_exists.mp (traj_isSome m)
  have ht' := ht
  unfold traj at ht'
  have hlen := (HolonomicTrajectory_ofPathPlus_polyline m _ _ _ t ht').1
  obtain ⟨h1, h2⟩ := HolonomicTrajectory_ofPathPlus_heading m _ _ _ t ht'
  have ha : InterpolateHolonomicPose trajKeyframes ((((49 : Nat) : α) + 1) / 50) =
      some (t.waypoints[49]).heading.w :=
    (h1 49 (t.waypoints[49]) (by norm_num) (List.getElem?_eq_getElem (by omega))).2.2
  have hb : InterpolateHolonomicPose trajKeyframes (1 + (((0 : Nat) : α) + 1) / 50) =
      some (t.waypoints[50]).heading.w :=
    (h2 0 (t.waypoints[50]) (by norm_num) (List.getElem?_eq_getElem (by omega))).2.2
  rw [traj_keyframes_at_one, Option.some.injEq] at ha
  rw [traj_keyframes_after_one, Option.some.injEq] at hb
  have hwrap : wrap (300 : α) (908 / 15) = 1808 / 15 := by
    unfold wrap
    norm_num
  refine ⟨t, t.waypoints[49], t.waypoints[50], ht, hlen,
    List.getElem?_eq_getElem (by omega), List.getElem?_eq_getElem (by omega),
    ha.symm, hb.symm, ?_, ?_⟩
  · rw [← ha, ← hb]
    exact hwrap
  · rw [← ha, ← hb, hwrap, abs_of_pos (by norm_num)]
    norm_num

end ClaimBoundary

/-! ## When the orientation interpolation throws -/

section ClaimInterpolationFails
variable {α : Type} [LinearOrderedField α] [FloorRing α]

/-- C31. On a non-empty keyframe list `first :: rest` and a query `x`,
`InterpolateHolonomicPose` throws (the model returns `none`) exactly when `first.dist ≥ x`,
where the lower index of the bracket is -1, or the list has one entry only; in every other
case it returns a value.  In particular the query `x = 0` against a first keyframe at
position 0 throws. -/
theorem C31_interpolate_fails_iff (first : HolonomicPose α) (rest : List (HolonomicPose α))
    (x : α) :
    (InterpolateHolonomicPose (first :: rest) x = none ↔
      (first.dist ≥ x ∨ (first :: rest).length = 1)) ∧
    (¬ (first.dist ≥ x ∨ (first :: rest).length = 1) →
      ∃ v : α, InterpolateHolonomicPose (first :: rest) x = some v) ∧
    (first.dist = 0 → InterpolateHolonomicPose (first :: rest) 0 = none) := by
  have key : ∀ y : α, InterpolateHolonomicPose (first :: rest) y = none ↔
      (first.dist ≥ y ∨ (first :: rest).length = 1) := by
    intro y
    have h := InterpolateHolonomicPose_isSome_iff (first :: rest) y first
      (List.getElem?_cons_zero)
    rw [← Option.not_isSome_iff_eq_none, h, List.length_cons]
    constructor
    · intro hn
      by_cases hx : first.dist < y
      · right
        by_contra hl
        exact hn ⟨by omega, hx⟩
      · left
        exact not_lt.mp hx
    · rintro (hx | hl) ⟨h2, hlt⟩
      · exact absurd hlt (not_lt.mpr hx)
      · omega
  refine ⟨key x, ?_, ?_⟩
  · intro hn
    have hne : InterpolateHolonomicPose (first :: rest) x ≠ none := fun h => hn ((key x).mp h)
    exact Option.ne_none_iff_exists'.mp hne
  · intro h0
    exact (key 0).mpr (Or.inl (le_of_eq h0.symm))

end ClaimInterpolationFails

/-! ## Reverse and forward differential trajectories -/

section ClaimReverse
variable {α : Type} [LinearOrderedField α] [FloorRing α]

/-- Adding a half turn inside `bound` or after it gives the same angle. -/
theorem bound_add_half_turn (a : α) : bound (a + 180) = bound (bound a + 180) := by
  obtain ⟨_, _, k, hk⟩ := bound_spec a
  have e : bound a + 180 = a + 180 + 360 * (k : α) := by linarith
  rw [e, bound_add_turns]

/-- The heading written for a reversed sample is the forward one turned by 180 degrees. -/
theorem bound_reverse_heading (a : α) :
    bound (a - 90 + (if true = true then 180 else 0)) =
      bound (bound (a - 90 + (if false = true then 180 else 0)) + 180) := by
  simp only [if_true, Bool.false_eq_true, if_false, add_zero]
  exact bound_add_half_turn (a - 90)

/-- C32. For every `Path` and profile, the `DifferentialTrajectory` built with
`reverse = true` and the one built with `reverse = false` both hold 100 waypoints and have
the same length; at every index the two waypoints have the same distance, the reverse one
has the negated speed `heading.y` and the heading `bound(heading.w_fwd + 180)`; the poses
`initialPose` and `finalPose` have the same position and are turned by 180 degrees in the
same way. -/
theorem C32_reverse_mirrors_forward (m : Libm α) (path : Path α) (profile : StaticProfile α) :
    (DifferentialTrajectory.ofPath m path profile true).length =
      (DifferentialTrajectory.ofPath m path profile false).length ∧
    (DifferentialTrajectory.ofPath m path profile true).waypoints.length = 100 ∧
    (DifferentialTrajectory.ofPath m path profile false).waypoints.length = 100 ∧
    (∀ (k : Nat) (wf wr : Waypoint α),
      (DifferentialTrajectory.ofPath m path profile false).waypoints[k]? = some wf →
      (DifferentialTrajectory.ofPath m path profile true).waypoints[k]? = some wr →
      wr.dist = wf.dist ∧ wr.heading.y = -wf.heading.y ∧ wr.heading.x = wf.heading.x ∧
      wr.heading.w = bound (wf.heading.w + 180)) ∧
    (DifferentialTrajectory.ofPath m path profile true).initialPose.w =
      bound ((DifferentialTrajectory.ofPath m path profile false).initialPose.w + 180) ∧
    (DifferentialTrajectory.ofPath m path profile true).finalPose.w =
      bound ((DifferentialTrajectory.ofPath m path profile false).finalPose.w + 180) ∧
    (DifferentialTrajectory.ofPath m path profile true).initialPose.x =
      (DifferentialTrajectory.ofPath m path profile false).initialPose.x ∧
    (DifferentialTrajectory.ofPath m path profile true).initialPose.y =
      (DifferentialTrajectory.ofPath m path profile false).initialPose.y ∧
    (DifferentialTrajectory.ofPath m path profile true).finalPose.x =
      (DifferentialTrajectory.ofPath m path profile false).finalPose.x ∧
    (DifferentialTrajectory.ofPath m path profile true).finalPose.y =
      (DifferentialTrajectory.ofPath m path profile false).finalPose.y ∧
    (DifferentialTrajectory.ofPath m path profile true).reverse = true ∧
    (DifferentialTrajectory.ofPath m path profile false).reverse = false := by
  obtain ⟨f1, f2, _, f4⟩ := DifferentialTrajectory_generate_polyline m
    DifferentialTrajectory.fresh path false 100 profile
  obtain ⟨r1, r2, _, r4⟩ := DifferentialTrajectory_generate_polyline m
    DifferentialTrajectory.fresh path true 100 profile
  refine ⟨?_, ?_, ?_, ?_, ?_, ?_, rfl, rfl, rfl, rfl, rfl, rfl⟩
  · rw [DifferentialTrajectory_ofPath_length, DifferentialTrajectory_ofPath_length, f2, r2]
  · rw [DifferentialTrajectory_ofPath_waypoints]
    exact r1
  · rw [DifferentialTrajectory_ofPath_waypoints]
    exact f1
  · intro k wf wr hf hr
    rw [DifferentialTrajectory_ofPath_waypoints] at hf hr
    obtain ⟨fx, fy, fw⟩ := DifferentialTrajectory_generate_speed m _ path false 100 profile
      k wf hf
    obtain ⟨rx, ry, rwh⟩ := DifferentialTrajectory_generate_speed m _ path true 100 profile
      k wr hr
    refine ⟨by rw [f4 k wf hf, r4 k wr hr], ?_, by rw [fx, rx], ?_⟩
    · rw [ry, fy]
      simp
    · rw [rwh, fw]
      exact bound_reverse_heading _
  · exact bound_reverse_heading (path.t0.getAngle m)
  · exact bound_reverse_heading (path.t1.getAngle m)

end ClaimReverse
/-! ## Float arithmetic: the binary formats -/

section Formats

/-! ### Round-to-nearest on a grid -/

theorem roundHalfEven_intCast (n : ℤ) : roundHalfEven (n : ℚ) = n := by
  unfold roundHalfEven
  simp

theorem roundHalfEven_cases (x : ℚ) :
    roundHalfEven x = ⌊x⌋ ∨ roundHalfEven x = ⌊x⌋ + 1 := by
  unfold roundHalfEven
  split_ifs <;> simp

theorem roundHalfEven_ge_of_le (x : ℚ) (n : ℤ) (h : (n : ℚ) ≤ x) : n ≤ roundHalfEven x := by
  have : n ≤ ⌊x⌋ := Int.le_floor.mpr h
  rcases roundHalfEven_cases x with e | e <;> (rw [e]; omega)

theorem roundHalfEven_le_of_le (x : ℚ) (n : ℤ) (h : x ≤ (n : ℚ)) : roundHalfEven x ≤ n := by
  rcases eq_or_lt_of_le h with e | hlt
  · rw [e, roundHalfEven_intCast]
  · have : ⌊x⌋ < n := Int.floor_lt.mpr hlt
    rcases roundHalfEven_cases x with e | e <;> (rw [e]; omega)

theorem roundHalfEven_mono {x y : ℚ} (h : x ≤ y) : roundHalfEven x ≤ roundHalfEven y := by
  rcases lt_or_eq_of_le (Int.floor_mono h) with hf | hf
  · have h1 := roundHalfEven_cases x
    have h2 := roundHalfEven_cases y
    omega
  · unfold roundHalfEven
    rw [hf]
    split_ifs <;> first | omega | (exfalso; linarith)

theorem roundHalfEven_neg (x : ℚ) : roundHalfEven (-x) = -roundHalfEven x := by
  by_cases hx : (⌊x⌋ : ℚ) = x
  · rw [← hx, ← Int.cast_neg, roundHalfEven_intCast, roundHalfEven_intCast]
  · have hlt : (⌊x⌋ : ℚ) < x := lt_of_le_of_ne (Int.floor_le x) hx
    have hfl : ⌊-x⌋ = -⌊x⌋ - 1 := by
      rw [Int.floor_eq_iff]
      push_cast
      constructor
      · have := Int.lt_floor_add_one x
        linarith
      · linarith
    unfold roundHalfEven
    rw [hfl]
    push_cast
    split_ifs <;> first | omega | (exfalso; linarith)


/-! ### The binary exponent -/

theorem binaryLog_spec : ∀ fuel n : Nat, 1 ≤ n → n ≤ fuel →
    2 ^ binaryLog fuel n ≤ n ∧ n < 2 ^ (binaryLog fuel n + 1)
  | 0, n, h1, h2 => by omega
  | fuel + 1, n, h1, h2 => by
    unfold binaryLog
    split_ifs with h
    · simp
      omega
    · obtain ⟨h3, h4⟩ := binaryLog_spec fuel (n / 2) (by omega) (by omega)
      rw [pow_succ] at h4
      rw [pow_succ, pow_succ, pow_succ]
      generalize 2 ^ binaryLog fuel (n / 2) = P at h3 h4
      omega

/-- The binary exponent `e` of `x ≠ 0` satisfies `2 ^ e ≤ |x| < 2 ^ (e + 1)`. -/
theorem binaryExponent_spec {x : ℚ} (hx : x ≠ 0) :
    (2 : ℚ) ^ binaryExponent x ≤ |x| ∧ |x| < (2 : ℚ) ^ (binaryExponent x + 1) := by
  have hnum : 1 ≤ x.num.natAbs := by
    have : x.num ≠ 0 := fun h => hx (Rat.num_eq_zero.mp h)
    omega
  have hden : 1 ≤ x.den := x.den_pos
  obtain ⟨a1, a2⟩ := binaryLog_spec x.num.natAbs x.num.natAbs hnum (le_refl _)
  obtain ⟨b1, b2⟩ := binaryLog_spec x.den x.den hden (le_refl _)
  have habs : |x| = (x.num.natAbs : ℚ) / (x.den : ℚ) := by
    conv_lhs => rw [← Rat.num_div_den x]
    rw [abs_div, Nat.abs_cast, Nat.cast_natAbs, Int.cast_abs]
  have hd0 : (0 : ℚ) < x.den := by exact_mod_cast hden
  have a1q : (2 : ℚ) ^ binaryLog x.num.natAbs x.num.natAbs ≤ (x.num.natAbs : ℚ) := by
    exact_mod_cast a1
  have a2q : (x.num.natAbs : ℚ) < (2 : ℚ) ^ (binaryLog x.num.natAbs x.num.natAbs + 1) := by
    exact_mod_cast a2
  have b1q : (2 : ℚ) ^ binaryLog x.den x.den ≤ (x.den : ℚ) := by
    exact_mod_cast b1
  have b2q : (x.den : ℚ) < (2 : ℚ) ^ (binaryLog x.den x.den + 1) := by
    exact_mod_cast b2
  have two : (2 : ℚ) ≠ 0 := by norm_num
  have hlow : (2 : ℚ) ^ ((binaryLog x.num.natAbs x.num.natAbs : ℤ) -
      (binaryLog x.den x.den : ℤ) - 1) ≤ |x| := by
    rw [habs, sub_sub, zpow_sub₀ two, le_div_iff₀ hd0, div_mul_eq_mul_div,
      div_le_iff₀ (zpow_pos (by norm_num) _)]
    have e : (2 : ℚ) ^ ((binaryLog x.den x.den : ℤ) + 1) =
        (2 : ℚ) ^ (binaryLog x.den x.den + 1) := by
      rw [← zpow_natCast]
      push_cast
      rfl
    rw [e, zpow_natCast]
    exact mul_le_mul a1q b2q.le hd0.le (le_trans (by positivity) a1q)
  have hhigh : |x| < (2 : ℚ) ^ ((binaryLog x.num.natAbs x.num.natAbs : ℤ) -
      (binaryLog x.den x.den : ℤ) + 1) := by
    rw [habs, sub_add_eq_add_sub, zpow_sub₀ two, div_lt_div_iff₀ hd0 (zpow_pos (by norm_num) _)]
    have e : (2 : ℚ) ^ ((binaryLog x.num.natAbs x.num.natAbs : ℤ) + 1) =
        (2 : ℚ) ^ (binaryLog x.num.natAbs x.num.natAbs + 1) := by
      rw [← zpow_natCast]
      push_cast
      rfl
    rw [e, zpow_natCast]
    exact mul_lt_mul a2q b1q (by positivity) (by positivity)
  unfold binaryExponent
  simp only
  split_ifs with h
  · exact ⟨h, hhigh⟩
  · refine ⟨hlow, ?_⟩
    rw [sub_add_cancel]
    exact not_le.mp h

/-- The binary exponent is determined by the interval `[2 ^ e, 2 ^ (e + 1))`. -/
theorem binaryExponent_le_of_lt {x : ℚ} (hx : x ≠ 0) {t : ℤ} (h : |x| < (2 : ℚ) ^ (t + 1)) :
    binaryExponent x ≤ t := by
  have h1 := (binaryExponent_spec hx).1
  have := (zpow_lt_zpow_iff_right₀ (by norm_num : (1 : ℚ) < 2)).mp (lt_of_le_of_lt h1 h)
  omega

theorem binaryExponent_neg (x : ℚ) : binaryExponent (-x) = binaryExponent x := by
  unfold binaryExponent
  simp only [Rat.neg_num, Rat.neg_den, Int.natAbs_neg, abs_neg]


/-! ### Rounding on the grid of multiples of a quantum -/

theorem grid_mono {q : ℚ} (hq : 0 < q) {x y : ℚ} (h : x ≤ y) :
    roundHalfEven (x / q) * q ≤ roundHalfEven (y / q) * q := by
  apply mul_le_mul_of_nonneg_right _ hq.le
  exact_mod_cast roundHalfEven_mono (div_le_div_of_nonneg_right h hq.le)

theorem grid_le {q : ℚ} (hq : 0 < q) {x : ℚ} (n : ℤ) (h : x ≤ n * q) :
    roundHalfEven (x / q) * q ≤ n * q := by
  apply mul_le_mul_of_nonneg_right _ hq.le
  exact_mod_cast roundHalfEven_le_of_le (x / q) n ((div_le_iff₀ hq).mpr h)

theorem le_grid {q : ℚ} (hq : 0 < q) {x : ℚ} (n : ℤ) (h : n * q ≤ x) :
    n * q ≤ roundHalfEven (x / q) * q := by
  apply mul_le_mul_of_nonneg_right _ hq.le
  exact_mod_cast roundHalfEven_ge_of_le (x / q) n ((le_div_iff₀ hq).mpr h)

theorem grid_of_mul {q : ℚ} (hq : 0 < q) (n : ℤ) :
    roundHalfEven ((n : ℚ) * q / q) * q = n * q := by
  rw [mul_div_assoc, div_self hq.ne', mul_one, roundHalfEven_intCast]

theorem grid_neg (q x : ℚ) :
    roundHalfEven (-x / q) * q = -(roundHalfEven (x / q) * q) := by
  rw [neg_div, roundHalfEven_neg]
  push_cast
  ring

/-- A power of two with a non-negative exponent is an integer. -/
theorem zpow_two_eq_intCast {k : ℤ} (hk : 0 ≤ k) : ∃ n : ℤ, (2 : ℚ) ^ k = n ∧ 0 < n := by
  refine ⟨2 ^ k.toNat, ?_, by positivity⟩
  conv_lhs => rw [← Int.toNat_of_nonneg hk]
  rw [zpow_natCast]
  push_cast
  rfl

/-- A power of two is a whole multiple of every smaller power of two. -/
theorem zpow_two_eq_mul {t c : ℤ} (h : c ≤ t) :
    ∃ n : ℤ, (2 : ℚ) ^ t = n * (2 : ℚ) ^ c ∧ 0 < n := by
  obtain ⟨n, hn, hpos⟩ := zpow_two_eq_intCast (sub_nonneg.mpr h)
  refine ⟨n, ?_, hpos⟩
  rw [← hn, ← zpow_add₀ (by norm_num : (2 : ℚ) ≠ 0)]
  congr 1
  ring


/-! ### Conversion to a binary format -/

theorem roundToFormat_zero (p : Nat) (emin : ℤ) : roundToFormat p emin 0 = 0 := by
  unfold roundToFormat
  rw [if_pos rfl]

/-- The conversion rounds to the grid of multiples of the quantum of its argument. -/
theorem roundToFormat_eq (p : Nat) (emin : ℤ) (x : ℚ) :
    roundToFormat p emin x =
      roundHalfEven (x / 2 ^ (max (binaryExponent x) emin - ((p : ℤ) - 1))) *
        2 ^ (max (binaryExponent x) emin - ((p : ℤ) - 1)) := by
  unfold roundToFormat
  split_ifs with h
  · have h0 := roundHalfEven_intCast 0
    rw [Int.cast_zero] at h0
    rw [h, zero_div, h0, Int.cast_zero, zero_mul]
  · rfl

theorem roundToFormat_neg (p : Nat) (emin : ℤ) (x : ℚ) :
    roundToFormat p emin (-x) = -roundToFormat p emin x := by
  rw [roundToFormat_eq, roundToFormat_eq, binaryExponent_neg, grid_neg]

theorem roundToFormat_nonneg (p : Nat) (emin : ℤ) {x : ℚ} (h : 0 ≤ x) :
    0 ≤ roundToFormat p emin x := by
  rw [roundToFormat_eq]
  have := le_grid (zpow_pos (by norm_num : (0 : ℚ) < 2)
    (max (binaryExponent x) emin - ((p : ℤ) - 1))) 0 (x := x) (by simpa using h)
  simpa using this

theorem roundToFormat_nonpos (p : Nat) (emin : ℤ) {x : ℚ} (h : x ≤ 0) :
    roundToFormat p emin x ≤ 0 := by
  have := roundToFormat_nonneg p emin (neg_nonneg.mpr h)
  rw [roundToFormat_neg] at this
  linarith

theorem roundToFormat_mono_pos (p : Nat) (hp : 1 ≤ p) (emin : ℤ) {x y : ℚ} (hx : 0 < x)
    (h : x ≤ y) : roundToFormat p emin x ≤ roundToFormat p emin y := by
  have hy : 0 < y := lt_of_lt_of_le hx h
  have two : (0 : ℚ) < 2 := by norm_num
  have one : (1 : ℚ) < 2 := by norm_num
  obtain ⟨x1, x2⟩ := binaryExponent_spec hx.ne'
  obtain ⟨y1, y2⟩ := binaryExponent_spec hy.ne'
  rw [abs_of_pos hx] at x1 x2
  rw [abs_of_pos hy] at y1 y2
  have hexp : binaryExponent x ≤ binaryExponent y :=
    binaryExponent_le_of_lt hx.ne' (by rw [abs_of_pos hx]; exact lt_of_le_of_lt h y2)
  have hp1 : (1 : ℤ) ≤ (p : ℤ) := by exact_mod_cast hp
  rw [roundToFormat_eq, roundToFormat_eq]
  by_cases hm : max (binaryExponent x) emin = max (binaryExponent y) emin
  · rw [hm]
    exact grid_mono (zpow_pos two _) h
  · have hlt : max (binaryExponent x) emin + 1 ≤ binaryExponent y := by omega
    have hmy : max (binaryExponent y) emin = binaryExponent y := by omega
    obtain ⟨n1, e1, _⟩ := zpow_two_eq_mul
      (t := binaryExponent y) (c := max (binaryExponent x) emin - ((p : ℤ) - 1)) (by omega)
    obtain ⟨n2, e2, _⟩ := zpow_two_eq_mul
      (t := binaryExponent y) (c := max (binaryExponent y) emin - ((p : ℤ) - 1)) (by omega)
    have hxT : x ≤ (2 : ℚ) ^ binaryExponent y :=
      le_trans x2.le (zpow_le_zpow_right₀ one.le (by omega))
    have a := grid_le (zpow_pos two (max (binaryExponent x) emin - ((p : ℤ) - 1))) n1
      (x := x) (by rw [← e1]; exact hxT)
    have b := le_grid (zpow_pos two (max (binaryExponent y) emin - ((p : ℤ) - 1))) n2
      (x := y) (by rw [← e2]; exact y1)
    rw [← e1] at a
    rw [← e2] at b
    exact le_trans a b

/-- Conversion to a binary format is monotone. -/
theorem roundToFormat_mono (p : Nat) (hp : 1 ≤ p) (emin : ℤ) {x y : ℚ} (h : x ≤ y) :
    roundToFormat p emin x ≤ roundToFormat p emin y := by
  rcases lt_or_le 0 x with hx | hx
  · exact roundToFormat_mono_pos p hp emin hx h
  · rcases le_or_lt 0 y with hy | hy
    · exact le_trans (roundToFormat_nonpos p emin hx) (roundToFormat_nonneg p emin hy)
    · have := roundToFormat_mono_pos p hp emin (neg_pos.mpr hy) (neg_le_neg h)
      rw [roundToFormat_neg, roundToFormat_neg] at this
      linarith

/-- A multiple of its own quantum converts to itself. -/
theorem roundToFormat_of_mul (p : Nat) (emin : ℤ) (y : ℚ) (k : ℤ)
    (h : y = k * 2 ^ (max (binaryExponent y) emin - ((p : ℤ) - 1))) :
    roundToFormat p emin y = y := by
  rw [roundToFormat_eq]
  conv_lhs =>
    arg 1
    arg 1
    arg 1
    arg 1
    rw [h]
  rw [grid_of_mul (zpow_pos (by norm_num : (0 : ℚ) < 2) _)]
  exact h.symm

theorem roundToFormat_idem_pos (p : Nat) (hp : 1 ≤ p) (emin : ℤ) {x : ℚ} (hx : 0 < x) :
    roundToFormat p emin (roundToFormat p emin x) = roundToFormat p emin x := by
  have two : (0 : ℚ) < 2 := by norm_num
  have one : (1 : ℚ) < 2 := by norm_num
  have hp1 : (1 : ℤ) ≤ (p : ℤ) := by exact_mod_cast hp
  obtain ⟨_, x2⟩ := binaryExponent_spec hx.ne'
  rw [abs_of_pos hx] at x2
  rcases eq_or_lt_of_le (roundToFormat_nonneg p emin hx.le) with h0 | hpos
  · rw [← h0, roundToFormat_zero]
  · generalize hy : roundToFormat p emin x = y at hpos
    have hyx := roundToFormat_eq p emin x
    rw [hy] at hyx
    obtain ⟨y1, _⟩ := binaryExponent_spec hpos.ne'
    rw [abs_of_pos hpos] at y1
    by_cases hc : max (binaryExponent y) emin ≤ max (binaryExponent x) emin
    · obtain ⟨j, ej, _⟩ := zpow_two_eq_mul
        (t := max (binaryExponent x) emin - ((p : ℤ) - 1))
        (c := max (binaryExponent y) emin - ((p : ℤ) - 1)) (by omega)
      generalize roundHalfEven (x / 2 ^ (max (binaryExponent x) emin - ((p : ℤ) - 1))) = n
        at hyx
      refine roundToFormat_of_mul p emin y (n * j) ?_
      rw [Int.cast_mul, mul_assoc, ← ej]
      exact hyx
    · have hlt : max (binaryExponent x) emin + 1 ≤ binaryExponent y := by omega
      have hmy : max (binaryExponent y) emin = binaryExponent y := by omega
      obtain ⟨n1, e1, _⟩ := zpow_two_eq_mul
        (t := max (binaryExponent x) emin + 1)
        (c := max (binaryExponent x) emin - ((p : ℤ) - 1)) (by omega)
      have hxT : x ≤ (2 : ℚ) ^ (max (binaryExponent x) emin + 1) :=
        le_trans x2.le (zpow_le_zpow_right₀ one.le (by omega))
      have a := grid_le (zpow_pos two (max (binaryExponent x) emin - ((p : ℤ) - 1))) n1
        (x := x) (by rw [← e1]; exact hxT)
      rw [← e1, ← hyx] at a
      have b : (2 : ℚ) ^ (max (binaryExponent x) emin + 1) ≤ y :=
        le_trans (zpow_le_zpow_right₀ one.le hlt) y1
      have hyT : y = (2 : ℚ) ^ (max (binaryExponent x) emin + 1) := le_antisymm a b
      have hey : binaryExponent y = max (binaryExponent x) emin + 1 := by
        apply le_antisymm
        · apply binaryExponent_le_of_lt hpos.ne'
          rw [abs_of_pos hpos, hyT]
          exact zpow_lt_zpow_right₀ one (by omega)
        · exact hlt
      obtain ⟨n2, e2, _⟩ := zpow_two_eq_mul
        (t := binaryExponent y)
        (c := max (binaryExponent y) emin - ((p : ℤ) - 1)) (by omega)
      refine roundToFormat_of_mul p emin y n2 ?_
      rw [← e2, hey]
      exact hyT

/-- Conversion to a binary format leaves a value of the format as it is. -/
theorem roundToFormat_idem (p : Nat) (hp : 1 ≤ p) (emin : ℤ) (x : ℚ) :
    roundToFormat p emin (roundToFormat p emin x) = roundToFormat p emin x := by
  rcases lt_trichotomy x 0 with hx | hx | hx
  · have := roundToFormat_idem_pos p hp emin (neg_pos.mpr hx)
    rw [roundToFormat_neg, roundToFormat_neg] at this
    exact neg_injective this
  · rw [hx, roundToFormat_zero, roundToFormat_zero]
  · exact roundToFormat_idem_pos p hp emin hx

/-- IEEE 754 round-to-nearest has the properties that the statements about float arithmetic
assume. -/
theorem Rounding.ieee_sound : Rounding.ieee.Sound :=
  { single_mono := fun _ _ h => roundToFormat_mono 24 (by norm_num) (-126) h
    double_mono := fun _ _ h => roundToFormat_mono 53 (by norm_num) (-1022) h
    single_zero := roundToFormat_zero 24 (-126)
    double_zero := roundToFormat_zero 53 (-1022)
    single_idem := roundToFormat_idem 24 (by norm_num) (-126)
    single_turn := by decide!
    double_turn := by decide!
    hundredth := by decide! }

end Formats

/-! ## Claims C1, C2 and C29: the `PathPlus` distances in float arithmetic -/

section FloatEvaluation

/-- The distances that decide the claims about `Example.shortEnd`, by evaluation. -/
theorem Example.shortEnd_distances :
    Example.shortEnd.waypoints.length = 100 ∧
    (Example.shortEnd.waypoints.map Waypoint.dist)[49]? = some (11010049 / 524288) ∧
    (Example.shortEnd.waypoints.map Waypoint.dist)[98]? = some (11075585 / 524288) ∧
    (Example.shortEnd.waypoints.map Waypoint.dist)[99]? = some (169 / 8) ∧
    Example.shortEnd.length = 11075585 / 524288 := by
  decide!

/-- The distances that decide the claims about `Example.there`, by evaluation: every
waypoint lies before 14680065 / 262144, the last one at 56, and `length` is
7340033 / 131072 (56.00000762939453). -/
theorem Example.there_distances :
    Example.there.waypoints.length = 100 ∧
    (∀ w ∈ Example.there.waypoints, w.dist < 14680065 / 262144) ∧
    (Example.there.waypoints.map Waypoint.dist)[99]? = some 56 ∧
    Example.there.length = 7340033 / 131072 := by
  decide!

end FloatEvaluation

section ClaimsFloatDistances

/-- An entry of the list of distances is the distance of the waypoint at that index. -/
theorem Waypoint.getElem?_of_map_dist {α : Type} {ws : List (Waypoint α)} {k : Nat} {v : α}
    (h : (ws.map Waypoint.dist)[k]? = some v) : ∃ w, ws[k]? = some w ∧ w.dist = v := by
  rw [List.getElem?_map] at h
  cases hw : ws[k]? with
  | none => rw [hw] at h; cases h
  | some w =>
    rw [hw] at h
    exact ⟨w, rfl, Option.some.inj h⟩

/-- C1 fails in float arithmetic.  On the `PathPlus` A = (15, 0), B = (-6, 0),
C = (-5.875, 0) with tangents (0, 0), (0.375, 0), (0, 0), evaluated in IEEE binary32 as
`generate` writes its sums, the waypoint at index 98 has distance 11075585 / 524288
(21.125001907348633) and the last waypoint, at index 99, has distance 169 / 8 (21.125):
the distances decrease from index 98 to index 99. -/
theorem C1_pathPlus_distance_decreases :
    ∃ a b : Waypoint ℚ,
      (Rounded.DifferentialTrajectory.ofPathPlus Rounding.ieee Libm.onAxis
        Example.pathShortEnd (StaticProfile.mk5 1 1 0 0 1) false).waypoints[98]? = some a ∧
      (Rounded.DifferentialTrajectory.ofPathPlus Rounding.ieee Libm.onAxis
        Example.pathShortEnd (StaticProfile.mk5 1 1 0 0 1) false).waypoints[99]? = some b ∧
      a.dist = 11075585 / 524288 ∧ b.dist = 169 / 8 ∧ b.dist < a.dist ∧
      ¬ a.dist ≤ b.dist := by
  obtain ⟨_, _, h98, h99, _⟩ := Example.shortEnd_distances
  obtain ⟨a, ha, hda⟩ := Waypoint.getElem?_of_map_dist h98
  obtain ⟨b, hb, hdb⟩ := Waypoint.getElem?_of_map_dist h99
  refine ⟨a, b, ha, hb, hda, hdb, ?_, ?_⟩
  · rw [hda, hdb]
    norm_num
  · rw [hda, hdb]
    norm_num

/-- C2 fails in float arithmetic.  On the `PathPlus` of `Example.pathShortEnd` the last
waypoint has distance 169 / 8 (21.125) and the member `length` is 11075585 / 524288
(21.125001907348633); on that of `Example.pathThere` the last waypoint has distance 56 and
`length` is 7340033 / 131072 (56.00000762939453).  The last waypoint stores
`(L1 + dist) + magnitude`, `length` stores `L1 + (dist + magnitude)`, each sum rounded. -/
theorem C2_pathPlus_last_dist_below_length :
    (∃ last : Waypoint ℚ,
      (Rounded.DifferentialTrajectory.ofPathPlus Rounding.ieee Libm.onAxis
        Example.pathShortEnd (StaticProfile.mk5 1 1 0 0 1) false).waypoints.getLast? =
          some last ∧
      last.dist = 169 / 8 ∧
      (Rounded.DifferentialTrajectory.ofPathPlus Rounding.ieee Libm.onAxis
        Example.pathShortEnd (StaticProfile.mk5 1 1 0 0 1) false).length =
          11075585 / 524288 ∧
      last.dist < (Rounded.DifferentialTrajectory.ofPathPlus Rounding.ieee Libm.onAxis
        Example.pathShortEnd (StaticProfile.mk5 1 1 0 0 1) false).length) ∧
    (∃ last : Waypoint ℚ,
      (Rounded.DifferentialTrajectory.ofPathPlus Rounding.ieee Libm.onAxis
        Example.pathThere (StaticProfile.mk5 1 1 0 0 1) false).waypoints.getLast? =
          some last ∧
      last.dist = 56 ∧
      (Rounded.DifferentialTrajectory.ofPathPlus Rounding.ieee Libm.onAxis
        Example.pathThere (StaticProfile.mk5 1 1 0 0 1) false).length = 7340033 / 131072 ∧
      last.dist < (Rounded.DifferentialTrajectory.ofPathPlus Rounding.ieee Libm.onAxis
        Example.pathThere (StaticProfile.mk5 1 1 0 0 1) false).length) := by
  constructor
  · obtain ⟨hlen, _, _, h99, hL⟩ := Example.shortEnd_distances
    obtain ⟨b, hb, hdb⟩ := Waypoint.getElem?_of_map_dist h99
    refine ⟨b, ?_, hdb, hL, ?_⟩
    · show Example.shortEnd.waypoints.getLast? = some b
      rw [List.getLast?_eq_getElem?, hlen]
      exact hb
    · show b.dist < Example.shortEnd.length
      rw [hdb, hL]
      norm_num
  · obtain ⟨hlen, _, h99, hL⟩ := Example.there_distances
    obtain ⟨b, hb, hdb⟩ := Waypoint.getElem?_of_map_dist h99
    refine ⟨b, ?_, hdb, hL, ?_⟩
    · show Example.there.waypoints.getLast? = some b
      rw [List.getLast?_eq_getElem?, hlen]
      exact hb
    · show b.dist < Example.there.length
      rw [hdb, hL]
      norm_num

/-- C29 fails in float arithmetic.  On the trajectory that the `PathPlus` constructor builds
from A = (4, 0), B = (-16, 0), C = (20, 0) with tangents (-15, 0), (-2, 0), (6, 0), a drive
object that has travelled 14680065 / 262144 inches (56.000003814697266) and reads encoders at
rest computes a progress below 1, because `length` is 7340033 / 131072 (56.00000762939453):
the quotient `distanceTraveled / length` is below 1 and as a `float` it is
16777215 / 16777216 (0.99999994).  But the last waypoint lies at 56, so `trajectory.get`
runs off the end of the vector and `follow` throws. -/
theorem C29_follow_throws_on_pathPlus :
    0 < (Rounded.DifferentialTrajectory.ofPathPlus Rounding.ieee Libm.onAxis
      Example.pathThere (StaticProfile.mk5 1 1 0 0 1) false).length ∧
    (DifferentialDrive.localize Libm.onAxis Example.almostThere
      Example.readings).distanceTraveled = 14680065 / 262144 ∧
    fitToRange ((DifferentialDrive.localize Libm.onAxis Example.almostThere
      Example.readings).distanceTraveled /
      (Rounded.DifferentialTrajectory.ofPathPlus Rounding.ieee Libm.onAxis
        Example.pathThere (StaticProfile.mk5 1 1 0 0 1) false).length) 0 1 < 1 ∧
    Rounding.ieee.single ((DifferentialDrive.localize Libm.onAxis Example.almostThere
      Example.readings).distanceTraveled /
      (Rounded.DifferentialTrajectory.ofPathPlus Rounding.ieee Libm.onAxis
        Example.pathThere (StaticProfile.mk5 1 1 0 0 1) false).length) =
          16777215 / 16777216 ∧
    (∃ last : Waypoint ℚ,
      (Rounded.DifferentialTrajectory.ofPathPlus Rounding.ieee Libm.onAxis
        Example.pathThere (StaticProfile.mk5 1 1 0 0 1) false).waypoints.getLast? =
          some last ∧
      last.dist < (DifferentialDrive.localize Libm.onAxis Example.almostThere
        Example.readings).distanceTraveled) ∧
    (Rounded.DifferentialTrajectory.ofPathPlus Rounding.ieee Libm.onAxis
      Example.pathThere (StaticProfile.mk5 1 1 0 0 1) false).get
        (DifferentialDrive.localize Libm.onAxis Example.almostThere
          Example.readings).distanceTraveled = none ∧
    DifferentialDrive.follow Libm.onAxis Example.almostThere
      (Rounded.DifferentialTrajectory.ofPathPlus Rounding.ieee Libm.onAxis
        Example.pathThere (StaticProfile.mk5 1 1 0 0 1) false) Example.readings = none := by
  obtain ⟨hlen, hall, h99, hL⟩ := Example.there_distances
  obtain ⟨b, hb, hdb⟩ := Waypoint.getElem?_of_map_dist h99
  have hd : (DifferentialDrive.localize Libm.onAxis Example.almostThere
      Example.readings).distanceTraveled = 14680065 / 262144 := by
    decide!
  have hget : Example.there.get (14680065 / 262144) = none :=
    (Waypoint.lookup_eq_none_iff _ _).mpr hall
  have hp : fitToRange ((14680065 / 262144 : ℚ) / Example.there.length) 0 1 < 1 := by
    rw [hL]
    norm_num [fitToRange]
  have hq : Rounding.ieee.single ((14680065 / 262144 : ℚ) / Example.there.length) =
      16777215 / 16777216 := by
    rw [hL]
    decide!
  show 0 < Example.there.length ∧ _ ∧
    fitToRange (_ / Example.there.length) 0 1 < 1 ∧
    Rounding.ieee.single (_ / Example.there.length) = 16777215 / 16777216 ∧
    (∃ last : Waypoint ℚ, Example.there.waypoints.getLast? = some last ∧ _) ∧
    Example.there.get _ = none ∧
    DifferentialDrive.follow Libm.onAxis Example.almostThere Example.there Example.readings =
      none
  rw [hd]
  refine ⟨by rw [hL]; norm_num, rfl, hp, hq, ⟨b, ?_, by rw [hdb]; norm_num⟩, hget, ?_⟩
  · rw [List.getLast?_eq_getElem?, hlen]
    exact hb
  · unfold DifferentialDrive.follow
    simp only
    rw [hd, if_pos hp, hget]
    rfl

end ClaimsFloatDistances

/-! ## Claims C13, C14 and C18: `bound` and the orientation schedule in float arithmetic -/

section ClaimsFloatBound

variable {α : Type} [LinearOrderedField α] [FloorRing α]

omit [FloorRing α] in
/-- Arithmetic without rounding is sound. -/
theorem Rounding.exact_sound : (Rounding.exact : Rounding α).Sound :=
  { single_mono := fun _ _ h => h
    double_mono := fun _ _ h => h
    single_zero := rfl
    double_zero := rfl
    single_idem := fun _ => rfl
    single_turn := rfl
    double_turn := rfl
    hundredth := by
      show (0.01 : α) * 100 = 1
      norm_num }

/-- The `double` that `bound` reduces, and its remainder: the remainder lies in `[0, 360)`
and `bound` is its conversion to `float`. -/
theorem Rounded_bound_spec (r : Rounding α) (hr : r.Sound) (a : α) :
    ∃ k1 k2 : ℤ,
      0 ≤ r.double (a + 360 * k1) + 360 * k2 ∧ r.double (a + 360 * k1) + 360 * k2 < 360 ∧
      Rounded.bound r a = r.single (r.double (a + 360 * k1) + 360 * k2) := by
  have h360 : (0 : α) < 360 := by norm_num
  obtain ⟨⟨k, e⟩, ⟨l, _⟩, _⟩ := fmod_spec h360 a
  have hs : fmod a 360 + 360 = a + 360 * ((1 - k : ℤ) : α) := by
    rw [e]
    push_cast
    ring
  have ht : 0 ≤ r.double (fmod a 360 + 360) := by
    have := hr.double_mono 0 (fmod a 360 + 360) (by linarith)
    rwa [hr.double_zero] at this
  obtain ⟨⟨k', e'⟩, ⟨_, u'⟩, n'⟩ := fmod_spec h360 (r.double (fmod a 360 + 360))
  refine ⟨1 - k, -k', ?_, ?_, ?_⟩
  · rw [← hs]
    have := n' ht
    rw [e'] at this
    push_cast
    linarith
  · rw [← hs]
    rw [e'] at u'
    push_cast
    linarith
  · unfold Rounded.bound
    rw [e', ← hs]
    push_cast
    ring_nf

/-- `bound` in float arithmetic returns a value of the closed interval `[0, 360]`. -/
theorem Rounded_bound_mem (r : Rounding α) (hr : r.Sound) (a : α) :
    0 ≤ Rounded.bound r a ∧ Rounded.bound r a ≤ 360 := by
  obtain ⟨k1, k2, h0, h1, e⟩ := Rounded_bound_spec r hr a
  rw [e]
  constructor
  · have := hr.single_mono _ _ h0
    rwa [hr.single_zero] at this
  · have := hr.single_mono _ _ h1.le
    rwa [hr.single_turn] at this

/-- A `float` below 360 whose sum with 360 is a `double` is a fixed point of `bound`. -/
theorem Rounded_bound_eq_self (r : Rounding α) {b : α} (h0 : 0 ≤ b) (h1 : b < 360)
    (hb : r.single b = b) (hsum : r.double (b + 360) = b + 360) : Rounded.bound r b = b := by
  unfold Rounded.bound
  rw [fmod_eq_self_of_lt h0 h1, hsum, fmod_add_self_of_lt h0 h1, hb]

/-- `bound` takes 360 to 0. -/
theorem Rounded_bound_turn (r : Rounding α) (hr : r.Sound) : Rounded.bound r 360 = 0 := by
  have h : fmod (360 : α) 360 = 0 := by
    have := fmod_add_self_of_lt (le_refl (0 : α)) (by norm_num : (0 : α) < 360)
    rwa [zero_add] at this
  unfold Rounded.bound
  rw [h, zero_add, hr.double_turn, h, hr.single_zero]

/-- C13 fails in float arithmetic: `bound(-2⁻¹⁶)` is 360.  The remainder computed in `double`
is `360 - 2⁻¹⁶`, which lies half-way between the floats `360 - 2⁻¹⁵` and 360 and converts to
360.  The argument is a `float`, the result is not below 360 and does not differ from the
argument by a whole number of turns. -/
theorem C13_counterexample :
    binary32 (-1 / 65536) = -1 / 65536 ∧
    fmod (binary64 (fmod (-1 / 65536 : ℚ) 360 + 360)) 360 = 360 - 1 / 65536 ∧
    Rounded.bound Rounding.ieee (-1 / 65536) = 360 ∧
    ¬ Rounded.bound Rounding.ieee (-1 / 65536) < 360 ∧
    ¬ ∃ k : ℤ, Rounded.bound Rounding.ieee (-1 / 65536) - (-1 / 65536 : ℚ) = 360 * k := by
  have hb : Rounded.bound Rounding.ieee (-1 / 65536) = 360 := by decide!
  refine ⟨by decide!, by decide!, hb, by rw [hb]; norm_num, ?_⟩
  rw [hb]
  rintro ⟨k, hk⟩
  rcases le_or_lt k 1 with h | h
  · have : (k : ℚ) ≤ 1 := by exact_mod_cast h
    linarith
  · have : (2 : ℚ) ≤ k := by exact_mod_cast h
    linarith

/-- C13 (amended): in float arithmetic `bound(a)` lies in the closed interval `[0, 360]`.
It is the conversion to `float` of a remainder in `[0, 360)`, the remainder modulo 360 of
the `double` sum `fmod(a, 360) + 360`, which is `a` plus a whole number of turns, rounded to
`double`. -/
theorem C13_bound_in_closed_range (r : Rounding α) (hr : r.Sound) (a : α) :
    0 ≤ Rounded.bound r a ∧ Rounded.bound r a ≤ 360 ∧
    ∃ k1 k2 : ℤ,
      0 ≤ r.double (a + 360 * k1) + 360 * k2 ∧ r.double (a + 360 * k1) + 360 * k2 < 360 ∧
      Rounded.bound r a = r.single (r.double (a + 360 * k1) + 360 * k2) :=
  ⟨(Rounded_bound_mem r hr a).1, (Rounded_bound_mem r hr a).2, Rounded_bound_spec r hr a⟩

/-- C14 fails in float arithmetic: `bound(-2⁻¹⁶)` is 360 and `bound(360)` is 0. -/
theorem C14_counterexample :
    Rounded.bound Rounding.ieee (-1 / 65536) = 360 ∧
    Rounded.bound Rounding.ieee (Rounded.bound Rounding.ieee (-1 / 65536)) = 0 ∧
    Rounded.bound Rounding.ieee (Rounded.bound Rounding.ieee (-1 / 65536)) ≠
      Rounded.bound Rounding.ieee (-1 / 65536) := by
  have hb : Rounded.bound Rounding.ieee (-1 / 65536) = 360 := by decide!
  have hb' : Rounded.bound Rounding.ieee 360 = 0 := by decide!
  refine ⟨hb, by rw [hb, hb'], ?_⟩
  rw [hb, hb']
  norm_num

/-- `bound` of a value that need not be a number is NaN or lies in `[0, 360]`. -/
theorem Ext_bound_mem (r : Rounding α) (hr : r.Sound) (v : Ext α) :
    Ext.bound r v = .nan ∨ ∃ u : α, Ext.bound r v = .fin u ∧ 0 ≤ u ∧ u ≤ 360 := by
  cases v with
  | fin a => exact Or.inr ⟨_, rfl, Rounded_bound_mem r hr a⟩
  | posInf => exact Or.inl rfl
  | negInf => exact Or.inl rfl
  | nan => exact Or.inl rfl

/-- C18 fails in float arithmetic: with the keyframes `[(0, -2⁻¹⁶), (1, -2⁻¹⁶)]` the value
at `x = 0.5` is 360, and with two keyframes at the same position, `[(0, 0), (0, 90)]`, the
quotient `x / distError` is an infinity and the value at `x = 0.5` is NaN; neither lies in
`[0, 360)`. -/
theorem C18_counterexample :
    Rounded.InterpolateHolonomicPose Rounding.ieee Example.justBelowZero (1 / 2) =
      some (.fin 360) ∧
    Rounded.InterpolateHolonomicPose Rounding.ieee Example.zeroWidth (1 / 2) = some .nan := by
  constructor <;> decide!

/-- C18 (amended): in float arithmetic `InterpolateHolonomicPose` returns the sentinel -1 for
the empty keyframe list and every `x`; for a non-empty list a value it returns is NaN or a
number of the closed interval `[0, 360]`, and so never the sentinel -1. -/
theorem C18_sentinel_never_an_angle (r : Rounding α) (hr : r.Sound) :
    (∀ x : α, Rounded.InterpolateHolonomicPose r [] x = some (.fin (-1))) ∧
    (∀ (o : List (HolonomicPose α)) (x : α) (v : Ext α), o ≠ [] →
      Rounded.InterpolateHolonomicPose r o x = some v →
      (v = .nan ∨ ∃ u : α, v = .fin u ∧ 0 ≤ u ∧ u ≤ 360) ∧ v ≠ .fin (-1)) := by
  constructor
  · intro x
    rfl
  · intro o x v ho h
    have hne : o.isEmpty = false := by
      cases o with
      | nil => exact absurd rfl ho
      | cons a l => rfl
    unfold Rounded.InterpolateHolonomicPose at h
    simp only [hne, Bool.not_false, if_true, Option.bind_eq_bind, Option.bind_eq_some,
      Option.pure_def, Option.some.injEq] at h
    obtain ⟨s, _, lo, _, hi, _, rfl⟩ := h
    have hm := Ext_bound_mem r hr
      (Ext.add r.single
        (Ext.mul r.single
          (Ext.div r.single (.fin (r.single (x - lo.dist)))
            (.fin (r.single (hi.dist - lo.dist))))
          (.fin (Rounded.wrap r lo.angle hi.angle)))
        (.fin lo.angle))
    refine ⟨hm, ?_⟩
    rcases hm with h1 | ⟨u, h1, h0, _⟩
    · rw [h1]
      intro hc
      cases hc
    · rw [h1]
      intro hc
      have : u = -1 := Ext.fin.inj hc
      linarith

end ClaimsFloatBound

section ClaimsFloatBoundWitnesses

/-- C13 (amended) in IEEE arithmetic at the angle `-2⁻¹⁶`, where `bound` returns 360, the
upper end of the closed interval. -/
theorem C13_bound_in_closed_range_witness :
    Rounding.ieee.Sound ∧
    Rounded.bound Rounding.ieee (-1 / 65536) = 360 ∧
    0 ≤ Rounded.bound Rounding.ieee (-1 / 65536) ∧
    Rounded.bound Rounding.ieee (-1 / 65536) ≤ 360 ∧
    ∃ k1 k2 : ℤ,
      0 ≤ Rounding.ieee.double (-1 / 65536 + 360 * k1) + 360 * k2 ∧
      Rounding.ieee.double (-1 / 65536 + 360 * k1) + 360 * k2 < 360 ∧
      Rounded.bound Rounding.ieee (-1 / 65536) =
        Rounding.ieee.single (Rounding.ieee.double (-1 / 65536 + 360 * k1) + 360 * k2) :=
  ⟨Rounding.ieee_sound, by decide!,
    C13_bound_in_closed_range Rounding.ieee Rounding.ieee_sound (-1 / 65536)⟩

/-! ### Values of `bound` on the binary grid -/

/-- The binary exponent of a number of magnitude at least `2 ^ t` is at least `t`. -/
theorem binaryExponent_ge_of_le {x : ℚ} (hx : x ≠ 0) {t : ℤ} (h : (2 : ℚ) ^ t ≤ |x|) :
    t ≤ binaryExponent x := by
  have h2 := (binaryExponent_spec hx).2
  have := (zpow_lt_zpow_iff_right₀ (by norm_num : (1 : ℚ) < 2)).mp (lt_of_le_of_lt h h2)
  omega

/-- A multiple of a power of two is a multiple of every smaller power of two. -/
theorem multiple_of_le {x : ℚ} {k c : ℤ} (h : ∃ n : ℤ, x = n * (2 : ℚ) ^ k) (hc : c ≤ k) :
    ∃ n : ℤ, x = n * (2 : ℚ) ^ c := by
  obtain ⟨n, hn⟩ := h
  obtain ⟨j, hj, _⟩ := zpow_two_eq_mul hc
  exact ⟨n * j, by rw [hn, hj]; push_cast; ring⟩

/-- The value of a conversion is a multiple of the quantum of its argument. -/
theorem roundToFormat_multiple (p : Nat) (emin : ℤ) (x : ℚ) :
    ∃ n : ℤ, roundToFormat p emin x =
      n * (2 : ℚ) ^ (max (binaryExponent x) emin - ((p : ℤ) - 1)) :=
  ⟨_, roundToFormat_eq p emin x⟩

/-- Conversion to a binary format keeps the multiples of a power of two. -/
theorem roundToFormat_keeps_multiple (p : Nat) (emin : ℤ) {x : ℚ} {k : ℤ}
    (h : ∃ n : ℤ, x = n * (2 : ℚ) ^ k) :
    ∃ n : ℤ, roundToFormat p emin x = n * (2 : ℚ) ^ k := by
  rcases le_or_lt k (max (binaryExponent x) emin - ((p : ℤ) - 1)) with hk | hk
  · exact multiple_of_le (roundToFormat_multiple p emin x) hk
  · obtain ⟨m, hm⟩ := multiple_of_le h hk.le
    rw [roundToFormat_of_mul p emin x m hm]
    exact h

/-- A multiple of `2 ^ k` below `2 ^ (t + 1)` in magnitude is a value of the format when the
format resolves `2 ^ k` at the exponent `t`. -/
theorem roundToFormat_of_multiple (p : Nat) (emin : ℤ) {x : ℚ} {k t : ℤ}
    (h : ∃ n : ℤ, x = n * (2 : ℚ) ^ k) (hlt : |x| < (2 : ℚ) ^ (t + 1))
    (hk : t - ((p : ℤ) - 1) ≤ k) (hmin : emin - ((p : ℤ) - 1) ≤ k) :
    roundToFormat p emin x = x := by
  by_cases hx : x = 0
  · rw [hx, roundToFormat_zero]
  · have he := binaryExponent_le_of_lt hx hlt
    obtain ⟨m, hm⟩ := multiple_of_le h
      (c := max (binaryExponent x) emin - ((p : ℤ) - 1)) (by omega)
    exact roundToFormat_of_mul p emin x m hm

/-- The truncated remainder modulo 360 keeps the multiples of `2 ^ k` for `k ≤ 3`. -/
theorem fmod_keeps_multiple {x : ℚ} {k : ℤ} (hk : k ≤ 3)
    (h : ∃ n : ℤ, x = n * (2 : ℚ) ^ k) : ∃ n : ℤ, fmod x 360 = n * (2 : ℚ) ^ k := by
  obtain ⟨n, hn⟩ := h
  obtain ⟨⟨j, hj⟩, _, _⟩ := fmod_spec (by norm_num : (0 : ℚ) < 360) x
  obtain ⟨m, hm, _⟩ := zpow_two_eq_mul hk
  have h8 : (2 : ℚ) ^ (3 : ℤ) = 8 := by norm_num
  refine ⟨n - 45 * m * j, ?_⟩
  rw [hj, hn]
  push_cast
  have : (360 : ℚ) = 45 * (m * (2 : ℚ) ^ k) := by rw [← hm, h8]; norm_num
  rw [this]
  ring


/-- A value of a binary format of magnitude at least `2 ^ t` is a multiple of
`2 ^ (t - (p - 1))`. -/
theorem roundToFormat_value_multiple (p : Nat) (emin : ℤ) {y : ℚ}
    (hy : roundToFormat p emin y = y) {t : ℤ} (h : (2 : ℚ) ^ t ≤ |y|) :
    ∃ n : ℤ, y = n * (2 : ℚ) ^ (t - ((p : ℤ) - 1)) := by
  have hy0 : y ≠ 0 := by
    intro h0
    rw [h0, abs_zero] at h
    exact absurd h (not_le.mpr (zpow_pos (by norm_num) t))
  have he := binaryExponent_ge_of_le hy0 h
  have := roundToFormat_multiple p emin y
  rw [hy] at this
  exact multiple_of_le this (by omega)

/-- For a negative `x` the truncated remainder is not below `x`. -/
theorem fmod_ge_of_neg {x : ℚ} (hx : x < 0) : x ≤ fmod x 360 := by
  have hq : ¬ 0 ≤ x / 360 := by
    rw [not_le]
    exact div_neg_of_neg_of_pos hx (by norm_num)
  have hc : ⌈x / 360⌉ ≤ 0 := by
    rw [Int.ceil_le]
    exact (not_le.mp hq).le
  have hc' : ((⌈x / 360⌉ : ℤ) : ℚ) ≤ 0 := by exact_mod_cast hc
  simp only [fmod, if_neg hq]
  nlinarith

/-- The `double` that `bound` reduces, for a `float` argument, is a multiple of `2⁻⁴⁴`. -/
theorem Rounded_bound_sum_multiple {a : ℚ} (ha : binary32 a = a) :
    ∃ n : ℤ, binary64 (fmod a 360 + 360) = n * (2 : ℚ) ^ (-44 : ℤ) := by
  obtain ⟨_, ⟨hlo, hhi⟩, hnn⟩ := fmod_spec (by norm_num : (0 : ℚ) < 360) a
  have h360 : ∀ k : ℤ, k ≤ 3 → ∃ n : ℤ, (360 : ℚ) = n * (2 : ℚ) ^ k := by
    intro k hk
    obtain ⟨m, hm, _⟩ := zpow_two_eq_mul hk
    have h8 : (2 : ℚ) ^ (3 : ℤ) = 8 := by norm_num
    exact ⟨45 * m, by push_cast; rw [mul_assoc, ← hm, h8]; norm_num⟩
  by_cases hs : (256 : ℚ) ≤ fmod a 360 + 360
  · have h256 : binary64 256 = 256 := by decide!
    have hd : (256 : ℚ) ≤ binary64 (fmod a 360 + 360) := by
      have := roundToFormat_mono 53 (by norm_num) (-1022) hs
      rwa [show roundToFormat 53 (-1022) 256 = 256 from h256] at this
    have hval := roundToFormat_value_multiple 53 (-1022)
      (roundToFormat_idem 53 (by norm_num) (-1022) (fmod a 360 + 360)) (t := 8)
      (by
        show (2 : ℚ) ^ (8 : ℤ) ≤ |binary64 (fmod a 360 + 360)|
        rw [abs_of_nonneg (le_trans (by norm_num) hd)]
        have h8 : (2 : ℚ) ^ (8 : ℤ) = 256 := by norm_num
        rw [h8]
        exact hd)
    exact hval
  · have hs' : fmod a 360 + 360 < 256 := not_le.mp hs
    have ha0 : a < 0 := by
      by_contra hc
      have := hnn (not_lt.mp hc)
      linarith
    have hle := fmod_ge_of_neg ha0
    have hmul : ∃ n : ℤ, a = n * (2 : ℚ) ^ (-17 : ℤ) := by
      have := roundToFormat_value_multiple 24 (-126) (show roundToFormat 24 (-126) a = a from ha)
        (t := 6)
        (by
          rw [abs_of_neg ha0]
          have h6 : (2 : ℚ) ^ (6 : ℤ) = 64 := by norm_num
          rw [h6]
          linarith)
      exact this
    obtain ⟨n1, e1⟩ := fmod_keeps_multiple (by norm_num) hmul
    obtain ⟨n2, e2⟩ := h360 (-17) (by norm_num)
    have hsum : ∃ n : ℤ, fmod a 360 + 360 = n * (2 : ℚ) ^ (-17 : ℤ) :=
      ⟨n1 + n2, by rw [e1]; conv_lhs => rw [e2]
                   push_cast; ring⟩
    have hexact : binary64 (fmod a 360 + 360) = fmod a 360 + 360 :=
      roundToFormat_of_multiple 53 (-1022) hsum (t := 7)
        (by
          rw [abs_of_pos (by linarith)]
          have h8 : (2 : ℚ) ^ ((7 : ℤ) + 1) = 256 := by norm_num
          rw [h8]
          exact hs')
        (by norm_num) (by norm_num)
    rw [hexact]
    exact multiple_of_le hsum (by norm_num)

/-- The value of `bound` for a `float` argument is a `float` and a multiple of `2⁻⁴⁴`. -/
theorem Rounded_bound_multiple {a : ℚ} (ha : binary32 a = a) :
    binary32 (Rounded.bound Rounding.ieee a) = Rounded.bound Rounding.ieee a ∧
    ∃ n : ℤ, Rounded.bound Rounding.ieee a = n * (2 : ℚ) ^ (-44 : ℤ) :=
  ⟨roundToFormat_idem 24 (by norm_num) (-126) _,
    roundToFormat_keeps_multiple 24 (-126)
      (fmod_keeps_multiple (by norm_num) (Rounded_bound_sum_multiple ha))⟩

/-- For a `float` argument whose `bound` is below 360, the `double` sum `bound + 360` is
exact. -/
theorem Rounded_bound_add_turn_exact {a : ℚ} (ha : binary32 a = a)
    (hlt : Rounded.bound Rounding.ieee a < 360) :
    binary64 (Rounded.bound Rounding.ieee a + 360) = Rounded.bound Rounding.ieee a + 360 := by
  obtain ⟨hfl, n, hn⟩ := Rounded_bound_multiple ha
  have h0 := (Rounded_bound_mem Rounding.ieee Rounding.ieee_sound a).1
  generalize Rounded.bound Rounding.ieee a = b at hfl hn h0 hlt
  by_cases h : b + 360 < 512
  · refine roundToFormat_of_multiple 53 (-1022) (k := -44) (t := 8) ?_ ?_ (by norm_num)
      (by norm_num)
    · refine ⟨n + 360 * 2 ^ 44, ?_⟩
      rw [hn]
      push_cast
      have : (2 : ℚ) ^ (-44 : ℤ) * 2 ^ 44 = 1 := by norm_num
      linear_combination (-360 : ℚ) * this
    · rw [abs_of_nonneg (by linarith)]
      have h9 : (2 : ℚ) ^ ((8 : ℤ) + 1) = 512 := by norm_num
      rw [h9]
      exact h
  · have hb : (128 : ℚ) ≤ b := by linarith
    obtain ⟨m, hm⟩ := roundToFormat_value_multiple 24 (-126)
      (show roundToFormat 24 (-126) b = b from hfl) (t := 7)
      (by
        rw [abs_of_nonneg h0]
        have h7 : (2 : ℚ) ^ (7 : ℤ) = 128 := by norm_num
        rw [h7]
        exact hb)
    refine roundToFormat_of_multiple 53 (-1022) (k := -16) (t := 9) ?_ ?_ (by norm_num)
      (by norm_num)
    · refine ⟨m + 360 * 2 ^ 16, ?_⟩
      have e : ((7 : ℤ) - (((24 : ℕ) : ℤ) - 1)) = -16 := by norm_num
      rw [e] at hm
      rw [hm]
      push_cast
      have : (2 : ℚ) ^ (-16 : ℤ) * 2 ^ 16 = 1 := by norm_num
      linear_combination (-360 : ℚ) * this
    · rw [abs_of_nonneg (by linarith)]
      have h10 : (2 : ℚ) ^ ((9 : ℤ) + 1) = 1024 := by norm_num
      rw [h10]
      linarith

/-- C14 (amended): in IEEE arithmetic, for every `float` angle `a`, `bound(a)` is below 360
or equal to 360; when it is below 360, `bound(bound(a)) = bound(a)`, and when it is 360 (as
for `a = -2⁻¹⁶`), `bound(bound(a))` is 0. -/
theorem C14_bound_idempotent_below_turn (a : ℚ) (ha : Rounding.ieee.single a = a) :
    (Rounded.bound Rounding.ieee a < 360 ∨ Rounded.bound Rounding.ieee a = 360) ∧
    (Rounded.bound Rounding.ieee a < 360 →
      Rounded.bound Rounding.ieee (Rounded.bound Rounding.ieee a) =
        Rounded.bound Rounding.ieee a) ∧
    (Rounded.bound Rounding.ieee a = 360 →
      Rounded.bound Rounding.ieee (Rounded.bound Rounding.ieee a) = 0) := by
  obtain ⟨h0, h1⟩ := Rounded_bound_mem Rounding.ieee Rounding.ieee_sound a
  refine ⟨lt_or_eq_of_le h1, ?_, ?_⟩
  · intro hlt
    exact Rounded_bound_eq_self Rounding.ieee h0 hlt (Rounded_bound_multiple ha).1
      (Rounded_bound_add_turn_exact ha hlt)
  · intro h
    rw [h]
    exact Rounded_bound_turn Rounding.ieee Rounding.ieee_sound

/-- C14 (amended) at the angle 450, a `float`: `bound(450)` is 90, below 360, and
`bound(bound(450)) = bound(450)`. -/
theorem C14_bound_idempotent_below_turn_witness :
    Rounding.ieee.single 450 = 450 ∧
    Rounded.bound Rounding.ieee 450 = 90 ∧
    Rounded.bound Rounding.ieee 450 < 360 ∧
    Rounded.bound Rounding.ieee (Rounded.bound Rounding.ieee 450) =
      Rounded.bound Rounding.ieee 450 :=
  ⟨by decide!, by decide!, by decide!,
    (C14_bound_idempotent_below_turn 450 (by decide!)).2.1 (by decide!)⟩

/-- C18 (amended) in IEEE arithmetic on the keyframes `[(0, -2⁻¹⁶), (1, -2⁻¹⁶)]` at
`x = 0.5`: the value returned is 360, a number of `[0, 360]` and not the sentinel. -/
theorem C18_sentinel_never_an_angle_witness :
    Rounding.ieee.Sound ∧
    Example.justBelowZero ≠ [] ∧
    Rounded.InterpolateHolonomicPose Rounding.ieee Example.justBelowZero (1 / 2) =
      some (.fin 360) ∧
    ((Ext.fin 360 : Ext ℚ) = .nan ∨
      ∃ u : ℚ, (Ext.fin 360 : Ext ℚ) = .fin u ∧ 0 ≤ u ∧ u ≤ 360) ∧
    (Ext.fin 360 : Ext ℚ) ≠ .fin (-1) :=
  ⟨Rounding.ieee_sound, by decide, by decide!,
    (C18_sentinel_never_an_angle Rounding.ieee Rounding.ieee_sound).2
      Example.justBelowZero (1 / 2) (.fin 360) (by decide) (by decide!)⟩

end ClaimsFloatBoundWitnesses

/-! ## Claims C26, C27 and C28: the PID controller in float arithmetic -/

section ClaimsFloatPID

variable {α : Type} [LinearOrderedField α]

/-- The output of `get` in float arithmetic is the sum of the four terms, clamped when the
controller has a range. -/
theorem Rounded.PID.get_eq_terms (r : Rounding α) (s : PID α) (time position setpoint : α) :
    (Rounded.PID.get r s time position setpoint).1 =
      (if s.range then
        Ext.fitToRange
          (Rounded.PID.sum r (Rounded.PID.terms r s time position setpoint).1
            (Rounded.PID.terms r s time position setpoint).2.1
            (Rounded.PID.terms r s time position setpoint).2.2.1
            (Rounded.PID.terms r s time position setpoint).2.2.2) s.min s.max
      else
        Rounded.PID.sum r (Rounded.PID.terms r s time position setpoint).1
          (Rounded.PID.terms r s time position setpoint).2.1
          (Rounded.PID.terms r s time position setpoint).2.2.1
          (Rounded.PID.terms r s time position setpoint).2.2.2) := by
  unfold Rounded.PID.get Rounded.PID.terms Rounded.PID.sum
  cases hi : s.init <;> cases hr : s.range <;> simp [hi, hr]

/-- `get` in float arithmetic keeps the gains and the clamp. -/
theorem Rounded.PID.get_keeps (r : Rounding α) (s : PID α) (time position setpoint : α) :
    (Rounded.PID.get r s time position setpoint).2.p = s.p ∧
    (Rounded.PID.get r s time position setpoint).2.i = s.i ∧
    (Rounded.PID.get r s time position setpoint).2.d = s.d ∧
    (Rounded.PID.get r s time position setpoint).2.f = s.f ∧
    (Rounded.PID.get r s time position setpoint).2.range = s.range ∧
    (Rounded.PID.get r s time position setpoint).2.min = s.min ∧
    (Rounded.PID.get r s time position setpoint).2.max = s.max := by
  unfold Rounded.PID.get
  cases hi : s.init <;> cases hr : s.range <;> simp [hi, hr]

/-- Every reachable controller has the gains and the clamp of the one it started from. -/
theorem Rounded.PID.reachable_keeps {r : Rounding α} {start s : PID α}
    (h : Rounded.PID.Reachable r start s) :
    s.p = start.p ∧ s.i = start.i ∧ s.d = start.d ∧ s.f = start.f ∧
    s.range = start.range ∧ s.min = start.min ∧ s.max = start.max := by
  induction h with
  | start => exact ⟨rfl, rfl, rfl, rfl, rfl, rfl, rfl⟩
  | get s time position setpoint _ ih =>
    obtain ⟨h1, h2, h3, h4, h5, h6, h7⟩ := Rounded.PID.get_keeps r s time position setpoint
    obtain ⟨k1, k2, k3, k4, k5, k6, k7⟩ := ih
    exact ⟨h1.trans k1, h2.trans k2, h3.trans k3, h4.trans k4, h5.trans k5, h6.trans k6,
      h7.trans k7⟩
  | reset s _ ih => exact ih

/-- With a non-zero elapsed time the derivative term is a number, and so is the sum. -/
theorem Rounded.PID.sum_finite (r : Rounding α) (s : PID α) (time position setpoint : α)
    (hdt : Rounded.PID.elapsed r s time ≠ 0) :
    ∃ v : α, Rounded.PID.sum r (Rounded.PID.terms r s time position setpoint).1
      (Rounded.PID.terms r s time position setpoint).2.1
      (Rounded.PID.terms r s time position setpoint).2.2.1
      (Rounded.PID.terms r s time position setpoint).2.2.2 = .fin v := by
  unfold Rounded.PID.elapsed at hdt
  unfold Rounded.PID.sum Rounded.PID.terms
  simp only [Ext.div, if_neg hdt, Ext.mul, Ext.add]
  exact ⟨_, rfl⟩

/-- C26: in float arithmetic, a PID constructed with clamp bounds `min ≤ max` that are not
both zero returns a number of `[min, max]` from every `get` whose elapsed time is positive,
after every history of `get` and `reset` calls and for every gain and input; a PID
constructed with `min = max = 0` returns the unclamped sum `kp + ki + kd + kf`.  Gains and
inputs are numbers and no operation overflows, as everywhere in the float layer. -/
theorem C26_pid_output_in_clamp (r : Rounding α) (p i d f lo hi : α) :
    ((lo ≠ 0 ∨ hi ≠ 0) → lo ≤ hi →
      ∀ s : PID α, Rounded.PID.Reachable r (PID.new p i d f lo hi) s →
        ∀ time position setpoint : α, 0 < Rounded.PID.elapsed r s time →
          ∃ v : α, (Rounded.PID.get r s time position setpoint).1 = .fin v ∧
            lo ≤ v ∧ v ≤ hi) ∧
    (∀ s : PID α, Rounded.PID.Reachable r (PID.new p i d f 0 0) s →
      ∀ time position setpoint : α,
        (Rounded.PID.get r s time position setpoint).1 =
          Rounded.PID.sum r (Rounded.PID.terms r s time position setpoint).1
            (Rounded.PID.terms r s time position setpoint).2.1
            (Rounded.PID.terms r s time position setpoint).2.2.1
            (Rounded.PID.terms r s time position setpoint).2.2.2) := by
  constructor
  · intro hne hle s hs time position setpoint hdt
    obtain ⟨_, _, _, _, _, hr, _⟩ := PID_new_range p i d f lo hi
    obtain ⟨r1, r2, r3⟩ := hr hne
    obtain ⟨_, _, _, _, k5, k6, k7⟩ := Rounded.PID.reachable_keeps hs
    obtain ⟨v, hv⟩ := Rounded.PID.sum_finite r s time position setpoint hdt.ne'
    rw [Rounded.PID.get_eq_terms, k5, r1, if_pos rfl, k6, r2, k7, r3, hv]
    exact ⟨_, rfl, fitToRange_mem hle⟩
  · intro s hs time position setpoint
    obtain ⟨_, _, _, _, _, _, hr⟩ := PID_new_range p i d f (0 : α) 0
    obtain ⟨_, _, _, _, k5, _, _⟩ := Rounded.PID.reachable_keeps hs
    rw [Rounded.PID.get_eq_terms, k5, hr ⟨rfl, rfl⟩]
    simp

/-- C26 in IEEE arithmetic on the controller `PID(1, 2, 3, 4, -1, 1)`: its first `get`, at
the clock value 10 with position 0 and setpoint 5, has the elapsed time 1 and returns a
number of `[-1, 1]`. -/
theorem C26_pid_output_in_clamp_witness :
    ((-1 : ℚ) ≠ 0 ∨ (1 : ℚ) ≠ 0) ∧ (-1 : ℚ) ≤ 1 ∧
    Rounded.PID.elapsed Rounding.ieee (PID.new 1 2 3 4 (-1) 1) 10 = 1 ∧
    ∃ v : ℚ, (Rounded.PID.get Rounding.ieee (PID.new 1 2 3 4 (-1) 1) 10 0 5).1 = .fin v ∧
      -1 ≤ v ∧ v ≤ 1 :=
  ⟨Or.inl (by norm_num), by norm_num, by decide!,
    (C26_pid_output_in_clamp Rounding.ieee 1 2 3 4 (-1) 1).1 (Or.inl (by norm_num))
      (by norm_num) _ .start 10 0 5 (by decide!)⟩

/-- C28 (amended): the output of `get` is `kp + ki + kd + kf`, clamped when the controller
has a range, where the feed-forward term `kf` has the magnitude of the gain `f` and the sign
of `error = setpoint - position`: `|f|` for a positive error and `-|f|` for a negative one
(for a zero error its sign is that of the float zero).  So `kf` is `f * sign(error)` only
for `f ≥ 0` and a non-zero error; for a negative gain and a non-zero error it is
`-(f * sign(error))`, which has the sign of `error`; for a zero error it is not 0 unless
`f` is. -/
theorem C28_feedForward_of_get (r : Rounding α) (s : PID α) (time position setpoint : α) :
    ∃ kf : α,
      (Rounded.PID.get r s time position setpoint).1 =
        (if s.range then
          Ext.fitToRange
            (Rounded.PID.sum r (Rounded.PID.terms r s time position setpoint).1
              (Rounded.PID.terms r s time position setpoint).2.1
              (Rounded.PID.terms r s time position setpoint).2.2.1 kf) s.min s.max
        else
          Rounded.PID.sum r (Rounded.PID.terms r s time position setpoint).1
            (Rounded.PID.terms r s time position setpoint).2.1
            (Rounded.PID.terms r s time position setpoint).2.2.1 kf) ∧
      |kf| = |s.f| ∧
      (0 < r.single (setpoint - position) → kf = |s.f|) ∧
      (r.single (setpoint - position) < 0 → kf = -|s.f|) ∧
      (0 ≤ s.f → r.single (setpoint - position) ≠ 0 →
        kf = s.f * ((SignType.sign (r.single (setpoint - position)) : SignType) : α)) ∧
      (s.f < 0 → r.single (setpoint - position) ≠ 0 →
        kf = -(s.f * ((SignType.sign (r.single (setpoint - position)) : SignType) : α))) := by
  refine ⟨copysign s.f (r.single (setpoint - position)),
    Rounded.PID.get_eq_terms r s time position setpoint, ?_, ?_, ?_, ?_, ?_⟩
  · unfold copysign
    split_ifs
    · rw [abs_neg, abs_abs]
    · rw [abs_abs]
  · intro h
    unfold copysign
    rw [if_neg (not_lt.mpr h.le)]
  · intro h
    unfold copysign
    rw [if_pos h]
  · intro hf he
    unfold copysign
    rcases lt_or_gt_of_ne he with h | h
    · rw [if_pos h, sign_neg h, abs_of_nonneg hf]
      simp
    · rw [if_neg (not_lt.mpr h.le), sign_pos h, abs_of_nonneg hf]
      simp
  · intro hf he
    unfold copysign
    rcases lt_or_gt_of_ne he with h | h
    · rw [if_pos h, sign_neg h, abs_of_neg hf]
      simp
    · rw [if_neg (not_lt.mpr h.le), sign_pos h, abs_of_neg hf]
      simp

/-- On a first call the four terms depend on the gains only, not on the history. -/
theorem Rounded.PID.get_of_init (r : Rounding α) (s t : PID α) (hs : s.init = true)
    (ht : t.init = true) (hp : s.p = t.p) (hi : s.i = t.i) (hd : s.d = t.d) (hf : s.f = t.f)
    (hr : s.range = t.range) (hmin : s.min = t.min) (hmax : s.max = t.max)
    (time position setpoint : α) :
    (Rounded.PID.get r s time position setpoint).1 =
      (Rounded.PID.get r t time position setpoint).1 := by
  rw [Rounded.PID.get_eq_terms, Rounded.PID.get_eq_terms, hr, hmin, hmax]
  unfold Rounded.PID.terms
  simp only [hs, ht, hp, hi, hd, hf, if_true]

/-- C27 fails in float arithmetic at the clock value 16777220 ms (about 4 h 40 min), which is
a `float`: `time - 1` lies half-way between the floats 16777218 and 16777220 and is stored
as 16777220, so on the first `get` after `reset` or construction the elapsed time
`time - lastTime` is 0, not one tick; the derivative term divides `0` by `0`, and `get`
returns NaN for every gain, clamp and input.  The rest of the claim holds: after any history
the first `get` after `reset` returns what the first `get` of a freshly constructed
controller with the same gains and clamp returns, at every clock value; and at a clock value
`time` for which `time - 1` is a `float`, the elapsed time of that call is one tick and its
derivative term is 0. -/
theorem C27_first_get_at_large_clock_is_nan (s : PID ℚ) (p i d f lo hi position setpoint : ℚ) :
    binary32 16777220 = 16777220 ∧
    binary32 (16777220 - 1) = 16777220 ∧
    Rounded.PID.elapsed Rounding.ieee s.reset 16777220 = 0 ∧
    Rounded.PID.elapsed Rounding.ieee (PID.new p i d f lo hi) 16777220 = 0 ∧
    (Rounded.PID.terms Rounding.ieee s.reset 16777220 position setpoint).2.2.1 = .nan ∧
    (Rounded.PID.get Rounding.ieee s.reset 16777220 position setpoint).1 = .nan ∧
    (Rounded.PID.get Rounding.ieee (PID.new p i d f lo hi) 16777220 position setpoint).1 =
      .nan ∧
    (∀ t : PID ℚ, Rounded.PID.Reachable Rounding.ieee (PID.new p i d f lo hi) t →
      ∀ time : ℚ,
        (Rounded.PID.get Rounding.ieee t.reset time position setpoint).1 =
          (Rounded.PID.get Rounding.ieee (PID.new p i d f lo hi) time position setpoint).1) ∧
    (∀ time : ℚ, binary32 (time - 1) = time - 1 →
      Rounded.PID.elapsed Rounding.ieee s.reset time = 1 ∧
      (Rounded.PID.terms Rounding.ieee s.reset time position setpoint).2.2.1 = .fin 0) := by
  have h1 : binary32 (16777220 - 1) = 16777220 := by decide!
  have h0 : binary32 0 = 0 := by decide!
  have hone : binary32 1 = 1 := by decide!
  have hnan : ∀ t : PID ℚ, t.init = true →
      Rounded.PID.elapsed Rounding.ieee t 16777220 = 0 ∧
      (Rounded.PID.terms Rounding.ieee t 16777220 position setpoint).2.2.1 = .nan ∧
      (Rounded.PID.get Rounding.ieee t 16777220 position setpoint).1 = .nan := by
    intro t ht
    have he : Rounded.PID.elapsed Rounding.ieee t 16777220 = 0 := by
      unfold Rounded.PID.elapsed
      show binary32 (16777220 - (if t.init = true then binary32 (16777220 - 1)
        else t.lastTime)) = 0
      rw [if_pos ht, h1, sub_self, h0]
    have hk : (Rounded.PID.terms Rounding.ieee t 16777220 position setpoint).2.2.1 =
        .nan := by
      unfold Rounded.PID.terms
      show Ext.mul binary32 (.fin t.d)
        (Ext.div binary32 (.fin (binary32 (binary32 (setpoint - position) -
          (if t.init = true then binary32 (setpoint - position) else t.lastError))))
          (.fin (binary32 (16777220 - (if t.init = true then binary32 (16777220 - 1)
            else t.lastTime))))) = .nan
      rw [if_pos ht, if_pos ht, h1, sub_self, sub_self, h0]
      simp [Ext.div, Ext.mul]
    refine ⟨he, hk, ?_⟩
    rw [Rounded.PID.get_eq_terms, hk]
    unfold Rounded.PID.sum
    split_ifs <;> simp [Ext.add, Ext.fitToRange]
  have hinit : (PID.new p i d f lo hi).init = true := (PID_new_range p i d f lo hi).2.2.2.2.1
  refine ⟨by decide!, h1, (hnan s.reset rfl).1, (hnan _ hinit).1, (hnan s.reset rfl).2.1,
    (hnan s.reset rfl).2.2, (hnan _ hinit).2.2, ?_, ?_⟩
  · intro t ht time
    obtain ⟨k1, k2, k3, k4, k5, k6, k7⟩ := Rounded.PID.reachable_keeps ht
    exact Rounded.PID.get_of_init Rounding.ieee t.reset (PID.new p i d f lo hi) rfl hinit
      k1 k2 k3 k4 k5 k6 k7 time position setpoint
  · intro time htime
    have hr : s.reset.init = true := rfl
    have he : Rounded.PID.elapsed Rounding.ieee s.reset time = 1 := by
      unfold Rounded.PID.elapsed
      show binary32 (time - (if s.reset.init = true then binary32 (time - 1)
        else s.reset.lastTime)) = 1
      rw [if_pos hr, htime, sub_sub_cancel, hone]
    refine ⟨he, ?_⟩
    unfold Rounded.PID.terms
    show Ext.mul binary32 (.fin s.reset.d)
      (Ext.div binary32 (.fin (binary32 (binary32 (setpoint - position) -
        (if s.reset.init = true then binary32 (setpoint - position) else s.reset.lastError))))
        (.fin (binary32 (time - (if s.reset.init = true then binary32 (time - 1)
          else s.reset.lastTime))))) = .fin 0
    rw [if_pos hr, if_pos hr, htime, sub_self, sub_sub_cancel, h0, hone]
    simp [Ext.div, Ext.mul, h0]

end ClaimsFloatPID

/-! ## Claim C25: the velocity profile at a zero speed -/

section ClaimFloatProfile

variable {α : Type} [LinearOrderedField α]

end ClaimFloatProfile

/-! ## Claim C6: progress of the follow loop -/

section ClaimsFloatLookup

variable {α : Type} [LinearOrderedField α]

/-- A lookup at a distance that some waypoint reaches returns a waypoint. -/
theorem Waypoint.lookup_isSome_of_reach {ws : List (Waypoint α)} {d : α}
    (h : ∃ w ∈ ws, d ≤ w.dist) : (Waypoint.lookup ws d).isSome = true := by
  obtain ⟨w, hw, hd⟩ := h
  rcases hlook : Waypoint.lookup ws d with _ | v
  · exact absurd ((Waypoint.lookup_eq_none_iff ws d).mp hlook w hw) (not_lt.mpr hd)
  · rfl

/-- On a trajectory of positive length one of whose waypoints lies at or beyond `length`,
`follow` never throws. -/
theorem DifferentialDrive_follow_isSome_of_reach (m : Libm α) (s : DifferentialDrive α)
    (t : DifferentialTrajectory α) (r : Readings α) (hlen : 0 < t.length)
    (hreach : ∃ w ∈ t.waypoints, t.length ≤ w.dist) :
    (DifferentialDrive.follow m s t r).isSome = true := by
  by_cases hp : fitToRange ((DifferentialDrive.localize m s r).distanceTraveled / t.length) 0 1
      < 1
  · have hlt : (DifferentialDrive.localize m s r).distanceTraveled < t.length := by
      have := fitToRange_unit_lt_one hp
      rwa [div_lt_one hlen] at this
    obtain ⟨w0, hw0, hd0⟩ := hreach
    obtain ⟨w, hget⟩ := Option.isSome_iff_exists.mp
      (Waypoint.lookup_isSome_of_reach ⟨w0, hw0, le_trans hlt.le hd0⟩)
    have hget' : t.get (DifferentialDrive.localize m s r).distanceTraveled = some w := hget
    unfold DifferentialDrive.follow
    simp only
    rw [if_pos hp, hget']
    simp only [Option.bind_eq_bind, Option.some_bind, Option.pure_def]
    split_ifs <;> rfl
  · unfold DifferentialDrive.follow
    simp only
    rw [if_neg hp]
    rfl

theorem DifferentialDrive_run_isSome_of_reach (m : Libm α) (t : DifferentialTrajectory α)
    (hlen : 0 < t.length) (hreach : ∃ w ∈ t.waypoints, t.length ≤ w.dist) :
    ∀ (calls : List (DriveCall α)) (s : DifferentialDrive α),
      (DifferentialDrive.run m t s calls).isSome = true := by
  intro calls
  induction calls with
  | nil => intro s; rfl
  | cons call rest ih =>
    intro s
    cases call with
    | follow r =>
      obtain ⟨out, hout⟩ := Option.isSome_iff_exists.mp
        (DifferentialDrive_follow_isSome_of_reach m s t r hlen hreach)
      obtain ⟨tl, htl⟩ := Option.isSome_iff_exists.mp (ih out.2.1)
      simp only [DifferentialDrive.run, hout, Option.bind_eq_bind, Option.some_bind, htl,
        Option.pure_def, Option.isSome_some]
    | localize r =>
      simp only [DifferentialDrive.run]
      exact ih _

/-- On a trajectory of positive length one of whose waypoints lies at or beyond `length`,
`follow` never throws. -/
theorem HolonomicDrive_follow_isSome_of_reach (m : Libm α) (s : HolonomicDrive α)
    (t : HolonomicTrajectory α) (r : Readings α) (hlen : 0 < t.length)
    (hreach : ∃ w ∈ t.waypoints, t.length ≤ w.dist) :
    (HolonomicDrive.follow m s t r).isSome = true := by
  by_cases hp : fitToRange ((HolonomicDrive.localize m s r).distanceTraveled / t.length) 0 1
      < 1
  · have hlt : (HolonomicDrive.localize m s r).distanceTraveled < t.length := by
      have := fitToRange_unit_lt_one hp
      rwa [div_lt_one hlen] at this
    obtain ⟨w0, hw0, hd0⟩ := hreach
    obtain ⟨w, hget⟩ := Option.isSome_iff_exists.mp
      (Waypoint.lookup_isSome_of_reach ⟨w0, hw0, le_trans hlt.le hd0⟩)
    have hget' : t.get (HolonomicDrive.localize m s r).distanceTraveled = some w := hget
    unfold HolonomicDrive.follow
    simp only
    rw [if_pos hp, hget']
    simp only [Option.bind_eq_bind, Option.some_bind, Option.pure_def]
    split_ifs <;> rfl
  · unfold HolonomicDrive.follow
    simp only
    rw [if_neg hp]
    rfl

theorem HolonomicDrive_run_isSome_of_reach (m : Libm α) (t : HolonomicTrajectory α)
    (hlen : 0 < t.length) (hreach : ∃ w ∈ t.waypoints, t.length ≤ w.dist) :
    ∀ (calls : List (DriveCall α)) (s : HolonomicDrive α),
      (HolonomicDrive.run m t s calls).isSome = true := by
  intro calls
  induction calls with
  | nil => intro s; rfl
  | cons call rest ih =>
    intro s
    cases call with
    | follow r =>
      obtain ⟨out, hout⟩ := Option.isSome_iff_exists.mp
        (HolonomicDrive_follow_isSome_of_reach m s t r hlen hreach)
      obtain ⟨tl, htl⟩ := Option.isSome_iff_exists.mp (ih out.2.1)
      simp only [HolonomicDrive.run, hout, Option.bind_eq_bind, Option.some_bind, htl,
        Option.pure_def, Option.isSome_some]
    | localize r =>
      simp only [HolonomicDrive.run]
      exact ih _

/-- C6: for a trajectory of positive length, the value `follow` returns is
`fitToRange(distanceTraveled / length, 0, 1)` with `distanceTraveled` as that call's
`localize` left it, which is never less than before the call; along any sequence of
`follow` and `localize` calls the returned values lie in `[0, 1]`, never decrease, and stay at
1 once a call has returned 1; and when a waypoint of the trajectory lies at or beyond
`length`, no call throws.  Stated for `DifferentialDrive` and `HolonomicDrive`; `hypot` is
assumed to return non-negative values. -/
theorem C6_follow_progress_values (m : Libm α) (hh : ∀ x y : α, 0 ≤ m.hypot x y) :
    (∀ t : DifferentialTrajectory α, 0 < t.length →
      (∀ (s : DifferentialDrive α) (r : Readings α) (v : α) (s' : DifferentialDrive α)
          (c : MotorCommand α),
        DifferentialDrive.follow m s t r = some (v, s', c) →
        v = fitToRange ((DifferentialDrive.localize m s r).distanceTraveled / t.length) 0 1 ∧
        s'.distanceTraveled = (DifferentialDrive.localize m s r).distanceTraveled ∧
        s.distanceTraveled ≤ s'.distanceTraveled) ∧
      (∀ (s : DifferentialDrive α) (calls : List (DriveCall α)) (vals : List α)
          (s' : DifferentialDrive α),
        DifferentialDrive.run m t s calls = some (vals, s') →
        ProgressSequence vals ∧ s.distanceTraveled ≤ s'.distanceTraveled) ∧
      ((∃ w ∈ t.waypoints, t.length ≤ w.dist) →
        ∀ (s : DifferentialDrive α) (calls : List (DriveCall α)),
          (DifferentialDrive.run m t s calls).isSome = true)) ∧
    (∀ t : HolonomicTrajectory α, 0 < t.length →
      (∀ (s : HolonomicDrive α) (r : Readings α) (v : α) (s' : HolonomicDrive α)
          (c : MotorCommand α),
        HolonomicDrive.follow m s t r = some (v, s', c) →
        v = fitToRange ((HolonomicDrive.localize m s r).distanceTraveled / t.length) 0 1 ∧
        s'.distanceTraveled = (HolonomicDrive.localize m s r).distanceTraveled ∧
        s.distanceTraveled ≤ s'.distanceTraveled) ∧
      (∀ (s : HolonomicDrive α) (calls : List (DriveCall α)) (vals : List α)
          (s' : HolonomicDrive α),
        HolonomicDrive.run m t s calls = some (vals, s') →
        ProgressSequence vals ∧ s.distanceTraveled ≤ s'.distanceTraveled) ∧
      ((∃ w ∈ t.waypoints, t.length ≤ w.dist) →
        ∀ (s : HolonomicDrive α) (calls : List (DriveCall α)),
          (HolonomicDrive.run m t s calls).isSome = true)) := by
  refine ⟨?_, ?_⟩
  · intro t hlen
    refine ⟨?_, ?_, ?_⟩
    · intro s r v s' c h
      obtain ⟨h1, h2⟩ := DifferentialDrive_follow_value m s t r v s' c h
      exact ⟨h1, h2, by rw [h2]; exact DifferentialDrive_localize_distanceTraveled m hh s r⟩
    · intro s calls vals s' h
      obtain ⟨h1, h2, h3⟩ := DifferentialDrive_run_values m hh t hlen calls s vals s' h
      exact ⟨progressSequence_of_pairwise (fun v hv => (h2 v hv).2) h3, h1⟩
    · intro hreach s calls
      exact DifferentialDrive_run_isSome_of_reach m t hlen hreach calls s
  · intro t hlen
    refine ⟨?_, ?_, ?_⟩
    · intro s r v s' c h
      obtain ⟨h1, h2⟩ := HolonomicDrive_follow_value m s t r v s' c h
      exact ⟨h1, h2, by rw [h2]; exact HolonomicDrive_localize_distanceTraveled m hh s r⟩
    · intro s calls vals s' h
      obtain ⟨h1, h2, h3⟩ := HolonomicDrive_run_values m hh t hlen calls s vals s' h
      exact ⟨progressSequence_of_pairwise (fun v hv => (h2 v hv).2) h3, h1⟩
    · intro hreach s calls
      exact HolonomicDrive_run_isSome_of_reach m t hlen hreach calls s

/-- C6 at the rational math library: its `hypot` is non-negative, the trajectory
`Example.differential` has the positive length 2 and a waypoint at distance 2, and the call
sequence follow, localize, follow on a new drive object returns. -/
theorem C6_follow_progress_values_witness :
    (∀ x y : ℚ, 0 ≤ Libm.onAxis.hypot x y) ∧
    0 < Example.differential.length ∧
    (∃ w ∈ Example.differential.waypoints, Example.differential.length ≤ w.dist) ∧
    (DifferentialDrive.run Libm.onAxis Example.differential DifferentialDrive.new
      [.follow Example.readings, .localize Example.readings,
       .follow Example.readings]).isSome = true := by
  have hlen : 0 < Example.differential.length := by
    show (0 : ℚ) < 2
    norm_num
  have hreach : ∃ w ∈ Example.differential.waypoints, Example.differential.length ≤ w.dist :=
    ⟨{ type := .linear, dist := 2, heading := ⟨0, 2, 0⟩ },
      by simp [Example.differential, Example.waypoints],
      by show (2 : ℚ) ≤ 2; norm_num⟩
  exact ⟨Libm.onAxis_hypot_nonneg, hlen, hreach,
    ((C6_follow_progress_values Libm.onAxis Libm.onAxis_hypot_nonneg).1 _ hlen).2.2
      hreach _ _⟩

end ClaimsFloatLookup

/-! ## Claim C4: `get(length)` in float arithmetic -/

section ClaimFloatLength

variable {α : Type} [LinearOrderedField α] [FloorRing α]

end ClaimFloatLength

end Vex
